import Mathlib

/-!
# Residual heap visitor: a shallow embedding

This file embeds the reachability and closure-capture analysis of
`src/serializer/ResidualHeapVisitor.js`: the pass that walks the abstracted
heap produced by the partial evaluator and computes the visited-value set,
per-object ignorable-property sets, global and declarative binding tables,
and per-function capture tables.

The heap is modelled as a finite store of `Value`s addressed by natural
numbers (JavaScript object identity becomes index identity), so that
arbitrary reference cycles are representable.  The visitor's recursive
procedures are embedded as a small-step task machine: each source procedure
is either inlined into the expansion of a task or is a task constructor of
its own, and tasks are processed in LIFO order, which reproduces the
JavaScript call sequencing exactly (a nested call's work happens before the
statements that follow it).  The machine is driven by a fuel-indexed
iterator `runF`; termination (enough fuel always exists) is proved from a
lexicographic measure.

External collaborators that live outside this repository's source file
(the lexical-scope resolver, the free-variable analyzer, the realm
intrinsics, the generator) are modelled from the spec as fields of `Heap`,
each marked in its doc comment.
-/

/-- One entry of a Map/WeakMap's engine-maintained entry list
($MapData / $WeakMapData); a cleared weak entry has `key`/`value` absent. -/
structure MapEntry where
  key : Option Nat
  value : Option Nat
  deriving Repr, DecidableEq

/-- Primitive leaf values.  `number n` is a NumberValue carrying its numeric
value (used by the RegExp `lastIndex` default check), `undef` is
UndefinedValue, `empty` is EmptyValue, `otherPrim` covers the remaining
primitives (strings, booleans, null). -/
inductive PrimKind where
  | number (n : Int)
  | undef
  | empty
  | otherPrim
  deriving Repr, DecidableEq

/-- A property descriptor: the three standard flags plus optional `value`,
`get` and `set` value references (absent models `undefined`). -/
structure Descriptor where
  writable : Bool
  enumerable : Bool
  configurable : Bool
  value : Option Nat
  get : Option Nat
  set : Option Nat
  deriving Repr, DecidableEq

/-- Which flavor of function a FunctionValue is: a plain ECMAScript function
(with its body's identity `code`, its owning environment `env`), a bound
function (BoundFunctionValue: target, bound this, bound arguments), or a
native function. -/
inductive FnKind where
  | plain (code : Nat) (env : Nat)
  | bound (target : Nat) (boundThis : Nat) (boundArgs : List Nat)
  | native
  deriving Repr, DecidableEq

/-- FunctionValue data: its kind together with the fields the visitor
reads: `$Strict`, `$FunctionKind`, `hasDefaultLength()` and `isResidual`. -/
structure FnData where
  kind : FnKind
  strict : Bool
  functionKind : String
  hasDefaultLength : Bool
  isResidual : Bool
  deriving Repr, DecidableEq

/-- Classifies an ObjectValue: a plain object, a FunctionValue, or a
ProxyValue with its $ProxyTarget and $ProxyHandler. -/
inductive ObjClass where
  | plainObj
  | fn (f : FnData)
  | proxy (target : Nat) (handler : Nat)
  deriving Repr, DecidableEq

/-- ObjectValue data.  `properties` is the ordered own-property map
(`none` descriptor means deleted); `symbolsSize` is `symbols.size`;
`prototype` is `$Prototype`; `kind` is what `getKind()` returns;
`originalConstructor` the default-constructor back-reference;
`unknownProperty` the computed-name chain slot (outer `none` = no unknown
property, inner `none` = its descriptor is undefined); the remaining
fields model the internal slots `$DateValue`, `$ViewedArrayBuffer`,
`$MapData`, `$WeakMapData`, `$SetData`, `$WeakSetData`, `$ParameterMap`. -/
structure ObjData where
  properties : List (String × Option Descriptor)
  symbolsSize : Nat
  prototype : Nat
  extensible : Bool
  kind : String
  originalConstructor : Option Nat
  unknownProperty : Option (Option Descriptor)
  dateValue : Option Nat
  viewedArrayBuffer : Option Nat
  mapData : Option (List MapEntry)
  weakMapData : Option (List MapEntry)
  setData : Option (List (Option Nat))
  weakSetData : Option (List (Option Nat))
  parameterMap : Option Nat
  cls : ObjClass
  deriving Repr, DecidableEq

/-- The tagged variant of a heap value: primitive leaf, SymbolValue,
AbstractValue (operation kind tag, `hasIdentifier()`, ordered operand
references), or ObjectValue. -/
inductive ValData where
  | prim (p : PrimKind)
  | symbol
  | abstract (kind : String) (hasIdentifier : Bool) (args : List Nat)
  | obj (o : ObjData)
  deriving Repr, DecidableEq

/-- A heap value: its `isIntrinsic()` flag plus its variant data. -/
structure Value where
  intrinsic : Bool
  data : ValData
  deriving Repr, DecidableEq

/-- A binding slot of a DeclarativeEnvironmentRecord (`r.bindings[n]`):
deletability, initialized flag, and current value (absent models a falsy
`binding.value`). -/
structure DeclBinding where
  deletable : Bool
  initialized : Bool
  value : Option Nat
  deriving Repr, DecidableEq

/-- The result of the free-variable analyzer for one function body:
the referenced-but-not-locally-bound identifier names in insertion order,
the subset of those ever reassigned inside the body, and the
`usesArguments` / `usesThis` flags. -/
structure FunctionInfo where
  names : List String
  modified : List String
  usesArguments : Bool
  usesThis : Bool

/-- The resolved name inside a Reference: a plain string or a symbol. -/
inductive RefName where
  | str (s : String)
  | sym
  deriving Repr, DecidableEq

/-- The base of a resolved Reference: the GlobalEnvironmentRecord, a
DeclarativeEnvironmentRecord (by index into `Heap.decls`), or some other
environment record kind (e.g. an object environment record). -/
inductive RefBase where
  | global
  | decl (r : Nat)
  | other
  deriving Repr, DecidableEq

/-- A resolved reference returned by the lexical-scope resolver. -/
structure Reference where
  base : RefBase
  referencedName : RefName
  deriving Repr, DecidableEq

/-- The immutable heap snapshot together with the external collaborators
the visitor consults, read-only throughout one pass.

`vals` is the value store (identity = index).  `decls` is the store of
DeclarativeEnvironmentRecords (each a name-to-binding table).

Modelled from the spec (external components not in src/):
- `analysis`: the Free-Variable Analyzer (babel `traverse` with
  `ClosureRefVisitor`), a pure function from a body identity to its
  `FunctionInfo` (spec section 4.3: computed once per distinct body).
- `resolve`: `ResolveBinding` wrapped in `Logger.tryQuery` (spec section 6:
  given a name and an originating environment, return an unresolvable
  marker — here `none`, which also covers a thrown error — or a reference).
- `intrinsics`: the realm's intrinsics table, consulted at
  `realm.intrinsics[kind + "Prototype"]` and `realm.intrinsics.ObjectPrototype`.
- `undefinedId`: `realm.intrinsics.undefined`.
- `globalLet`: `realm.getGlobalLetBinding` (absence is valid).
- `generatorVals`: the Values the generator's `visit` touches, in
  registration order (spec section 6).
- `modulesVals`: the values of `modules.initializedModules`, in order. -/
structure Heap where
  vals : List Value
  decls : List (List (String × DeclBinding))
  analysis : Nat → FunctionInfo
  resolve : String → Nat → Option Reference
  intrinsics : List (String × Nat)
  undefinedId : Nat
  globalLet : List (String × Nat)
  generatorVals : List Nat
  modulesVals : List Nat

/-- A VisitedBinding record: origin flag (`global`), current value
(absent only possible for global bindings), sticky `modified` flag, and
the owning declarative record for lexical bindings. -/
structure VisitedBinding where
  global : Bool
  value : Option Nat
  modified : Bool
  declarativeEnvironmentRecord : Option Nat
  deriving Repr, DecidableEq

/-- The visitor's mutable state: the visited-identity set `values`, the
per-object ignorable-property sets, the declarative and global binding
tables (holding indices into the shared binding `store`, which models
JavaScript object aliasing of VisitedBinding records), the per-function
capture tables, the set of function bodies already analyzed
(`functionInfos` keys), the diagnostics emitted so far, and the fatal
error slot (a thrown exception or failed invariant, which aborts the
pass). -/
structure VState where
  values : Finset Nat
  ignoredProperties : List (Nat × List String)
  declBindings : List (Nat × List (String × Nat))
  globalBindings : List (String × Nat)
  store : List VisitedBinding
  functionBindings : List (Nat × List (String × Nat))
  doneCodes : Finset Nat
  diagnostics : List (Nat × String)
  fatal : Option String
  deriving DecidableEq

/-- The pending work of the visitor, in LIFO order.  `visit v` is a call
to `visitValue(v)`.  The other constructors are the continuation points of
the source procedures that interleave state reads and writes with nested
`visitValue` calls:
- `props v ps`: the remaining iterations of the property loop of
  `visitObjectProperties(v)`;
- `unknown v`: the computed-names block of `visitObjectProperties`;
- `proto v`: `visitObjectPrototype(v)`;
- `ctorProto v`: `visitConstructorPrototype(v)`;
- `cn a`: `visitObjectPropertiesWithComputedNames(a)`;
- `arrayLen v`: the trailing length check of `visitValueArray`;
- `objRest v`: the part of `visitValueObject` after `visitObjectProperties`;
- `fnRest v`: the part of `visitValueFunction` after `visitObjectProperties`
  for a plain function (function-info memoization, then the loop);
- `fnames fn code names acc`: the remaining iterations of the free-name
  resolution loop of `visitValueFunction`, with the capture entries
  accumulated so far;
- `afterName fn code n bid rest acc`: the statements after the nested
  binding-value visit for one name `n`: record the capture and apply the
  modified flag, then continue the loop. -/
inductive VTask where
  | visit (v : Nat)
  | props (v : Nat) (ps : List (String × Option Descriptor))
  | unknown (v : Nat)
  | proto (v : Nat)
  | ctorProto (v : Nat)
  | cn (a : Nat)
  | arrayLen (v : Nat)
  | objRest (v : Nat)
  | fnRest (v : Nat)
  | fnames (fn : Nat) (code : Nat) (names : List String) (acc : List (String × Nat))
  | afterName (fn : Nat) (code : Nat) (n : String) (bid : Nat) (rest : List String)
      (acc : List (String × Nat))
  deriving DecidableEq

/-- A machine configuration: visitor state plus pending task stack. -/
abbrev Config := VState × List VTask

/-- Heap value lookup: JavaScript reference dereference. -/
def Heap.val? (H : Heap) (v : Nat) : Option Value :=
  H.vals.get? v

/-- Association-list lookup used for the realm tables and binding maps. -/
def alist {α : Type} (l : List (String × α)) (k : String) : Option α :=
  (l.find? (fun p => p.1 == k)).map Prod.snd

/-- Lookup in a Nat-keyed association list. -/
def nlist {α : Type} (l : List (Nat × α)) (k : Nat) : Option α :=
  (l.find? (fun p => p.1 == k)).map Prod.snd

/-- Whether a value is a FunctionValue (`val instanceof FunctionValue`). -/
def isFunction (val : Value) : Bool :=
  match val.data with
  | .obj o => match o.cls with | .fn _ => true | _ => false
  | _ => false

/-- Modelled from the spec: `IsArray` from `../methods` (spec section 4.1
dispatches an "Array-kind object" to array visitation).  A non-proxy,
non-function object whose kind tag is `"Array"`. -/
def IsArray (val : Value) : Bool :=
  match val.data with
  | .obj o => o.cls == .plainObj && o.kind == "Array"
  | _ => false

/-- `ResidualHeapVisitor.isLeaf`: symbols are not leaves; an AbstractValue
with a stable identifier is a leaf; intrinsics are not leaves; otherwise
exactly the primitive values are leaves. -/
def isLeaf (val : Value) : Bool :=
  match val.data with
  | .symbol => false
  | .abstract _ hasIdentifier _ => if hasIdentifier then true else !val.intrinsic && false
  | _ =>
    if val.intrinsic then false
    else match val.data with
      | .prim _ => true
      | _ => false

/-- `ResidualHeapVisitor.getPropertyValue`: the descriptor value of an own
property, `undefined` when the property or its descriptor is absent. -/
def getPropertyValue (o : ObjData) (name : String) : Option Nat := do
  let prototypeDesc ← (← alist o.properties name)
  prototypeDesc.value

/-- The loop of `isDefaultPrototype`: scan every own-property key; any key
other than a `constructor` property pointing back at `originalConstructor`
makes the prototype non-default. -/
def isDefaultPrototypeLoop (p : ObjData) :
    List (String × Option Descriptor) → Bool → Bool
  | [], foundConstructor => foundConstructor
  | (name, _) :: rest, _ =>
    if name == "constructor" && getPropertyValue p name == p.originalConstructor then
      isDefaultPrototypeLoop p rest true
    else
      false

/-- `isDefaultPrototype`: no symbol-keyed properties, prototype is the
realm's ObjectPrototype intrinsic, extensible, and the only own property
is a `constructor` property pointing back at the object's
`originalConstructor`. -/
def isDefaultPrototype (H : Heap) (p : ObjData) : Bool :=
  if p.symbolsSize != 0 then false
  else if alist H.intrinsics "ObjectPrototype" != some p.prototype then false
  else if !p.extensible then false
  else isDefaultPrototypeLoop p p.properties false

/-- The diagnostic messages the visitor can emit (the interpolated parts
of the source messages are kept only where a claim depends on them). -/
def sentinelMsg : String :=
  "expressions of type o[p] are not yet supported for partially known o and unknown p"

/-- Diagnostic for a function `length` accessor property. -/
def lengthAccessorMsg : String :=
  "Functions with length accessor properties are not supported in residual heap."

/-- Diagnostic for an unsupported object kind. -/
def unsupportedKindMsg (kind : String) : String :=
  "Object of kind " ++ kind ++ " is not supported in residual heap."

/-- Diagnostic for an arguments-object shape. -/
def argumentsObjectMsg : String :=
  "Arguments object is not supported in residual heap."

/-- Diagnostic for a residual closure with outer free variables. -/
def residualFnMsg : String :=
  "residual function refers to identifiers defined outside of the local scope"

/-- The fatal error thrown for a symbol-named resolved reference. -/
def symbolRefMsg : String :=
  "TODO: do not know how to visit reference with symbol"

/-- `this.$ParameterMap` as read in the default branch of
`visitValueObject`: the visitor instance has no `$ParameterMap` field, so
in JavaScript this property read always yields `undefined`.  (The heap
object's own `$ParameterMap` slot — `val.$ParameterMap`, modelled as
`ObjData.parameterMap` — is never consulted by the source.) -/
def visitorParameterMap : Option Nat := none

/-- `_canIgnoreProperty(val, key, desc)`: whether the descriptor is the
host-default one for this (object kind, key), making the property
omittable.  Returns the diagnostic it logs (only the function-length
accessor case logs) together with the boolean result. -/
def canIgnoreProperty (H : Heap) (v : Nat) (val : Value) (key : String)
    (desc : Descriptor) : Option String × Bool :=
  let o? : Option ObjData := match val.data with | .obj o => some o | _ => none
  let constructorFallback : Bool :=
    match o? with
    | some o =>
      key == "constructor" && desc.configurable && !desc.enumerable && desc.writable &&
        desc.value == o.originalConstructor
    | none => key == "constructor" && desc.configurable && !desc.enumerable && desc.writable &&
        desc.value == none
  if IsArray val then
    if key == "length" && desc.writable && !desc.enumerable && !desc.configurable then
      (none, true)
    else
      (none, constructorFallback)
  else if isFunction val then
    match o?, (match o? with | some o => (match o.cls with | .fn f => some f | _ => none) | none => none) with
    | some _, some f =>
      if key == "length" then
        let diag := if desc.value == none then some lengthAccessorMsg else none
        (diag, !desc.writable && !desc.enumerable && desc.configurable && f.hasDefaultLength)
      else if key == "name" then
        (none, true)
      else if (key == "arguments" || key == "caller") &&
          (!f.strict && desc.writable && !desc.enumerable && desc.configurable &&
            (match desc.value with
              | some dv => (H.val? dv).any (fun w => w.data == .prim .undef)
              | none => false) &&
            f.functionKind == "normal") then
        (none, true)
      else if key == "prototype" &&
          (!desc.configurable && !desc.enumerable && desc.writable &&
            (match desc.value with
              | some dv =>
                (H.val? dv).any (fun w =>
                  match w.data with
                  | .obj po => po.originalConstructor == some v
                  | _ => false)
              | none => false)) then
        (none, true)
      else
        (none, constructorFallback)
    | _, _ => (none, constructorFallback)
  else
    match o? with
    | some o =>
      if o.kind == "RegExp" && key == "lastIndex" && desc.writable && !desc.enumerable &&
          !desc.configurable then
        let zeroValued : Bool :=
          match desc.value with
          | some dv => (H.val? dv).any (fun w => w.data == .prim (.number 0))
          | none => false
        (none, zeroValued)
      else
        (none, constructorFallback)
    | none => (none, constructorFallback)

/-- Append a diagnostic (`logger.logError(val, message)`): fire-and-continue. -/
def addDiag (s : VState) (v : Nat) (msg : String) : VState :=
  { s with diagnostics := s.diagnostics ++ [(v, msg)] }

/-- Record a fatal condition (a thrown error or failed `invariant`): the
pass aborts immediately. -/
def setFatal (s : VState) (msg : String) : VState :=
  { s with fatal := some msg }

/-- Add `key` to the object's ignorable-property set, creating the set on
first use (`ignoredProperties.get(obj)` / `set.add(key)`). -/
def addIgnored (s : VState) (v : Nat) (key : String) : VState :=
  match nlist s.ignoredProperties v with
  | some _ =>
    { s with ignoredProperties :=
        s.ignoredProperties.map (fun p =>
          if p.1 == v then (p.1, if p.2.contains key then p.2 else p.2 ++ [key]) else p) }
  | none => { s with ignoredProperties := s.ignoredProperties ++ [(v, [key])] }

/-- `visitDescriptor(desc)`: visit the `value`, `get` and `set` values,
each if present, in that order. -/
def descPushes (desc : Descriptor) : List VTask :=
  (desc.value.toList ++ desc.get.toList ++ desc.set.toList).map VTask.visit

/-- `visitGlobalBinding(key)`: memoized per name; on first resolution look
up the global let binding (absence is valid), create the record marked
`modified` from the start, and visit the value if present.  Returns the
new state, the binding's index into the shared store, and the nested
visit to perform. -/
def visitGlobalBindingStep (H : Heap) (s : VState) (key : String) :
    VState × Nat × List VTask :=
  match alist s.globalBindings key with
  | some bid => (s, bid, [])
  | none =>
    let value := alist H.globalLet key
    let bid := s.store.length
    let binding : VisitedBinding :=
      { global := true, value := value, modified := true,
        declarativeEnvironmentRecord := none }
    let s' := { s with store := s.store ++ [binding],
                       globalBindings := s.globalBindings ++ [(key, bid)] }
    (s', bid, match value with | some v => [VTask.visit v] | none => [])

/-- `visitDeclarativeEnvironmentRecordBinding(r, n)`: memoized per
(record, name); on first resolution the record's own binding must exist
and be non-deletable (`invariant`), the current value falls back to the
undefined intrinsic when uninitialized or absent, and the value is
visited.  (The source inserts an empty per-record table before the name
lookup; an absent table and an empty one are observationally equal, so
the insertion is merged with the first name write here.)  Returns `none`
for the binding index when an invariant failed (the state then carries
the fatal marker). -/
def visitDeclBindingStep (H : Heap) (s : VState) (r : Nat) (n : String) :
    VState × Option Nat × List VTask :=
  match alist ((nlist s.declBindings r).getD []) n with
  | some bid => (s, some bid, [])
  | none =>
    match H.decls.get? r with
    | none => (setFatal s "invariant failed: unknown declarative record", none, [])
    | some bindings =>
      match alist bindings n with
      | none => (setFatal s "invariant failed: binding not found", none, [])
      | some binding =>
        if binding.deletable then
          (setFatal s "invariant failed: deletable binding", none, [])
        else
          let value := if binding.initialized then binding.value.getD H.undefinedId
                       else H.undefinedId
          let bid := s.store.length
          let vb : VisitedBinding :=
            { global := false, value := some value, modified := false,
              declarativeEnvironmentRecord := some r }
          let newTbl := (nlist s.declBindings r).getD [] ++ [(n, bid)]
          let declBindings' :=
            match nlist s.declBindings r with
            | some _ => s.declBindings.map (fun p => if p.1 == r then (p.1, newTbl) else p)
            | none => s.declBindings ++ [(r, newTbl)]
          ({ s with store := s.store ++ [vb], declBindings := declBindings' }, some bid,
            [VTask.visit value])

/-- The typed-buffer view kinds of the `visitValueObject` switch. -/
def typedViewKinds : List String :=
  ["Float32Array", "Float64Array", "Int8Array", "Int16Array", "Int32Array",
   "Uint8Array", "Uint16Array", "Uint32Array", "Uint8ClampedArray", "DataView"]

/-- `visitObjectPropertiesWithComputedNames(absVal)`: the computed-name
chain walker.  The value must be an Abstract with three operands whose
first operand is an Abstract condition; a "template for property name
condition" node visits any earlier chain link, then the key expression
and the value; any other condition is a conditional-assignment merge
whose branches must again be chain nodes.

The source recurses along abstract-operand edges without a visited-set
check; it terminates because AbstractValues are immutably constructed,
so operand edges always reach earlier-constructed values.  The embedding
realizes construction order as store order — an abstract-to-abstract
chain edge must point to a smaller index — and flags a violation as an
ill-formed heap (fatal), which the engine can never produce. -/
def cnStep (H : Heap) (s : VState) (a : Nat) : VState × List VTask :=
  match H.val? a with
  | some ⟨_, .abstract _ _ args⟩ =>
    match args with
    | [a0, a1, a2] =>
      match H.val? a0 with
      | some ⟨_, .abstract condKind _ condArgs⟩ =>
        if condKind == "template for property name condition" then
          match condArgs.head? with
          | some p =>
            match H.val? p with
            | some ⟨_, .abstract _ _ _⟩ =>
              match H.val? a2 with
              | some ⟨_, .abstract _ _ _⟩ =>
                if a2 < a then (s, [VTask.cn a2, VTask.visit p, VTask.visit a1])
                else (setFatal s "ill-formed heap: abstract operand out of construction order", [])
              | _ => (s, [VTask.visit p, VTask.visit a1])
            | _ => (setFatal s "invariant failed: P not abstract", [])
          | none => (setFatal s "invariant failed: P not abstract", [])
        else
          match H.val? a1, H.val? a2 with
          | some ⟨_, .abstract _ _ _⟩, some ⟨_, .abstract _ _ _⟩ =>
            if _h1 : a1 < a then
              if _h2 : a2 < a then (s, [VTask.visit a0, VTask.cn a1, VTask.cn a2])
              else (setFatal s "ill-formed heap: abstract operand out of construction order", [])
            else (setFatal s "ill-formed heap: abstract operand out of construction order", [])
          | _, _ => (setFatal s "invariant failed: branch not abstract", [])
      | _ => (setFatal s "invariant failed: condition not abstract", [])
    | _ => (setFatal s "invariant failed: computed-names value must have three operands", [])
  | _ => (setFatal s "invariant failed: computed-names value not abstract", [])

/-- The per-entry visits of `visitValueMap`: skip entries whose key or
value slot is absent, otherwise visit key then value, in entry order. -/
def mapEntryTasks (entries : List MapEntry) : List VTask :=
  (entries.filterMap (fun e =>
    match e.key, e.value with
    | some k, some w => some [VTask.visit k, VTask.visit w]
    | _, _ => none)).flatten

/-- The dispatch of `visitValue(val)` after the value has been inserted
into the visited set, in source order: AbstractValue first (recursing
into every operand, with the sentinel-member-expression diagnostic),
then intrinsics, EmptyValue, leaves, arrays, proxies, functions, symbols
and plain objects.  Returns the state change plus the pending work in
execution order. -/
def dispatch (_H : Heap) (s : VState) (v : Nat) (val : Value) : VState × List VTask :=
  match val.data with
  | .abstract kind _ args =>
    let s' := if kind == "sentinel member expression" then addDiag s v sentinelMsg else s
    (s', args.map VTask.visit)
  | _ =>
    if val.intrinsic then (s, [])
    else if val.data == .prim .empty then (s, [])
    else if isLeaf val then (s, [])
    else if IsArray val then
      match val.data with
      | .obj o =>
        (s, [VTask.props v o.properties, VTask.unknown v, VTask.proto v, VTask.arrayLen v])
      | _ => (s, [])
    else match val.data with
      | .obj o =>
        match o.cls with
        | .proxy target handler => (s, [VTask.visit target, VTask.visit handler])
        | .fn f =>
          let objTasks :=
            [VTask.props v o.properties, VTask.unknown v, VTask.proto v, VTask.ctorProto v]
          match f.kind with
          | .bound target boundThis boundArgs =>
            (s, objTasks ++ [VTask.visit target, VTask.visit boundThis] ++
                  boundArgs.map VTask.visit)
          | .native => (s, objTasks)
          | .plain _ _ => (s, objTasks ++ [VTask.fnRest v])
        | .plainObj =>
          (s, [VTask.props v o.properties, VTask.unknown v, VTask.proto v, VTask.objRest v])
      | _ => (s, [])

/-- Process one pending task: the body of the corresponding source
procedure (or loop iteration), returning the state change and the tasks
it pushes, in execution order. -/
def stepTask (H : Heap) (s : VState) : VTask → VState × List VTask
  | .visit v =>
    if v ∈ s.values then (s, [])
    else
      match H.val? v with
      | none => (setFatal s "dangling reference", [])
      | some val => dispatch H { s with values := insert v s.values } v val
  | .props v ps =>
    match ps with
    | [] => (s, [])
    | (key, odesc) :: rest =>
      match odesc with
      | none => (s, [VTask.props v rest])
      | some desc =>
        match H.val? v with
        | none => (setFatal s "dangling reference", [])
        | some val =>
          let (diag?, ign) := canIgnoreProperty H v val key desc
          let s1 := match diag? with | some m => addDiag s v m | none => s
          if ign then (addIgnored s1 v key, [VTask.props v rest])
          else (s1, descPushes desc ++ [VTask.props v rest])
  | .unknown v =>
    match H.val? v with
    | some ⟨_, .obj o⟩ =>
      match o.unknownProperty with
      | none => (s, [])
      | some none => (s, [])
      | some (some desc) =>
        match desc.value with
        | none => (setFatal s "invariant failed: unknown-property value not abstract", [])
        | some a =>
          match H.val? a with
          | some ⟨_, .abstract _ _ _⟩ => (s, [VTask.cn a])
          | _ => (setFatal s "invariant failed: unknown-property value not abstract", [])
    | _ => (s, [])
  | .proto v =>
    match H.val? v with
    | some ⟨_, .obj o⟩ =>
      if alist H.intrinsics (o.kind ++ "Prototype") == some o.prototype then (s, [])
      else (s, [VTask.visit o.prototype])
    | _ => (s, [])
  | .ctorProto v =>
    match H.val? v with
    | some ⟨_, .obj o⟩ =>
      match getPropertyValue o "prototype" with
      | some p =>
        match H.val? p with
        | some ⟨_, .obj po⟩ =>
          if po.originalConstructor == some v && !isDefaultPrototype H po then
            (s, [VTask.visit p])
          else (s, [])
        | _ => (s, [])
      | none => (s, [])
    | _ => (s, [])
  | .cn a => cnStep H s a
  | .arrayLen v =>
    match H.val? v with
    | some ⟨_, .obj o⟩ =>
      match getPropertyValue o "length" with
      | some l =>
        match H.val? l with
        | some ⟨_, .abstract _ _ _⟩ => (s, [VTask.visit l])
        | _ => (s, [])
      | none => (s, [])
    | _ => (s, [])
  | .objRest v =>
    match H.val? v with
    | some ⟨_, .obj o⟩ =>
      match o.originalConstructor with
      | some c => (s, [VTask.visit c])
      | none =>
        if o.kind == "RegExp" || o.kind == "Number" || o.kind == "String" ||
            o.kind == "Boolean" || o.kind == "ArrayBuffer" then (s, [])
        else if o.kind == "Date" then
          match o.dateValue with
          | some d => (s, [VTask.visit d])
          | none => (setFatal s "invariant failed: missing date value", [])
        else if typedViewKinds.contains o.kind then
          match o.viewedArrayBuffer with
          | some b => (s, [VTask.visit b])
          | none => (setFatal s "invariant failed: missing viewed buffer", [])
        else if o.kind == "Map" then
          match o.mapData with
          | none => (setFatal s "invariant failed: missing map data", [])
          | some entries => (s, mapEntryTasks entries)
        else if o.kind == "WeakMap" then
          match o.weakMapData with
          | none => (setFatal s "invariant failed: missing map data", [])
          | some entries => (s, mapEntryTasks entries)
        else if o.kind == "Set" then
          match o.setData with
          | none => (setFatal s "invariant failed: missing set data", [])
          | some entries => (s, entries.filterMap (fun e => e.map VTask.visit))
        else if o.kind == "WeakSet" then
          match o.weakSetData with
          | none => (setFatal s "invariant failed: missing set data", [])
          | some entries => (s, entries.filterMap (fun e => e.map VTask.visit))
        else
          let s1 := if o.kind != "Object" then addDiag s v (unsupportedKindMsg o.kind) else s
          let s2 := if visitorParameterMap != none then addDiag s1 v argumentsObjectMsg else s1
          (s2, [])
    | _ => (s, [])
  | .fnRest v =>
    match H.val? v with
    | some ⟨_, .obj o⟩ =>
      match o.cls with
      | .fn f =>
        match f.kind with
        | .plain code _ =>
          let info := H.analysis code
          let s1 :=
            if code ∈ s.doneCodes then s
            else
              let s' := { s with doneCodes := insert code s.doneCodes }
              if f.isResidual && !info.names.isEmpty then addDiag s' v residualFnMsg else s'
          (s1, [VTask.fnames v code info.names []])
        | _ => (s, [])
      | _ => (s, [])
    | _ => (s, [])
  | .fnames fn code names acc =>
    match names with
    | [] => ({ s with functionBindings := (fn, acc) :: s.functionBindings }, [])
    | innerName :: rest =>
      match H.val? fn with
      | some ⟨_, .obj o⟩ =>
        match o.cls with
        | .fn f =>
          match f.kind with
          | .plain _ env =>
            match H.resolve innerName env with
            | none =>
              let (s', bid, pushes) := visitGlobalBindingStep H s innerName
              (s', pushes ++ [VTask.afterName fn code innerName bid rest acc])
            | some ref =>
              match ref.referencedName with
              | .sym => (setFatal s symbolRefMsg, [])
              | .str referencedName =>
                match ref.base with
                | .global =>
                  let (s', bid, pushes) := visitGlobalBindingStep H s referencedName
                  (s', pushes ++ [VTask.afterName fn code innerName bid rest acc])
                | .decl r =>
                  match visitDeclBindingStep H s r referencedName with
                  | (s', some bid, pushes) =>
                    (s', pushes ++ [VTask.afterName fn code innerName bid rest acc])
                  | (s', none, _) => (s', [])
                | .other => (setFatal s "invariant failed: unknown reference base", [])
          | _ => (s, [])
        | _ => (s, [])
      | _ => (s, [])
  | .afterName fn code n bid rest acc =>
    let info := H.analysis code
    let s1 :=
      if info.modified.contains n then
        match s.store.get? bid with
        | some b => { s with store := s.store.set bid { b with modified := true } }
        | none => s
      else s
    (s1, [VTask.fnames fn code rest (acc ++ [(n, bid)])])

/-- The machine has halted: no pending work, or a fatal condition aborted
the pass. -/
def halted (cfg : Config) : Bool := cfg.2.isEmpty || cfg.1.fatal.isSome

/-- One machine step: process the top pending task, prepending the tasks
it pushes (LIFO order reproduces the source's call sequencing).  Halted
configurations are fixed points. -/
def step (H : Heap) (cfg : Config) : Config :=
  if cfg.1.fatal.isSome then cfg
  else
    match cfg.2 with
    | [] => cfg
    | t :: rest =>
      let (s', pushed) := stepTask H cfg.1 t
      (s', pushed ++ rest)

/-- Iterate the machine for `n` steps (stopping early once halted). -/
def runF (H : Heap) : Nat → Config → Config
  | 0, cfg => cfg
  | n + 1, cfg => if halted cfg then cfg else runF H n (step H cfg)

/-- The freshly constructed visitor: every table empty. -/
def initState : VState :=
  { values := ∅, ignoredProperties := [], declBindings := [], globalBindings := [],
    store := [], functionBindings := [], doneCodes := ∅, diagnostics := [], fatal := none }

/-- `visitRoots()`: visit every value the generator touches, in
registration order, then every initialized module value. -/
def rootTasks (H : Heap) : List VTask :=
  (H.generatorVals ++ H.modulesVals).map VTask.visit

/-! ## Concrete test heaps

Small closed heaps used to evaluate the machine at concrete inputs.  Each
models one scenario of the specification. -/

/-- A plain-object `ObjData` with every optional slot absent: the base from
which the concrete test heaps below are built. -/
def defaultObj : ObjData :=
  { properties := [], symbolsSize := 0, prototype := 0, extensible := true,
    kind := "Object", originalConstructor := none, unknownProperty := none,
    dateValue := none, viewedArrayBuffer := none, mapData := none,
    weakMapData := none, setData := none, weakSetData := none,
    parameterMap := none, cls := .plainObj }

/-- A free-variable analysis reporting no free names. -/
def emptyInfo : FunctionInfo :=
  { names := [], modified := [], usesArguments := false, usesThis := false }

/-- A heap built from a value list and generator roots, with no declarative
records, an unresolvable resolver, and no intrinsics. -/
def mkHeap (vs : List Value) (roots : List Nat) : Heap :=
  { vals := vs, decls := [], analysis := fun _ => emptyInfo,
    resolve := fun _ _ => none, intrinsics := [], undefinedId := 0,
    globalLet := [], generatorVals := roots, modulesVals := [] }

/-- The `undefined` primitive. -/
def undefVal : Value := ⟨false, .prim .undef⟩

/-- A non-numeric primitive (a string or boolean). -/
def strVal : Value := ⟨false, .prim .otherPrim⟩

/-- A NumberValue. -/
def numVal (n : Int) : Value := ⟨false, .prim (.number n)⟩

/-- A heap whose single object is its own prototype: a reference cycle. -/
def hC1 : Heap := mkHeap [⟨false, .obj { defaultObj with prototype := 0 }⟩] [0]

/-- The single value of `hC1`. -/
def c1Val : Value := ⟨false, .obj { defaultObj with prototype := 0 }⟩

/-- A visitor state that has already visited value 0. -/
def c1Vis : VState := { initState with values := {0} }

/-- The capture scenario: value 0 is a plain function whose body (code 1,
environment 0) references the free names "a" and "b"; "a" resolves to
binding "a" of declarative record 0 (holding value 1) and is reassigned
inside the body; "b" is unresolvable, hence global.  Value 1 is the bound
number, value 2 is the undefined intrinsic fallback. -/
def hC2 : Heap :=
  { vals := [⟨false, .obj { defaultObj with
        kind := "Function",
        cls := .fn { kind := .plain 1 0, strict := true, functionKind := "normal",
                     hasDefaultLength := true, isResidual := false } }⟩,
      numVal 5, undefVal],
    decls := [[("a", { deletable := false, initialized := true, value := some 1 })]],
    analysis := fun c =>
      if c == 1 then
        { names := ["a", "b"], modified := ["a"], usesArguments := false, usesThis := false }
      else emptyInfo,
    resolve := fun n _ =>
      if n == "a" then some { base := .decl 0, referencedName := .str "a" } else none,
    intrinsics := [], undefinedId := 2, globalLet := [], generatorVals := [0],
    modulesVals := [] }

/-- The `hC2` function's flavor data. -/
def c2Fn : FnData :=
  { kind := .plain 1 0, strict := true, functionKind := "normal",
    hasDefaultLength := true, isResidual := false }

/-- The `hC2` function's object data. -/
def c2Obj : ObjData :=
  { defaultObj with kind := "Function", cls := .fn c2Fn }

/-- An AbstractValue carrying a stable identifier, with one operand. -/
def hC3 : Heap := mkHeap [⟨false, .abstract "someOp" true [1]⟩, strVal] [0]

/-- An arguments-object shape: a plain object of recognized kind
`"Object"` whose `$ParameterMap` internal slot is set. -/
def hC4a : Heap := mkHeap [⟨false, .obj { defaultObj with parameterMap := some 1 }⟩,
  undefVal] [0]

/-- A plain object of the unrecognized kind `"Weird"`. -/
def hC4b : Heap := mkHeap [⟨false, .obj { defaultObj with kind := "Weird" }⟩] [0]

/-- The default Array `length` descriptor holding concrete number value 1. -/
def c5desc : Descriptor :=
  { writable := true, enumerable := false, configurable := false,
    value := some 1, get := none, set := none }

/-- An Array object whose `length` property has the default descriptor,
with the length value a concrete number. -/
def hC5 : Heap := mkHeap
  [⟨false, .obj { defaultObj with
      kind := "Array", properties := [("length", some c5desc)] }⟩,
   numVal 1] [0]

/-- The enumerable variant of the Array `length` scenario. -/
def hC5e : Heap := mkHeap
  [⟨false, .obj { defaultObj with
      kind := "Array",
      properties := [("length", some { c5desc with enumerable := true })] }⟩,
   numVal 1] [0]

/-- The `hC5` array value. -/
def c5Val : Value :=
  ⟨false, .obj { defaultObj with kind := "Array", properties := [("length", some c5desc)] }⟩

/-- Prototype elision: values 3 and 4 are the realm's default Object and
Array prototypes; value 0 is an Object-kind object with the Object default,
value 1 an Array-kind object with the Array default, value 2 an Array-kind
object whose prototype is the Object default (mismatched kind). -/
def hC6 : Heap :=
  { vals := [⟨false, .obj { defaultObj with prototype := 3 }⟩,
      ⟨false, .obj { defaultObj with kind := "Array", prototype := 4 }⟩,
      ⟨false, .obj { defaultObj with kind := "Array", prototype := 3 }⟩,
      ⟨true, .obj { defaultObj with prototype := 3 }⟩,
      ⟨true, .obj { defaultObj with kind := "Array", prototype := 3 }⟩],
    decls := [], analysis := fun _ => emptyInfo, resolve := fun _ _ => none,
    intrinsics := [("ObjectPrototype", 3), ("ArrayPrototype", 4)],
    undefinedId := 0, globalLet := [], generatorVals := [0, 1, 2], modulesVals := [] }

/-- The `hC6` Object-kind object with the default Object prototype. -/
def c6oO : ObjData := { defaultObj with prototype := 3 }

/-- The `hC6` Array-kind object with the default Array prototype. -/
def c6oA : ObjData := { defaultObj with kind := "Array", prototype := 4 }

/-- The `hC6` Array-kind object with the default Object prototype. -/
def c6oM : ObjData := { defaultObj with kind := "Array", prototype := 3 }

/-- A Map with three stored entries whose second entry's key slot is
absent (a cleared weak entry). -/
def hC7 : Heap := mkHeap
  [⟨false, .obj { defaultObj with
      kind := "Map",
      mapData := some [⟨some 1, some 2⟩, ⟨none, some 3⟩, ⟨some 4, some 5⟩] }⟩,
   strVal, strVal, strVal, strVal, strVal] [0]

/-- The `hC7` map object's data. -/
def c7Obj : ObjData :=
  { defaultObj with
    kind := "Map",
    mapData := some [⟨some 1, some 2⟩, ⟨none, some 3⟩, ⟨some 4, some 5⟩] }

/-- A plain function whose single free name resolves to a symbol-named
binding. -/
def hC8 : Heap :=
  { vals := [⟨false, .obj { defaultObj with
        kind := "Function",
        cls := .fn { kind := .plain 1 0, strict := true, functionKind := "normal",
                     hasDefaultLength := true, isResidual := false } }⟩],
    decls := [], analysis := fun c =>
      if c == 1 then
        { names := ["s"], modified := [], usesArguments := false, usesThis := false }
      else emptyInfo,
    resolve := fun n _ =>
      if n == "s" then some { base := .decl 0, referencedName := .sym } else none,
    intrinsics := [], undefinedId := 0, globalLet := [], generatorVals := [0],
    modulesVals := [] }

/-- The `hC8` function's object data. -/
def c8Obj : ObjData :=
  { defaultObj with
    kind := "Function",
    cls := .fn { kind := .plain 1 0, strict := true, functionKind := "normal",
                 hasDefaultLength := true, isResidual := false } }

/-- A one-value heap for the determinism claim. -/
def hC9 : Heap := mkHeap [strVal] [0]

/-- An object with a default-constructor back-reference: value 0 is a
Date-kind object whose `originalConstructor` is the function value 1 (its
`$DateValue` slot is also set, to show the kind-specific visit is skipped). -/
def hC10 : Heap := mkHeap
  [⟨false, .obj { defaultObj with
      kind := "Date", originalConstructor := some 1, dateValue := some 2 }⟩,
   ⟨false, .obj { defaultObj with
      kind := "Function",
      cls := .fn { kind := .native, strict := true, functionKind := "normal",
                   hasDefaultLength := true, isResidual := false } }⟩,
   strVal] [0]

/-- The `hC10` object's data. -/
def c10Obj : ObjData :=
  { defaultObj with
    kind := "Date", originalConstructor := some 1, dateValue := some 2 }

/-- The number of heap values not yet visited: the primary component of
the termination measure (the visited set only grows, and each dispatch
shrinks this count). -/
def unvisited (H : Heap) (vs : Finset Nat) : Nat :=
  ((Finset.range H.vals.length).filter (fun i => i ∉ vs)).card

/-- Bound on the number of collection entries an `objRest` task can push. -/
def entriesBound (H : Heap) (v : Nat) : Nat :=
  match H.val? v with
  | some ⟨_, .obj o⟩ =>
    (o.mapData.getD []).length + (o.weakMapData.getD []).length +
      (o.setData.getD []).length + (o.weakSetData.getD []).length
  | _ => 0

/-- Bound on the number of free names a `fnRest` task will loop over. -/
def namesBound (H : Heap) (v : Nat) : Nat :=
  match H.val? v with
  | some ⟨_, .obj o⟩ =>
    match o.cls with
    | .fn f =>
      match f.kind with
      | .plain code _ => (H.analysis code).names.length
      | _ => 0
    | _ => 0
  | _ => 0

/-- Weight of one pending task: the secondary component of the
termination measure.  Chosen so that processing a task pushes strictly
less weight than it pops, except for a first-visit dispatch (which
instead shrinks `unvisited`).  A computed-name chain task's weight is
exponential in its heap index because the chain walker recurses along
strictly decreasing indices. -/
def taskWeight (H : Heap) : VTask → Nat
  | .visit _ => 1
  | .props _ ps => 1 + 4 * ps.length
  | .unknown _ => 1 + 3 ^ (H.vals.length + 1)
  | .proto _ => 2
  | .ctorProto _ => 2
  | .cn a => 3 ^ (a + 1)
  | .arrayLen _ => 2
  | .objRest v => 2 + 2 * entriesBound H v
  | .fnRest v => 3 + 6 * namesBound H v
  | .fnames _ _ names _ => 2 + 6 * names.length
  | .afterName _ _ _ _ rest _ => 4 + 6 * rest.length

/-- Total weight of a task stack. -/
def stackWeight (H : Heap) (ts : List VTask) : Nat :=
  (ts.map (taskWeight H)).sum

theorem stackWeight_nil (H : Heap) : stackWeight H [] = 0 := rfl

theorem stackWeight_cons (H : Heap) (t : VTask) (ts : List VTask) :
    stackWeight H (t :: ts) = taskWeight H t + stackWeight H ts := by
  simp [stackWeight]

theorem stackWeight_append (H : Heap) (ts us : List VTask) :
    stackWeight H (ts ++ us) = stackWeight H ts + stackWeight H us := by
  simp [stackWeight]

theorem stackWeight_visits (H : Heap) (l : List Nat) :
    stackWeight H (l.map VTask.visit) = l.length := by
  induction l with
  | nil => rfl
  | cons x xs ih => simp [stackWeight_cons, ih, taskWeight]; omega

theorem stackWeight_optionToList (H : Heap) (o : Option Nat) :
    stackWeight H (o.toList.map VTask.visit) ≤ 1 := by
  cases o <;> simp [stackWeight, taskWeight]

theorem descPushes_weight (H : Heap) (desc : Descriptor) :
    stackWeight H (descPushes desc) ≤ 3 := by
  unfold descPushes
  cases desc.value <;> cases desc.get <;> cases desc.set <;>
    simp [stackWeight, taskWeight]

theorem mapEntries_weight (H : Heap) (entries : List MapEntry) :
    stackWeight H (mapEntryTasks entries) ≤ 2 * entries.length := by
  unfold mapEntryTasks
  induction entries with
  | nil => simp [stackWeight]
  | cons e es ih =>
    cases hk : e.key <;> cases hv : e.value <;>
      simp [List.filterMap_cons, hk, hv, stackWeight_append, stackWeight_cons, taskWeight,
        Nat.mul_succ] <;> omega

theorem setEntries_weight (H : Heap) (entries : List (Option Nat)) :
    stackWeight H (entries.filterMap (fun e => e.map VTask.visit)) ≤ entries.length := by
  induction entries with
  | nil => simp [stackWeight]
  | cons e es ih =>
    cases e <;> simp [List.filterMap_cons, stackWeight_cons, taskWeight] <;> omega

theorem unvisited_insert_lt (H : Heap) (vs : Finset Nat) (v : Nat)
    (hlen : v < H.vals.length) (hmem : v ∉ vs) :
    unvisited H (insert v vs) < unvisited H vs := by
  apply Finset.card_lt_card
  constructor
  · intro x hx
    simp only [Finset.mem_filter, Finset.mem_range, Finset.mem_insert] at hx ⊢
    exact ⟨hx.1, fun h => hx.2 (Or.inr h)⟩
  · intro hsub
    have hv : v ∈ (Finset.range H.vals.length).filter (fun i => i ∉ vs) := by
      simp [hlen, hmem]
    have := hsub hv
    simp at this

@[simp] theorem addDiag_values (s : VState) (v : Nat) (m : String) :
    (addDiag s v m).values = s.values := rfl

@[simp] theorem setFatal_values (s : VState) (m : String) :
    (setFatal s m).values = s.values := rfl

@[simp] theorem addIgnored_values (s : VState) (v : Nat) (key : String) :
    (addIgnored s v key).values = s.values := by
  unfold addIgnored; split <;> rfl

theorem visitGlobalBindingStep_values (H : Heap) (s : VState) (key : String) :
    (visitGlobalBindingStep H s key).1.values = s.values := by
  unfold visitGlobalBindingStep; split <;> rfl

theorem visitGlobalBindingStep_weight (H : Heap) (s : VState) (key : String) :
    stackWeight H (visitGlobalBindingStep H s key).2.2 ≤ 1 := by
  unfold visitGlobalBindingStep
  split
  · simp [stackWeight]
  · cases alist H.globalLet key <;> simp [stackWeight, taskWeight]

theorem visitDeclBindingStep_values (H : Heap) (s : VState) (r : Nat) (n : String) :
    (visitDeclBindingStep H s r n).1.values = s.values := by
  unfold visitDeclBindingStep
  repeat' split
  all_goals rfl

theorem visitDeclBindingStep_weight (H : Heap) (s : VState) (r : Nat) (n : String) :
    stackWeight H (visitDeclBindingStep H s r n).2.2 ≤ 1 := by
  unfold visitDeclBindingStep
  repeat' split
  all_goals simp [stackWeight, taskWeight]

theorem dispatch_values (H : Heap) (s : VState) (v : Nat) (val : Value) :
    (dispatch H s v val).1.values = s.values := by
  unfold dispatch
  repeat' split
  all_goals rfl

theorem pow3_pos (a : Nat) : 0 < 3 ^ a := Nat.pos_pow_of_pos a (by norm_num)

theorem cn_weight_template (a2 a : Nat) (h : a2 < a) : 3 ^ (a2 + 1) + 2 < 3 ^ (a + 1) := by
  have h1 : 3 ^ (a2 + 1) ≤ 3 ^ a := Nat.pow_le_pow_right (by norm_num) (by omega)
  have h2 : 1 ≤ 3 ^ a := pow3_pos a
  have h3 : 3 ^ (a + 1) = 3 ^ a * 3 := pow_succ 3 a
  omega

theorem cn_weight_cond (a1 a2 a : Nat) (ha1 : a1 < a) (ha2 : a2 < a) :
    1 + 3 ^ (a1 + 1) + 3 ^ (a2 + 1) < 3 ^ (a + 1) := by
  have h1 : 3 ^ (a1 + 1) ≤ 3 ^ a := Nat.pow_le_pow_right (by norm_num) (by omega)
  have h2 : 3 ^ (a2 + 1) ≤ 3 ^ a := Nat.pow_le_pow_right (by norm_num) (by omega)
  have h3 : 1 ≤ 3 ^ a := pow3_pos a
  have h4 : 3 ^ (a + 1) = 3 ^ a * 3 := pow_succ 3 a
  omega

theorem val?_lt (H : Heap) (v : Nat) (val : Value) (h : H.val? v = some val) :
    v < H.vals.length := by
  unfold Heap.val? at h
  by_contra hge
  rw [List.get?_eq_none.mpr (by omega)] at h
  exact Option.noConfusion h

theorem three_le_pow (a : Nat) : 3 ≤ 3 ^ (a + 1) := by
  calc 3 = 3 ^ 1 := by norm_num
  _ ≤ 3 ^ (a + 1) := Nat.pow_le_pow_right (by norm_num) (by omega)

theorem cn_weight_unknown (a L : Nat) (h : a < L) : 3 ^ (a + 1) < 1 + 3 ^ (L + 1) := by
  have h1 : 3 ^ (a + 1) ≤ 3 ^ L := Nat.pow_le_pow_right (by norm_num) (by omega)
  have h2 : 3 ^ (L + 1) = 3 ^ L * 3 := pow_succ 3 L
  have h3 := pow3_pos L
  omega

theorem entriesBound_eq (H : Heap) (v : Nat) (intr : Bool) (o : ObjData)
    (hval : H.val? v = some ⟨intr, .obj o⟩) :
    entriesBound H v = (o.mapData.getD []).length + (o.weakMapData.getD []).length +
      (o.setData.getD []).length + (o.weakSetData.getD []).length := by
  simp [entriesBound, hval]

theorem objRest_map_weight (H : Heap) (v : Nat) (intr : Bool) (o : ObjData)
    (entries : List MapEntry) (hval : H.val? v = some ⟨intr, .obj o⟩)
    (he : o.mapData = some entries ∨ o.weakMapData = some entries) :
    stackWeight H (mapEntryTasks entries) < 2 + 2 * entriesBound H v := by
  have h1 := mapEntries_weight H entries
  rw [entriesBound_eq H v intr o hval]
  rcases he with he | he <;> rw [he] <;> simp only [Option.getD_some] <;> omega

theorem objRest_set_weight (H : Heap) (v : Nat) (intr : Bool) (o : ObjData)
    (entries : List (Option Nat)) (hval : H.val? v = some ⟨intr, .obj o⟩)
    (he : o.setData = some entries ∨ o.weakSetData = some entries) :
    stackWeight H (entries.filterMap (fun e => e.map VTask.visit)) <
      2 + 2 * entriesBound H v := by
  have h1 := setEntries_weight H entries
  rw [entriesBound_eq H v intr o hval]
  rcases he with he | he <;> rw [he] <;> simp only [Option.getD_some] <;> omega

theorem fnRest_weight (H : Heap) (v : Nat) (intr : Bool) (o : ObjData) (f : FnData)
    (code env : Nat) (hval : H.val? v = some ⟨intr, .obj o⟩) (hcls : o.cls = .fn f)
    (hk : f.kind = .plain code env) :
    2 + 6 * (H.analysis code).names.length < 3 + 6 * namesBound H v := by
  simp [namesBound, hval, hcls, hk]

theorem zero_lt_taskWeight (H : Heap) (t : VTask) : 0 < taskWeight H t := by
  cases t <;> simp only [taskWeight] <;> first | omega | positivity

theorem nilWeight_lt (H : Heap) (t : VTask) : stackWeight H [] < taskWeight H t := by
  rw [stackWeight_nil]
  exact zero_lt_taskWeight H t

theorem visited_push_lt (H : Heap) (v : Nat) :
    stackWeight H [] < taskWeight H (VTask.visit v) := nilWeight_lt H _

theorem props_tail_lt (H : Heap) (v : Nat) (key : String) (odesc : Option Descriptor)
    (rest : List (String × Option Descriptor)) :
    stackWeight H [VTask.props v rest] < taskWeight H (VTask.props v ((key, odesc) :: rest)) := by
  simp only [stackWeight_cons, stackWeight_nil, taskWeight, List.length_cons]
  omega

theorem props_desc_lt (H : Heap) (v : Nat) (key : String) (desc : Descriptor)
    (rest : List (String × Option Descriptor)) :
    stackWeight H (descPushes desc ++ [VTask.props v rest]) <
      taskWeight H (VTask.props v ((key, some desc) :: rest)) := by
  have hd := descPushes_weight H desc
  rw [stackWeight_append, stackWeight_cons, stackWeight_nil]
  simp only [taskWeight, List.length_cons]
  omega

theorem unknown_push_lt (H : Heap) (a v : Nat) (h : a < H.vals.length) :
    stackWeight H [VTask.cn a] < taskWeight H (VTask.unknown v) := by
  simp only [stackWeight_cons, stackWeight_nil, taskWeight]
  have := cn_weight_unknown a H.vals.length h
  omega

theorem proto_push_lt (H : Heap) (x v : Nat) :
    stackWeight H [VTask.visit x] < taskWeight H (VTask.proto v) := by
  simp only [stackWeight_cons, stackWeight_nil, taskWeight]
  omega

theorem ctorProto_push_lt (H : Heap) (x v : Nat) :
    stackWeight H [VTask.visit x] < taskWeight H (VTask.ctorProto v) := by
  simp only [stackWeight_cons, stackWeight_nil, taskWeight]
  omega

theorem arrayLen_push_lt (H : Heap) (x v : Nat) :
    stackWeight H [VTask.visit x] < taskWeight H (VTask.arrayLen v) := by
  simp only [stackWeight_cons, stackWeight_nil, taskWeight]
  omega

theorem cn_template_push_lt (H : Heap) (a2 p a1 a : Nat) (h : a2 < a) :
    stackWeight H [VTask.cn a2, VTask.visit p, VTask.visit a1] <
      taskWeight H (VTask.cn a) := by
  simp only [stackWeight_cons, stackWeight_nil, taskWeight]
  have := cn_weight_template a2 a h
  omega

theorem cn_noearlier_push_lt (H : Heap) (p a1 a : Nat) :
    stackWeight H [VTask.visit p, VTask.visit a1] < taskWeight H (VTask.cn a) := by
  simp only [stackWeight_cons, stackWeight_nil, taskWeight]
  have := three_le_pow a
  omega

theorem cn_cond_push_lt (H : Heap) (a0 a1 a2 a : Nat) (h1 : a1 < a) (h2 : a2 < a) :
    stackWeight H [VTask.visit a0, VTask.cn a1, VTask.cn a2] <
      taskWeight H (VTask.cn a) := by
  simp only [stackWeight_cons, stackWeight_nil, taskWeight]
  have := cn_weight_cond a1 a2 a h1 h2
  omega

theorem objRest_push1_lt (H : Heap) (x v : Nat) :
    stackWeight H [VTask.visit x] < taskWeight H (VTask.objRest v) := by
  simp only [stackWeight_cons, stackWeight_nil, taskWeight]
  omega

theorem fnRest_push_lt (H : Heap) (v : Nat) (intr : Bool) (o : ObjData) (f : FnData)
    (code env : Nat) (acc : List (String × Nat)) (hval : H.val? v = some ⟨intr, .obj o⟩)
    (hcls : o.cls = .fn f) (hk : f.kind = .plain code env) :
    stackWeight H [VTask.fnames v code (H.analysis code).names acc] <
      taskWeight H (VTask.fnRest v) := by
  simp only [stackWeight_cons, stackWeight_nil, taskWeight]
  have := fnRest_weight H v intr o f code env hval hcls hk
  omega

theorem fnames_push_lt (H : Heap) (pushes : List VTask) (hp : stackWeight H pushes ≤ 1)
    (fn code : Nat) (innerName : String) (bid : Nat) (rest : List String)
    (acc : List (String × Nat)) :
    stackWeight H (pushes ++ [VTask.afterName fn code innerName bid rest acc]) <
      taskWeight H (VTask.fnames fn code (innerName :: rest) acc) := by
  rw [stackWeight_append, stackWeight_cons, stackWeight_nil]
  simp only [taskWeight, List.length_cons]
  omega

theorem afterName_push_lt (H : Heap) (fn code : Nat) (n : String) (bid : Nat)
    (rest : List String) (acc acc2 : List (String × Nat)) :
    stackWeight H [VTask.fnames fn code rest acc2] <
      taskWeight H (VTask.afterName fn code n bid rest acc) := by
  simp only [stackWeight_cons, stackWeight_nil, taskWeight]
  omega

theorem fnRest_s1_values (H : Heap) (s : VState) (v code : Nat) (f : FnData) :
    (if code ∈ s.doneCodes then s
     else
       if (f.isResidual && !(H.analysis code).names.isEmpty) = true then
         addDiag { s with doneCodes := insert code s.doneCodes } v residualFnMsg
       else { s with doneCodes := insert code s.doneCodes }).values = s.values := by
  split_ifs <;> rfl

set_option maxHeartbeats 1600000 in
theorem stepTask_decrease (H : Heap) (s : VState) (t : VTask) :
    ((stepTask H s t).1.values = s.values ∧
      stackWeight H (stepTask H s t).2 < taskWeight H t) ∨
    (∃ v val, t = VTask.visit v ∧ v ∉ s.values ∧ H.val? v = some val ∧
      (stepTask H s t).1.values = insert v s.values ∧
      unvisited H (stepTask H s t).1.values < unvisited H s.values) := by
  cases t with
  | visit v =>
    by_cases hv : v ∈ s.values
    · left
      have hred : stepTask H s (VTask.visit v) = (s, []) := by simp [stepTask, hv]
      rw [hred]
      exact ⟨rfl, nilWeight_lt H _⟩
    · cases hval : H.val? v with
      | none =>
        left
        have hred : stepTask H s (VTask.visit v) = (setFatal s "dangling reference", []) := by
          simp [stepTask, hv, hval]
        rw [hred]
        exact ⟨setFatal_values s _, nilWeight_lt H _⟩
      | some val =>
        right
        have hlt : v < H.vals.length := val?_lt H v val hval
        have hred : stepTask H s (VTask.visit v) =
            dispatch H { s with values := insert v s.values } v val := by
          simp [stepTask, hv, hval]
        refine ⟨v, val, rfl, hv, hval, ?_, ?_⟩ <;> rw [hred, dispatch_values]
        exact unvisited_insert_lt H s.values v hlt hv
  | props v ps =>
    left
    cases ps with
    | nil => exact ⟨rfl, nilWeight_lt H _⟩
    | cons p rest =>
      obtain ⟨key, odesc⟩ := p
      cases odesc with
      | none => exact ⟨rfl, props_tail_lt H v key none rest⟩
      | some desc =>
        cases hval : H.val? v with
        | none =>
          have hred : stepTask H s (VTask.props v ((key, some desc) :: rest)) =
              (setFatal s "dangling reference", []) := by
            simp [stepTask, hval]
          rw [hred]
          exact ⟨setFatal_values s _, nilWeight_lt H _⟩
        | some val =>
          cases hci : canIgnoreProperty H v val key desc with
          | mk diag? ign =>
            cases diag? with
            | none =>
              cases ign with
              | false =>
                have hred : stepTask H s (VTask.props v ((key, some desc) :: rest)) =
                    (s, descPushes desc ++ [VTask.props v rest]) := by
                  simp [stepTask, hval, hci]
                rw [hred]
                exact ⟨rfl, props_desc_lt H v key desc rest⟩
              | true =>
                have hred : stepTask H s (VTask.props v ((key, some desc) :: rest)) =
                    (addIgnored s v key, [VTask.props v rest]) := by
                  simp [stepTask, hval, hci]
                rw [hred]
                exact ⟨addIgnored_values s v key, props_tail_lt H v key (some desc) rest⟩
            | some m =>
              cases ign with
              | false =>
                have hred : stepTask H s (VTask.props v ((key, some desc) :: rest)) =
                    (addDiag s v m, descPushes desc ++ [VTask.props v rest]) := by
                  simp [stepTask, hval, hci]
                rw [hred]
                exact ⟨addDiag_values s v m, props_desc_lt H v key desc rest⟩
              | true =>
                have hred : stepTask H s (VTask.props v ((key, some desc) :: rest)) =
                    (addIgnored (addDiag s v m) v key, [VTask.props v rest]) := by
                  simp [stepTask, hval, hci]
                rw [hred]
                exact ⟨(addIgnored_values (addDiag s v m) v key).trans (addDiag_values s v m),
                  props_tail_lt H v key (some desc) rest⟩
  | unknown v =>
    left
    cases hval : H.val? v with
    | none =>
      have hred : stepTask H s (VTask.unknown v) = (s, []) := by simp [stepTask, hval]
      rw [hred]
      exact ⟨rfl, nilWeight_lt H _⟩
    | some val =>
      obtain ⟨intr, vd⟩ := val
      cases vd with
      | prim pk =>
        have hred : stepTask H s (VTask.unknown v) = (s, []) := by simp [stepTask, hval]
        rw [hred]
        exact ⟨rfl, nilWeight_lt H _⟩
      | symbol =>
        have hred : stepTask H s (VTask.unknown v) = (s, []) := by simp [stepTask, hval]
        rw [hred]
        exact ⟨rfl, nilWeight_lt H _⟩
      | abstract k hid args =>
        have hred : stepTask H s (VTask.unknown v) = (s, []) := by simp [stepTask, hval]
        rw [hred]
        exact ⟨rfl, nilWeight_lt H _⟩
      | obj o =>
        cases hu : o.unknownProperty with
        | none =>
          have hred : stepTask H s (VTask.unknown v) = (s, []) := by
            simp [stepTask, hval, hu]
          rw [hred]
          exact ⟨rfl, nilWeight_lt H _⟩
        | some odesc =>
          cases odesc with
          | none =>
            have hred : stepTask H s (VTask.unknown v) = (s, []) := by
              simp [stepTask, hval, hu]
            rw [hred]
            exact ⟨rfl, nilWeight_lt H _⟩
          | some desc =>
            cases hdv : desc.value with
            | none =>
              have hred : stepTask H s (VTask.unknown v) =
                  (setFatal s "invariant failed: unknown-property value not abstract", []) := by
                simp [stepTask, hval, hu, hdv]
              rw [hred]
              exact ⟨setFatal_values s _, nilWeight_lt H _⟩
            | some a =>
              cases habs : H.val? a with
              | none =>
                have hred : stepTask H s (VTask.unknown v) =
                    (setFatal s "invariant failed: unknown-property value not abstract", []) := by
                  simp [stepTask, hval, hu, hdv, habs]
                rw [hred]
                exact ⟨setFatal_values s _, nilWeight_lt H _⟩
              | some aval =>
                obtain ⟨aintr, avd⟩ := aval
                cases avd with
                | prim pk =>
                  have hred : stepTask H s (VTask.unknown v) =
                      (setFatal s "invariant failed: unknown-property value not abstract", []) := by
                    simp [stepTask, hval, hu, hdv, habs]
                  rw [hred]
                  exact ⟨setFatal_values s _, nilWeight_lt H _⟩
                | symbol =>
                  have hred : stepTask H s (VTask.unknown v) =
                      (setFatal s "invariant failed: unknown-property value not abstract", []) := by
                    simp [stepTask, hval, hu, hdv, habs]
                  rw [hred]
                  exact ⟨setFatal_values s _, nilWeight_lt H _⟩
                | obj o2 =>
                  have hred : stepTask H s (VTask.unknown v) =
                      (setFatal s "invariant failed: unknown-property value not abstract", []) := by
                    simp [stepTask, hval, hu, hdv, habs]
                  rw [hred]
                  exact ⟨setFatal_values s _, nilWeight_lt H _⟩
                | abstract k2 hid2 args2 =>
                  have hred : stepTask H s (VTask.unknown v) = (s, [VTask.cn a]) := by
                    simp [stepTask, hval, hu, hdv, habs]
                  rw [hred]
                  exact ⟨rfl, unknown_push_lt H a v (val?_lt H a _ habs)⟩
  | proto v =>
    left
    cases hval : H.val? v with
    | none =>
      have hred : stepTask H s (VTask.proto v) = (s, []) := by simp [stepTask, hval]
      rw [hred]
      exact ⟨rfl, nilWeight_lt H _⟩
    | some val =>
      obtain ⟨intr, vd⟩ := val
      cases vd with
      | prim pk =>
        have hred : stepTask H s (VTask.proto v) = (s, []) := by simp [stepTask, hval]
        rw [hred]
        exact ⟨rfl, nilWeight_lt H _⟩
      | symbol =>
        have hred : stepTask H s (VTask.proto v) = (s, []) := by simp [stepTask, hval]
        rw [hred]
        exact ⟨rfl, nilWeight_lt H _⟩
      | abstract k hid args =>
        have hred : stepTask H s (VTask.proto v) = (s, []) := by simp [stepTask, hval]
        rw [hred]
        exact ⟨rfl, nilWeight_lt H _⟩
      | obj o =>
        by_cases hi : (alist H.intrinsics (o.kind ++ "Prototype") == some o.prototype) = true
        · have hred : stepTask H s (VTask.proto v) = (s, []) := by
            simp [stepTask, hval, hi]
          rw [hred]
          exact ⟨rfl, nilWeight_lt H _⟩
        · have hred : stepTask H s (VTask.proto v) = (s, [VTask.visit o.prototype]) := by
            simp [stepTask, hval, hi]
          rw [hred]
          exact ⟨rfl, proto_push_lt H o.prototype v⟩
  | ctorProto v =>
    left
    cases hval : H.val? v with
    | none =>
      have hred : stepTask H s (VTask.ctorProto v) = (s, []) := by simp [stepTask, hval]
      rw [hred]
      exact ⟨rfl, nilWeight_lt H _⟩
    | some val =>
      obtain ⟨intr, vd⟩ := val
      cases vd with
      | prim pk =>
        have hred : stepTask H s (VTask.ctorProto v) = (s, []) := by simp [stepTask, hval]
        rw [hred]
        exact ⟨rfl, nilWeight_lt H _⟩
      | symbol =>
        have hred : stepTask H s (VTask.ctorProto v) = (s, []) := by simp [stepTask, hval]
        rw [hred]
        exact ⟨rfl, nilWeight_lt H _⟩
      | abstract k hid args =>
        have hred : stepTask H s (VTask.ctorProto v) = (s, []) := by simp [stepTask, hval]
        rw [hred]
        exact ⟨rfl, nilWeight_lt H _⟩
      | obj o =>
        cases hpv : getPropertyValue o "prototype" with
        | none =>
          have hred : stepTask H s (VTask.ctorProto v) = (s, []) := by
            simp [stepTask, hval, hpv]
          rw [hred]
          exact ⟨rfl, nilWeight_lt H _⟩
        | some p =>
          cases hpval : H.val? p with
          | none =>
            have hred : stepTask H s (VTask.ctorProto v) = (s, []) := by
              simp [stepTask, hval, hpv, hpval]
            rw [hred]
            exact ⟨rfl, nilWeight_lt H _⟩
          | some pval =>
            obtain ⟨pintr, pvd⟩ := pval
            cases pvd with
            | prim pk =>
              have hred : stepTask H s (VTask.ctorProto v) = (s, []) := by
                simp [stepTask, hval, hpv, hpval]
              rw [hred]
              exact ⟨rfl, nilWeight_lt H _⟩
            | symbol =>
              have hred : stepTask H s (VTask.ctorProto v) = (s, []) := by
                simp [stepTask, hval, hpv, hpval]
              rw [hred]
              exact ⟨rfl, nilWeight_lt H _⟩
            | abstract k2 h2 a2 =>
              have hred : stepTask H s (VTask.ctorProto v) = (s, []) := by
                simp [stepTask, hval, hpv, hpval]
              rw [hred]
              exact ⟨rfl, nilWeight_lt H _⟩
            | obj po =>
              by_cases hc : (po.originalConstructor == some v && !isDefaultPrototype H po) = true
              · have hred : stepTask H s (VTask.ctorProto v) = (s, [VTask.visit p]) := by
                  simp [stepTask, hval, hpv, hpval, hc]
                rw [hred]
                exact ⟨rfl, ctorProto_push_lt H p v⟩
              · have hred : stepTask H s (VTask.ctorProto v) = (s, []) := by
                  simp [stepTask, hval, hpv, hpval, hc]
                rw [hred]
                exact ⟨rfl, nilWeight_lt H _⟩
  | arrayLen v =>
    left
    cases hval : H.val? v with
    | none =>
      have hred : stepTask H s (VTask.arrayLen v) = (s, []) := by simp [stepTask, hval]
      rw [hred]
      exact ⟨rfl, nilWeight_lt H _⟩
    | some val =>
      obtain ⟨intr, vd⟩ := val
      cases vd with
      | prim pk =>
        have hred : stepTask H s (VTask.arrayLen v) = (s, []) := by simp [stepTask, hval]
        rw [hred]
        exact ⟨rfl, nilWeight_lt H _⟩
      | symbol =>
        have hred : stepTask H s (VTask.arrayLen v) = (s, []) := by simp [stepTask, hval]
        rw [hred]
        exact ⟨rfl, nilWeight_lt H _⟩
      | abstract k hid args =>
        have hred : stepTask H s (VTask.arrayLen v) = (s, []) := by simp [stepTask, hval]
        rw [hred]
        exact ⟨rfl, nilWeight_lt H _⟩
      | obj o =>
        cases hl : getPropertyValue o "length" with
        | none =>
          have hred : stepTask H s (VTask.arrayLen v) = (s, []) := by
            simp [stepTask, hval, hl]
          rw [hred]
          exact ⟨rfl, nilWeight_lt H _⟩
        | some l =>
          cases hlval : H.val? l with
          | none =>
            have hred : stepTask H s (VTask.arrayLen v) = (s, []) := by
              simp [stepTask, hval, hl, hlval]
            rw [hred]
            exact ⟨rfl, nilWeight_lt H _⟩
          | some lval =>
            obtain ⟨lintr, lvd⟩ := lval
            cases lvd with
            | prim pk =>
              have hred : stepTask H s (VTask.arrayLen v) = (s, []) := by
                simp [stepTask, hval, hl, hlval]
              rw [hred]
              exact ⟨rfl, nilWeight_lt H _⟩
            | symbol =>
              have hred : stepTask H s (VTask.arrayLen v) = (s, []) := by
                simp [stepTask, hval, hl, hlval]
              rw [hred]
              exact ⟨rfl, nilWeight_lt H _⟩
            | obj o2 =>
              have hred : stepTask H s (VTask.arrayLen v) = (s, []) := by
                simp [stepTask, hval, hl, hlval]
              rw [hred]
              exact ⟨rfl, nilWeight_lt H _⟩
            | abstract k2 h2 a2 =>
              have hred : stepTask H s (VTask.arrayLen v) = (s, [VTask.visit l]) := by
                simp [stepTask, hval, hl, hlval]
              rw [hred]
              exact ⟨rfl, arrayLen_push_lt H l v⟩
  | cn a =>
    left
    cases hval : H.val? a with
    | none =>
      have hred : stepTask H s (VTask.cn a) =
          (setFatal s "invariant failed: computed-names value not abstract", []) := by
        simp [stepTask, cnStep, hval]
      rw [hred]
      exact ⟨setFatal_values s _, nilWeight_lt H _⟩
    | some val =>
      obtain ⟨intr, vd⟩ := val
      cases vd with
      | prim pk =>
        have hred : stepTask H s (VTask.cn a) =
            (setFatal s "invariant failed: computed-names value not abstract", []) := by
          simp [stepTask, cnStep, hval]
        rw [hred]
        exact ⟨setFatal_values s _, nilWeight_lt H _⟩
      | symbol =>
        have hred : stepTask H s (VTask.cn a) =
            (setFatal s "invariant failed: computed-names value not abstract", []) := by
          simp [stepTask, cnStep, hval]
        rw [hred]
        exact ⟨setFatal_values s _, nilWeight_lt H _⟩
      | obj o =>
        have hred : stepTask H s (VTask.cn a) =
            (setFatal s "invariant failed: computed-names value not abstract", []) := by
          simp [stepTask, cnStep, hval]
        rw [hred]
        exact ⟨setFatal_values s _, nilWeight_lt H _⟩
      | abstract k hid args =>
        match args with
        | [] =>
          have hred : stepTask H s (VTask.cn a) =
              (setFatal s "invariant failed: computed-names value must have three operands",
                []) := by
            simp [stepTask, cnStep, hval]
          rw [hred]
          exact ⟨setFatal_values s _, nilWeight_lt H _⟩
        | [a0] =>
          have hred : stepTask H s (VTask.cn a) =
              (setFatal s "invariant failed: computed-names value must have three operands",
                []) := by
            simp [stepTask, cnStep, hval]
          rw [hred]
          exact ⟨setFatal_values s _, nilWeight_lt H _⟩
        | [a0, a1] =>
          have hred : stepTask H s (VTask.cn a) =
              (setFatal s "invariant failed: computed-names value must have three operands",
                []) := by
            simp [stepTask, cnStep, hval]
          rw [hred]
          exact ⟨setFatal_values s _, nilWeight_lt H _⟩
        | a0 :: a1 :: a2 :: a3 :: restargs =>
          have hred : stepTask H s (VTask.cn a) =
              (setFatal s "invariant failed: computed-names value must have three operands",
                []) := by
            simp [stepTask, cnStep, hval]
          rw [hred]
          exact ⟨setFatal_values s _, nilWeight_lt H _⟩
        | [a0, a1, a2] =>
          cases hc : H.val? a0 with
          | none =>
            have hred : stepTask H s (VTask.cn a) =
                (setFatal s "invariant failed: condition not abstract", []) := by
              simp [stepTask, cnStep, hval, hc]
            rw [hred]
            exact ⟨setFatal_values s _, nilWeight_lt H _⟩
          | some cval =>
            obtain ⟨cintr, cvd⟩ := cval
            cases cvd with
            | prim pk =>
              have hred : stepTask H s (VTask.cn a) =
                  (setFatal s "invariant failed: condition not abstract", []) := by
                simp [stepTask, cnStep, hval, hc]
              rw [hred]
              exact ⟨setFatal_values s _, nilWeight_lt H _⟩
            | symbol =>
              have hred : stepTask H s (VTask.cn a) =
                  (setFatal s "invariant failed: condition not abstract", []) := by
                simp [stepTask, cnStep, hval, hc]
              rw [hred]
              exact ⟨setFatal_values s _, nilWeight_lt H _⟩
            | obj o2 =>
              have hred : stepTask H s (VTask.cn a) =
                  (setFatal s "invariant failed: condition not abstract", []) := by
                simp [stepTask, cnStep, hval, hc]
              rw [hred]
              exact ⟨setFatal_values s _, nilWeight_lt H _⟩
            | abstract condKind chid condArgs =>
              by_cases hk2 : (condKind == "template for property name condition") = true
              · cases hch : condArgs.head? with
                | none =>
                  have hred : stepTask H s (VTask.cn a) =
                      (setFatal s "invariant failed: P not abstract", []) := by
                    simp [stepTask, cnStep, hval, hc, hk2, hch]
                  rw [hred]
                  exact ⟨setFatal_values s _, nilWeight_lt H _⟩
                | some p =>
                  cases hp : H.val? p with
                  | none =>
                    have hred : stepTask H s (VTask.cn a) =
                        (setFatal s "invariant failed: P not abstract", []) := by
                      simp [stepTask, cnStep, hval, hc, hk2, hch, hp]
                    rw [hred]
                    exact ⟨setFatal_values s _, nilWeight_lt H _⟩
                  | some pval =>
                    obtain ⟨pintr, pvd⟩ := pval
                    cases pvd with
                    | prim pk =>
                      have hred : stepTask H s (VTask.cn a) =
                          (setFatal s "invariant failed: P not abstract", []) := by
                        simp [stepTask, cnStep, hval, hc, hk2, hch, hp]
                      rw [hred]
                      exact ⟨setFatal_values s _, nilWeight_lt H _⟩
                    | symbol =>
                      have hred : stepTask H s (VTask.cn a) =
                          (setFatal s "invariant failed: P not abstract", []) := by
                        simp [stepTask, cnStep, hval, hc, hk2, hch, hp]
                      rw [hred]
                      exact ⟨setFatal_values s _, nilWeight_lt H _⟩
                    | obj o3 =>
                      have hred : stepTask H s (VTask.cn a) =
                          (setFatal s "invariant failed: P not abstract", []) := by
                        simp [stepTask, cnStep, hval, hc, hk2, hch, hp]
                      rw [hred]
                      exact ⟨setFatal_values s _, nilWeight_lt H _⟩
                    | abstract k3 hid3 args3 =>
                      cases he : H.val? a2 with
                      | none =>
                        have hred : stepTask H s (VTask.cn a) =
                            (s, [VTask.visit p, VTask.visit a1]) := by
                          simp [stepTask, cnStep, hval, hc, hk2, hch, hp, he]
                        rw [hred]
                        exact ⟨rfl, cn_noearlier_push_lt H p a1 a⟩
                      | some eval =>
                        obtain ⟨eintr, evd⟩ := eval
                        cases evd with
                        | prim pk =>
                          have hred : stepTask H s (VTask.cn a) =
                              (s, [VTask.visit p, VTask.visit a1]) := by
                            simp [stepTask, cnStep, hval, hc, hk2, hch, hp, he]
                          rw [hred]
                          exact ⟨rfl, cn_noearlier_push_lt H p a1 a⟩
                        | symbol =>
                          have hred : stepTask H s (VTask.cn a) =
                              (s, [VTask.visit p, VTask.visit a1]) := by
                            simp [stepTask, cnStep, hval, hc, hk2, hch, hp, he]
                          rw [hred]
                          exact ⟨rfl, cn_noearlier_push_lt H p a1 a⟩
                        | obj o4 =>
                          have hred : stepTask H s (VTask.cn a) =
                              (s, [VTask.visit p, VTask.visit a1]) := by
                            simp [stepTask, cnStep, hval, hc, hk2, hch, hp, he]
                          rw [hred]
                          exact ⟨rfl, cn_noearlier_push_lt H p a1 a⟩
                        | abstract k4 hid4 args4 =>
                          by_cases hlt : a2 < a
                          · have hred : stepTask H s (VTask.cn a) =
                                (s, [VTask.cn a2, VTask.visit p, VTask.visit a1]) := by
                              simp [stepTask, cnStep, hval, hc, hk2, hch, hp, he, hlt]
                            rw [hred]
                            exact ⟨rfl, cn_template_push_lt H a2 p a1 a hlt⟩
                          · have hred : stepTask H s (VTask.cn a) =
                                (setFatal s
                                  "ill-formed heap: abstract operand out of construction order",
                                  []) := by
                              simp [stepTask, cnStep, hval, hc, hk2, hch, hp, he, hlt]
                            rw [hred]
                            exact ⟨setFatal_values s _, nilWeight_lt H _⟩
              · cases h1v : H.val? a1 with
                | none =>
                  have hred : stepTask H s (VTask.cn a) =
                      (setFatal s "invariant failed: branch not abstract", []) := by
                    simp [stepTask, cnStep, hval, hc, hk2, h1v]
                  rw [hred]
                  exact ⟨setFatal_values s _, nilWeight_lt H _⟩
                | some v1 =>
                  obtain ⟨i1, vd1⟩ := v1
                  cases h2v : H.val? a2 with
                  | none =>
                    have hred : stepTask H s (VTask.cn a) =
                        (setFatal s "invariant failed: branch not abstract", []) := by
                      simp [stepTask, cnStep, hval, hc, hk2, h1v, h2v]
                    rw [hred]
                    exact ⟨setFatal_values s _, nilWeight_lt H _⟩
                  | some v2 =>
                    obtain ⟨i2, vd2⟩ := v2
                    cases vd1 with
                    | prim pk =>
                      have hred : stepTask H s (VTask.cn a) =
                          (setFatal s "invariant failed: branch not abstract", []) := by
                        simp [stepTask, cnStep, hval, hc, hk2, h1v, h2v]
                      rw [hred]
                      exact ⟨setFatal_values s _, nilWeight_lt H _⟩
                    | symbol =>
                      have hred : stepTask H s (VTask.cn a) =
                          (setFatal s "invariant failed: branch not abstract", []) := by
                        simp [stepTask, cnStep, hval, hc, hk2, h1v, h2v]
                      rw [hred]
                      exact ⟨setFatal_values s _, nilWeight_lt H _⟩
                    | obj oo =>
                      have hred : stepTask H s (VTask.cn a) =
                          (setFatal s "invariant failed: branch not abstract", []) := by
                        simp [stepTask, cnStep, hval, hc, hk2, h1v, h2v]
                      rw [hred]
                      exact ⟨setFatal_values s _, nilWeight_lt H _⟩
                    | abstract kk hh aa =>
                      cases vd2 with
                      | prim pk =>
                        have hred : stepTask H s (VTask.cn a) =
                            (setFatal s "invariant failed: branch not abstract", []) := by
                          simp [stepTask, cnStep, hval, hc, hk2, h1v, h2v]
                        rw [hred]
                        exact ⟨setFatal_values s _, nilWeight_lt H _⟩
                      | symbol =>
                        have hred : stepTask H s (VTask.cn a) =
                            (setFatal s "invariant failed: branch not abstract", []) := by
                          simp [stepTask, cnStep, hval, hc, hk2, h1v, h2v]
                        rw [hred]
                        exact ⟨setFatal_values s _, nilWeight_lt H _⟩
                      | obj oo =>
                        have hred : stepTask H s (VTask.cn a) =
                            (setFatal s "invariant failed: branch not abstract", []) := by
                          simp [stepTask, cnStep, hval, hc, hk2, h1v, h2v]
                        rw [hred]
                        exact ⟨setFatal_values s _, nilWeight_lt H _⟩
                      | abstract kk2 hh2 aa2 =>
                        by_cases hl1 : a1 < a
                        · by_cases hl2 : a2 < a
                          · have hred : stepTask H s (VTask.cn a) =
                                (s, [VTask.visit a0, VTask.cn a1, VTask.cn a2]) := by
                              simp [stepTask, cnStep, hval, hc, hk2, h1v, h2v, hl1, hl2]
                            rw [hred]
                            exact ⟨rfl, cn_cond_push_lt H a0 a1 a2 a hl1 hl2⟩
                          · have hred : stepTask H s (VTask.cn a) =
                                (setFatal s
                                  "ill-formed heap: abstract operand out of construction order",
                                  []) := by
                              simp [stepTask, cnStep, hval, hc, hk2, h1v, h2v, hl1, hl2]
                            rw [hred]
                            exact ⟨setFatal_values s _, nilWeight_lt H _⟩
                        · have hred : stepTask H s (VTask.cn a) =
                              (setFatal s
                                "ill-formed heap: abstract operand out of construction order",
                                []) := by
                            simp [stepTask, cnStep, hval, hc, hk2, h1v, h2v, hl1]
                          rw [hred]
                          exact ⟨setFatal_values s _, nilWeight_lt H _⟩
  | objRest v =>
    left
    cases hval : H.val? v with
    | none =>
      have hred : stepTask H s (VTask.objRest v) = (s, []) := by simp [stepTask, hval]
      rw [hred]
      exact ⟨rfl, nilWeight_lt H _⟩
    | some val =>
      obtain ⟨intr, vd⟩ := val
      cases vd with
      | prim pk =>
        have hred : stepTask H s (VTask.objRest v) = (s, []) := by simp [stepTask, hval]
        rw [hred]
        exact ⟨rfl, nilWeight_lt H _⟩
      | symbol =>
        have hred : stepTask H s (VTask.objRest v) = (s, []) := by simp [stepTask, hval]
        rw [hred]
        exact ⟨rfl, nilWeight_lt H _⟩
      | abstract k hid args =>
        have hred : stepTask H s (VTask.objRest v) = (s, []) := by simp [stepTask, hval]
        rw [hred]
        exact ⟨rfl, nilWeight_lt H _⟩
      | obj o =>
        cases hoc : o.originalConstructor with
        | some c =>
          have hred : stepTask H s (VTask.objRest v) = (s, [VTask.visit c]) := by
            simp [stepTask, hval, hoc]
          rw [hred]
          exact ⟨rfl, objRest_push1_lt H c v⟩
        | none =>
          by_cases h1 : (o.kind == "RegExp" || o.kind == "Number" || o.kind == "String" ||
              o.kind == "Boolean" || o.kind == "ArrayBuffer") = true
          · have hred : stepTask H s (VTask.objRest v) = (s, []) := by
              simp only [stepTask, hval, hoc]
              rw [if_pos h1]
            rw [hred]
            exact ⟨rfl, nilWeight_lt H _⟩
          · by_cases h2 : (o.kind == "Date") = true
            · cases hdate : o.dateValue with
              | none =>
                have hred : stepTask H s (VTask.objRest v) =
                    (setFatal s "invariant failed: missing date value", []) := by
                  simp only [stepTask, hval, hoc]
                  rw [if_neg h1, if_pos h2, hdate]
                rw [hred]
                exact ⟨setFatal_values s _, nilWeight_lt H _⟩
              | some d =>
                have hred : stepTask H s (VTask.objRest v) = (s, [VTask.visit d]) := by
                  simp only [stepTask, hval, hoc]
                  rw [if_neg h1, if_pos h2, hdate]
                rw [hred]
                exact ⟨rfl, objRest_push1_lt H d v⟩
            · by_cases h3 : typedViewKinds.contains o.kind = true
              · cases hbuf : o.viewedArrayBuffer with
                | none =>
                  have hred : stepTask H s (VTask.objRest v) =
                      (setFatal s "invariant failed: missing viewed buffer", []) := by
                    simp only [stepTask, hval, hoc]
                    rw [if_neg h1, if_neg h2, if_pos h3, hbuf]
                  rw [hred]
                  exact ⟨setFatal_values s _, nilWeight_lt H _⟩
                | some b =>
                  have hred : stepTask H s (VTask.objRest v) = (s, [VTask.visit b]) := by
                    simp only [stepTask, hval, hoc]
                    rw [if_neg h1, if_neg h2, if_pos h3, hbuf]
                  rw [hred]
                  exact ⟨rfl, objRest_push1_lt H b v⟩
              · by_cases h4 : (o.kind == "Map") = true
                · cases hm : o.mapData with
                  | none =>
                    have hred : stepTask H s (VTask.objRest v) =
                        (setFatal s "invariant failed: missing map data", []) := by
                      simp only [stepTask, hval, hoc]
                      rw [if_neg h1, if_neg h2, if_neg h3, if_pos h4, hm]
                    rw [hred]
                    exact ⟨setFatal_values s _, nilWeight_lt H _⟩
                  | some entries =>
                    have hred : stepTask H s (VTask.objRest v) =
                        (s, mapEntryTasks entries) := by
                      simp only [stepTask, hval, hoc]
                      rw [if_neg h1, if_neg h2, if_neg h3, if_pos h4, hm]
                    rw [hred]
                    exact ⟨rfl, objRest_map_weight H v intr o entries hval (Or.inl hm)⟩
                · by_cases h5 : (o.kind == "WeakMap") = true
                  · cases hm : o.weakMapData with
                    | none =>
                      have hred : stepTask H s (VTask.objRest v) =
                          (setFatal s "invariant failed: missing map data", []) := by
                        simp only [stepTask, hval, hoc]
                        rw [if_neg h1, if_neg h2, if_neg h3, if_neg h4, if_pos h5, hm]
                      rw [hred]
                      exact ⟨setFatal_values s _, nilWeight_lt H _⟩
                    | some entries =>
                      have hred : stepTask H s (VTask.objRest v) =
                          (s, mapEntryTasks entries) := by
                        simp only [stepTask, hval, hoc]
                        rw [if_neg h1, if_neg h2, if_neg h3, if_neg h4, if_pos h5, hm]
                      rw [hred]
                      exact ⟨rfl, objRest_map_weight H v intr o entries hval (Or.inr hm)⟩
                  · by_cases h6 : (o.kind == "Set") = true
                    · cases hm : o.setData with
                      | none =>
                        have hred : stepTask H s (VTask.objRest v) =
                            (setFatal s "invariant failed: missing set data", []) := by
                          simp only [stepTask, hval, hoc]
                          rw [if_neg h1, if_neg h2, if_neg h3, if_neg h4, if_neg h5,
                            if_pos h6, hm]
                        rw [hred]
                        exact ⟨setFatal_values s _, nilWeight_lt H _⟩
                      | some entries =>
                        have hred : stepTask H s (VTask.objRest v) =
                            (s, entries.filterMap (fun e => e.map VTask.visit)) := by
                          simp only [stepTask, hval, hoc]
                          rw [if_neg h1, if_neg h2, if_neg h3, if_neg h4, if_neg h5,
                            if_pos h6, hm]
                        rw [hred]
                        exact ⟨rfl, objRest_set_weight H v intr o entries hval (Or.inl hm)⟩
                    · by_cases h7 : (o.kind == "WeakSet") = true
                      · cases hm : o.weakSetData with
                        | none =>
                          have hred : stepTask H s (VTask.objRest v) =
                              (setFatal s "invariant failed: missing set data", []) := by
                            simp only [stepTask, hval, hoc]
                            rw [if_neg h1, if_neg h2, if_neg h3, if_neg h4, if_neg h5,
                              if_neg h6, if_pos h7, hm]
                          rw [hred]
                          exact ⟨setFatal_values s _, nilWeight_lt H _⟩
                        | some entries =>
                          have hred : stepTask H s (VTask.objRest v) =
                              (s, entries.filterMap (fun e => e.map VTask.visit)) := by
                            simp only [stepTask, hval, hoc]
                            rw [if_neg h1, if_neg h2, if_neg h3, if_neg h4, if_neg h5,
                              if_neg h6, if_pos h7, hm]
                          rw [hred]
                          exact ⟨rfl, objRest_set_weight H v intr o entries hval (Or.inr hm)⟩
                      · by_cases h8 : (o.kind != "Object") = true
                        · have hred : stepTask H s (VTask.objRest v) =
                              (addDiag s v (unsupportedKindMsg o.kind), []) := by
                            simp only [stepTask, hval, hoc]
                            rw [if_neg h1, if_neg h2, if_neg h3, if_neg h4, if_neg h5,
                              if_neg h6, if_neg h7, if_pos h8]
                            simp [visitorParameterMap]
                          rw [hred]
                          exact ⟨addDiag_values s v _, nilWeight_lt H _⟩
                        · have hred : stepTask H s (VTask.objRest v) = (s, []) := by
                            simp only [stepTask, hval, hoc]
                            rw [if_neg h1, if_neg h2, if_neg h3, if_neg h4, if_neg h5,
                              if_neg h6, if_neg h7, if_neg h8]
                            simp [visitorParameterMap]
                          rw [hred]
                          exact ⟨rfl, nilWeight_lt H _⟩
  | fnRest v =>
    left
    cases hval : H.val? v with
    | none =>
      have hred : stepTask H s (VTask.fnRest v) = (s, []) := by simp [stepTask, hval]
      rw [hred]
      exact ⟨rfl, nilWeight_lt H _⟩
    | some val =>
      obtain ⟨intr, vd⟩ := val
      cases vd with
      | prim pk =>
        have hred : stepTask H s (VTask.fnRest v) = (s, []) := by simp [stepTask, hval]
        rw [hred]
        exact ⟨rfl, nilWeight_lt H _⟩
      | symbol =>
        have hred : stepTask H s (VTask.fnRest v) = (s, []) := by simp [stepTask, hval]
        rw [hred]
        exact ⟨rfl, nilWeight_lt H _⟩
      | abstract k hid args =>
        have hred : stepTask H s (VTask.fnRest v) = (s, []) := by simp [stepTask, hval]
        rw [hred]
        exact ⟨rfl, nilWeight_lt H _⟩
      | obj o =>
        cases hcls : o.cls with
        | plainObj =>
          have hred : stepTask H s (VTask.fnRest v) = (s, []) := by
            simp [stepTask, hval, hcls]
          rw [hred]
          exact ⟨rfl, nilWeight_lt H _⟩
        | proxy tg hh =>
          have hred : stepTask H s (VTask.fnRest v) = (s, []) := by
            simp [stepTask, hval, hcls]
          rw [hred]
          exact ⟨rfl, nilWeight_lt H _⟩
        | fn f =>
          cases hk : f.kind with
          | bound bt bthis bargs =>
            have hred : stepTask H s (VTask.fnRest v) = (s, []) := by
              simp [stepTask, hval, hcls, hk]
            rw [hred]
            exact ⟨rfl, nilWeight_lt H _⟩
          | native =>
            have hred : stepTask H s (VTask.fnRest v) = (s, []) := by
              simp [stepTask, hval, hcls, hk]
            rw [hred]
            exact ⟨rfl, nilWeight_lt H _⟩
          | plain code env =>
            have hred : stepTask H s (VTask.fnRest v) =
                (if code ∈ s.doneCodes then s
                 else
                   if (f.isResidual && !(H.analysis code).names.isEmpty) = true then
                     addDiag { s with doneCodes := insert code s.doneCodes } v residualFnMsg
                   else { s with doneCodes := insert code s.doneCodes },
                 [VTask.fnames v code (H.analysis code).names []]) := by
              simp only [stepTask, hval, hcls, hk]
            rw [hred]
            exact ⟨fnRest_s1_values H s v code f,
              fnRest_push_lt H v intr o f code env [] hval hcls hk⟩
  | fnames fn code names acc =>
    left
    cases names with
    | nil =>
      have hred : stepTask H s (VTask.fnames fn code [] acc) =
          ({ s with functionBindings := (fn, acc) :: s.functionBindings }, []) := by
        simp [stepTask]
      rw [hred]
      exact ⟨rfl, nilWeight_lt H _⟩
    | cons innerName rest =>
      cases hval : H.val? fn with
      | none =>
        have hred : stepTask H s (VTask.fnames fn code (innerName :: rest) acc) = (s, []) := by
          simp [stepTask, hval]
        rw [hred]
        exact ⟨rfl, nilWeight_lt H _⟩
      | some val =>
        obtain ⟨intr, vd⟩ := val
        cases vd with
        | prim pk =>
          have hred : stepTask H s (VTask.fnames fn code (innerName :: rest) acc) = (s, []) := by
            simp [stepTask, hval]
          rw [hred]
          exact ⟨rfl, nilWeight_lt H _⟩
        | symbol =>
          have hred : stepTask H s (VTask.fnames fn code (innerName :: rest) acc) = (s, []) := by
            simp [stepTask, hval]
          rw [hred]
          exact ⟨rfl, nilWeight_lt H _⟩
        | abstract k hid args =>
          have hred : stepTask H s (VTask.fnames fn code (innerName :: rest) acc) = (s, []) := by
            simp [stepTask, hval]
          rw [hred]
          exact ⟨rfl, nilWeight_lt H _⟩
        | obj o =>
          cases hcls : o.cls with
          | plainObj =>
            have hred : stepTask H s (VTask.fnames fn code (innerName :: rest) acc) =
                (s, []) := by
              simp [stepTask, hval, hcls]
            rw [hred]
            exact ⟨rfl, nilWeight_lt H _⟩
          | proxy tg hh =>
            have hred : stepTask H s (VTask.fnames fn code (innerName :: rest) acc) =
                (s, []) := by
              simp [stepTask, hval, hcls]
            rw [hred]
            exact ⟨rfl, nilWeight_lt H _⟩
          | fn f =>
            cases hk : f.kind with
            | bound bt bthis bargs =>
              have hred : stepTask H s (VTask.fnames fn code (innerName :: rest) acc) =
                  (s, []) := by
                simp [stepTask, hval, hcls, hk]
              rw [hred]
              exact ⟨rfl, nilWeight_lt H _⟩
            | native =>
              have hred : stepTask H s (VTask.fnames fn code (innerName :: rest) acc) =
                  (s, []) := by
                simp [stepTask, hval, hcls, hk]
              rw [hred]
              exact ⟨rfl, nilWeight_lt H _⟩
            | plain code2 env =>
              cases hres : H.resolve innerName env with
              | none =>
                rcases hg : visitGlobalBindingStep H s innerName with ⟨s2, bid, pushes⟩
                have hgv := visitGlobalBindingStep_values H s innerName
                have hgw := visitGlobalBindingStep_weight H s innerName
                rw [hg] at hgv hgw
                have hred : stepTask H s (VTask.fnames fn code (innerName :: rest) acc) =
                    (s2, pushes ++ [VTask.afterName fn code innerName bid rest acc]) := by
                  simp [stepTask, hval, hcls, hk, hres, hg]
                rw [hred]
                exact ⟨hgv, fnames_push_lt H pushes hgw fn code innerName bid rest acc⟩
              | some ref =>
                obtain ⟨base, rname⟩ := ref
                cases rname with
                | sym =>
                  have hred : stepTask H s (VTask.fnames fn code (innerName :: rest) acc) =
                      (setFatal s symbolRefMsg, []) := by
                    simp [stepTask, hval, hcls, hk, hres]
                  rw [hred]
                  exact ⟨setFatal_values s _, nilWeight_lt H _⟩
                | str rn =>
                  cases base with
                  | global =>
                    rcases hg : visitGlobalBindingStep H s rn with ⟨s2, bid, pushes⟩
                    have hgv := visitGlobalBindingStep_values H s rn
                    have hgw := visitGlobalBindingStep_weight H s rn
                    rw [hg] at hgv hgw
                    have hred : stepTask H s (VTask.fnames fn code (innerName :: rest) acc) =
                        (s2, pushes ++ [VTask.afterName fn code innerName bid rest acc]) := by
                      simp [stepTask, hval, hcls, hk, hres, hg]
                    rw [hred]
                    exact ⟨hgv, fnames_push_lt H pushes hgw fn code innerName bid rest acc⟩
                  | other =>
                    have hred : stepTask H s (VTask.fnames fn code (innerName :: rest) acc) =
                        (setFatal s "invariant failed: unknown reference base", []) := by
                      simp [stepTask, hval, hcls, hk, hres]
                    rw [hred]
                    exact ⟨setFatal_values s _, nilWeight_lt H _⟩
                  | decl r =>
                    rcases hvd : visitDeclBindingStep H s r rn with ⟨s2, obid, pushes⟩
                    have hdv := visitDeclBindingStep_values H s r rn
                    have hdw := visitDeclBindingStep_weight H s r rn
                    rw [hvd] at hdv hdw
                    cases obid with
                    | some bid =>
                      have hred : stepTask H s (VTask.fnames fn code (innerName :: rest) acc) =
                          (s2, pushes ++ [VTask.afterName fn code innerName bid rest acc]) := by
                        simp [stepTask, hval, hcls, hk, hres, hvd]
                      rw [hred]
                      exact ⟨hdv, fnames_push_lt H pushes hdw fn code innerName bid rest acc⟩
                    | none =>
                      have hred : stepTask H s (VTask.fnames fn code (innerName :: rest) acc) =
                          (s2, []) := by
                        simp [stepTask, hval, hcls, hk, hres, hvd]
                      rw [hred]
                      exact ⟨hdv, nilWeight_lt H _⟩
  | afterName fn code n bid rest acc =>
    left
    by_cases hmod : n ∈ (H.analysis code).modified
    · cases hsb : s.store[bid]? with
      | none =>
        have hred : stepTask H s (VTask.afterName fn code n bid rest acc) =
            (s, [VTask.fnames fn code rest (acc ++ [(n, bid)])]) := by
          simp [stepTask, hmod, hsb]
        rw [hred]
        exact ⟨rfl, afterName_push_lt H fn code n bid rest acc (acc ++ [(n, bid)])⟩
      | some b =>
        have hred : stepTask H s (VTask.afterName fn code n bid rest acc) =
            ({ s with store := s.store.set bid { b with modified := true } },
              [VTask.fnames fn code rest (acc ++ [(n, bid)])]) := by
          simp [stepTask, hmod, hsb]
        rw [hred]
        exact ⟨rfl, afterName_push_lt H fn code n bid rest acc (acc ++ [(n, bid)])⟩
    · have hred : stepTask H s (VTask.afterName fn code n bid rest acc) =
          (s, [VTask.fnames fn code rest (acc ++ [(n, bid)])]) := by
        simp [stepTask, hmod]
      rw [hred]
      exact ⟨rfl, afterName_push_lt H fn code n bid rest acc (acc ++ [(n, bid)])⟩

/-- One machine step preserves the visited set or strictly shrinks the
unvisited count; when not halted it strictly decreases the lexicographic
measure (unvisited count, stack weight). -/
theorem step_decrease (H : Heap) (cfg : Config) (h : halted cfg = false) :
    unvisited H (step H cfg).1.values < unvisited H cfg.1.values ∨
    (unvisited H (step H cfg).1.values = unvisited H cfg.1.values ∧
      stackWeight H (step H cfg).2 < stackWeight H cfg.2) := by
  obtain ⟨s, ts⟩ := cfg
  simp only [halted, Bool.or_eq_false_iff] at h
  obtain ⟨hne, hfat⟩ := h
  cases ts with
  | nil => simp at hne
  | cons t rest =>
    have hstep : step H (s, t :: rest) = ((stepTask H s t).1, (stepTask H s t).2 ++ rest) := by
      simp only [step]
      rw [if_neg (by simp [hfat])]
    rw [hstep]
    rcases stepTask_decrease H s t with ⟨hv, hw⟩ | ⟨v, val, _, _, _, _, hlt⟩
    · right
      constructor
      · rw [hv]
      · rw [stackWeight_append, stackWeight_cons]
        omega
    · left
      exact hlt

/-- The visited set grows monotonically along each step. -/
theorem stepTask_values_mono (H : Heap) (s : VState) (t : VTask) :
    s.values ⊆ (stepTask H s t).1.values := by
  rcases stepTask_decrease H s t with ⟨hv, _⟩ | ⟨v, val, _, _, _, heq, _⟩
  · rw [hv]
  · rw [heq]
    exact Finset.subset_insert v s.values

theorem step_values_mono (H : Heap) (cfg : Config) :
    cfg.1.values ⊆ (step H cfg).1.values := by
  obtain ⟨s, ts⟩ := cfg
  by_cases hf : s.fatal.isSome = true
  · simp [step, hf]
  · cases ts with
    | nil => simp [step, hf]
    | cons t rest =>
      have hstep : step H (s, t :: rest) = ((stepTask H s t).1, (stepTask H s t).2 ++ rest) := by
        simp only [step]
        rw [if_neg (by simp [hf])]
      rw [hstep]
      exact stepTask_values_mono H s t

theorem halted_step (H : Heap) (cfg : Config) (h : halted cfg = true) :
    step H cfg = cfg := by
  obtain ⟨s, ts⟩ := cfg
  simp only [halted, Bool.or_eq_true] at h
  rcases h with h | h
  · cases ts with
    | nil => simp [step]
    | cons t rest => simp at h
  · simp [step, h]

theorem halted_runF (H : Heap) (n : Nat) (cfg : Config) (h : halted cfg = true) :
    runF H n cfg = cfg := by
  induction n with
  | zero => rfl
  | succ n ih => simp [runF, h]

theorem runF_add (H : Heap) (m n : Nat) (cfg : Config) :
    runF H (m + n) cfg = runF H n (runF H m cfg) := by
  induction m generalizing cfg with
  | zero => simp [runF]
  | succ m ih =>
    by_cases hh : halted cfg = true
    · rw [halted_runF H (m + 1 + n) cfg hh, halted_runF H (m + 1) cfg hh,
        halted_runF H n cfg hh]
    · have h1 : runF H (m + 1) cfg = runF H m (step H cfg) := by
        simp [runF, hh]
      have h2 : runF H (m + 1 + n) cfg = runF H (m + n) (step H cfg) := by
        rw [show m + 1 + n = (m + n) + 1 from by omega]
        simp [runF, hh]
      rw [h1, h2, ih (step H cfg)]

theorem runF_values_mono (H : Heap) (n : Nat) (cfg : Config) :
    cfg.1.values ⊆ (runF H n cfg).1.values := by
  induction n generalizing cfg with
  | zero => simp [runF]
  | succ n ih =>
    by_cases hh : halted cfg = true
    · rw [halted_runF H (n + 1) cfg hh]
    · have h1 : runF H (n + 1) cfg = runF H n (step H cfg) := by simp [runF, hh]
      rw [h1]
      exact (step_values_mono H cfg).trans (ih (step H cfg))

theorem runF_halted_unique (H : Heap) (m n : Nat) (cfg : Config)
    (hm : halted (runF H m cfg) = true) (hn : halted (runF H n cfg) = true) :
    runF H m cfg = runF H n cfg := by
  rcases Nat.le_total m n with h | h
  · obtain ⟨k, rfl⟩ := Nat.le.dest h
    rw [runF_add, halted_runF H k _ hm]
  · obtain ⟨k, rfl⟩ := Nat.le.dest h
    rw [runF_add, halted_runF H k _ hn]

/-- Every configuration halts after enough steps: the machine terminates
on every heap, also in the presence of arbitrary reference cycles, by
the lexicographic measure (unvisited count, stack weight). -/
theorem term_aux (H : Heap) : ∀ u w : Nat, ∀ cfg : Config,
    unvisited H cfg.1.values ≤ u → stackWeight H cfg.2 ≤ w →
    ∃ n, halted (runF H n cfg) = true := by
  intro u
  induction u using Nat.strong_induction_on with
  | _ u ihu =>
    intro w
    induction w using Nat.strong_induction_on with
    | _ w ihw =>
      intro cfg hu hw
      by_cases hh : halted cfg = true
      · exact ⟨0, hh⟩
      · have hd := step_decrease H cfg (by simpa using hh)
        have hstep : runF H 1 cfg = step H cfg := by simp [runF, hh]
        rcases hd with hlt | ⟨heq, hwlt⟩
        · have hlt2 : unvisited H (step H cfg).1.values < u := by omega
          obtain ⟨n, hn⟩ := ihu _ hlt2 (stackWeight H (step H cfg).2) (step H cfg)
            (le_refl _) (le_refl _)
          refine ⟨1 + n, ?_⟩
          rw [runF_add, hstep]
          exact hn
        · rcases Nat.lt_or_ge (stackWeight H (step H cfg).2) w with hw2 | hw2
          · obtain ⟨n, hn⟩ := ihw _ hw2 (step H cfg) (by omega) (le_refl _)
            refine ⟨1 + n, ?_⟩
            rw [runF_add, hstep]
            exact hn
          · omega

theorem terminates (H : Heap) (cfg : Config) : ∃ n, halted (runF H n cfg) = true :=
  term_aux H (unvisited H cfg.1.values) (stackWeight H cfg.2) cfg (le_refl _) (le_refl _)

theorem step_append (H : Heap) (s : VState) (ts1 ts2 : List VTask)
    (h : halted (s, ts1) = false) :
    step H (s, ts1 ++ ts2) = ((step H (s, ts1)).1, (step H (s, ts1)).2 ++ ts2) := by
  simp only [halted, Bool.or_eq_false_iff] at h
  obtain ⟨hne, hfat⟩ := h
  cases ts1 with
  | nil => simp at hne
  | cons t rest =>
    have h1 : step H (s, t :: rest) = ((stepTask H s t).1, (stepTask H s t).2 ++ rest) := by
      simp only [step]
      rw [if_neg (by simp [hfat])]
    have h2 : step H (s, t :: (rest ++ ts2)) =
        ((stepTask H s t).1, (stepTask H s t).2 ++ (rest ++ ts2)) := by
      simp only [step]
      rw [if_neg (by simp [hfat])]
    rw [List.cons_append, h2, h1]
    simp [List.append_assoc]

theorem runF_append (H : Heap) : ∀ (n : Nat) (s : VState) (ts1 ts2 : List VTask),
    halted (runF H n (s, ts1)) = true → (runF H n (s, ts1)).2 = [] →
    ∃ m, runF H m (s, ts1 ++ ts2) = ((runF H n (s, ts1)).1, ts2) := by
  intro n
  induction n with
  | zero =>
    intro s ts1 ts2 _ hs
    simp only [runF] at hs ⊢
    subst hs
    exact ⟨0, rfl⟩
  | succ n ih =>
    intro s ts1 ts2 hh hs
    by_cases h0 : halted (s, ts1) = true
    · rw [halted_runF H (n + 1) _ h0] at hh hs ⊢
      simp only at hs
      subst hs
      exact ⟨0, rfl⟩
    · have hunf : runF H (n + 1) (s, ts1) = runF H n (step H (s, ts1)) := by
        simp [runF, h0]
      rw [hunf] at hh hs ⊢
      have hsp : step H (s, ts1) = ((step H (s, ts1)).1, (step H (s, ts1)).2) := rfl
      rw [hsp] at hh hs
      obtain ⟨m, hm⟩ := ih (step H (s, ts1)).1 (step H (s, ts1)).2 ts2 hh hs
      refine ⟨1 + m, ?_⟩
      have h0f : halted (s, ts1) = false := by simpa using h0
      have hh2 : halted (s, ts1 ++ ts2) = false := by
        simp only [halted, Bool.or_eq_false_iff] at h0f ⊢
        obtain ⟨he, hf⟩ := h0f
        refine ⟨?_, hf⟩
        cases ts1 with
        | nil => simp at he
        | cons a b => simp
      rw [runF_add]
      have hr1 : runF H 1 (s, ts1 ++ ts2) = step H (s, ts1 ++ ts2) := by
        simp [runF, hh2]
      rw [hr1, step_append H s ts1 ts2 h0f, hm]

theorem fatal_halted (cfg : Config) (m : String)
    (h : cfg.1.fatal = some m) : halted cfg = true := by
  simp [halted, h]

theorem runF_fatal_back (H : Heap) (m n : Nat) (cfg : Config) (hmn : m ≤ n)
    (h : (runF H n cfg).1.fatal = none) : (runF H m cfg).1.fatal = none := by
  obtain ⟨k, rfl⟩ := Nat.le.dest hmn
  rw [runF_add] at h
  cases hf : (runF H m cfg).1.fatal with
  | none => rfl
  | some msg =>
    rw [halted_runF H k _ (fatal_halted _ msg hf)] at h
    rw [hf] at h
    exact Option.noConfusion h

/-- Store-entry persistence: once a VisitedBinding record exists in the
shared store, its `global`, `value` and owning-record fields never change,
and its `modified` flag is sticky (never cleared once set).  Mirrors the
fact that the source only ever mutates `visitedBinding.modified = true`. -/
def storePres (s s' : VState) : Prop :=
  ∀ (bid : Nat) (vb : VisitedBinding), s.store.get? bid = some vb →
    ∃ vb', s'.store.get? bid = some vb' ∧ vb'.global = vb.global ∧
      vb'.declarativeEnvironmentRecord = vb.declarativeEnvironmentRecord ∧
      vb'.value = vb.value ∧ (vb.modified = true → vb'.modified = true)

/-- Binding-table well-formedness: every binding reachable from the
declarative table is a lexical record owned by that declarative record,
and every binding reachable from the global table is a global record
marked modified (they are created that way and never change shape). -/
def BT (s : VState) : Prop :=
  (∀ r tbl n bid, nlist s.declBindings r = some tbl → alist tbl n = some bid →
    ∃ vb, s.store.get? bid = some vb ∧ vb.global = false ∧
      vb.declarativeEnvironmentRecord = some r) ∧
  (∀ k bid, alist s.globalBindings k = some bid →
    ∃ vb, s.store.get? bid = some vb ∧ vb.global = true ∧ vb.modified = true)

/-- The preservation relation carried across machine steps. -/
def Pres (s s' : VState) : Prop :=
  storePres s s' ∧ (BT s → BT s')

theorem storePres_refl (s : VState) : storePres s s :=
  fun _bid vb h => ⟨vb, h, rfl, rfl, rfl, fun hm => hm⟩

theorem storePres_trans {s1 s2 s3 : VState} (h12 : storePres s1 s2)
    (h23 : storePres s2 s3) : storePres s1 s3 := by
  intro bid vb h
  obtain ⟨vb2, h2, hg2, hd2, hv2, hm2⟩ := h12 bid vb h
  obtain ⟨vb3, h3, hg3, hd3, hv3, hm3⟩ := h23 bid vb2 h2
  exact ⟨vb3, h3, hg3.trans hg2, hd3.trans hd2, hv3.trans hv2, fun hm => hm3 (hm2 hm)⟩

theorem pres_refl (s : VState) : Pres s s := ⟨storePres_refl s, fun h => h⟩

theorem pres_trans {s1 s2 s3 : VState} (h12 : Pres s1 s2) (h23 : Pres s2 s3) :
    Pres s1 s3 :=
  ⟨storePres_trans h12.1 h23.1, fun h => h23.2 (h12.2 h)⟩

/-- A state that keeps the store and both binding tables satisfies `Pres`. -/
theorem pres_of_eq (s s' : VState) (h1 : s'.store = s.store)
    (h2 : s'.declBindings = s.declBindings) (h3 : s'.globalBindings = s.globalBindings) :
    Pres s s' := by
  constructor
  · intro bid vb h
    exact ⟨vb, by rw [h1]; exact h, rfl, rfl, rfl, fun hm => hm⟩
  · intro hbt
    constructor
    · intro r tbl n bid hr hn
      rw [h2] at hr
      obtain ⟨vb, hvb, hg, hd⟩ := hbt.1 r tbl n bid hr hn
      exact ⟨vb, by rw [h1]; exact hvb, hg, hd⟩
    · intro k bid hk
      rw [h3] at hk
      obtain ⟨vb, hvb, hg, hm⟩ := hbt.2 k bid hk
      exact ⟨vb, by rw [h1]; exact hvb, hg, hm⟩

theorem pres_addIgnored (s : VState) (v : Nat) (key : String) :
    Pres s (addIgnored s v key) := by
  unfold addIgnored
  split <;> exact pres_of_eq _ _ rfl rfl rfl

theorem dispatch_state (H : Heap) (s : VState) (v : Nat) (val : Value) :
    (dispatch H s v val).1 = s ∨ (dispatch H s v val).1 = addDiag s v sentinelMsg := by
  unfold dispatch
  repeat' split
  all_goals first | exact Or.inl rfl | exact Or.inr rfl

theorem pres_dispatch (H : Heap) (s s0 : VState) (v : Nat) (val : Value)
    (hp : Pres s0 s) : Pres s0 (dispatch H s v val).1 := by
  rcases dispatch_state H s v val with h | h <;> rw [h]
  · exact hp
  · exact pres_trans hp (pres_of_eq _ _ rfl rfl rfl)

theorem get?_append_some {α : Type} (l l2 : List α) (n : Nat) (a : α)
    (h : l.get? n = some a) : (l ++ l2).get? n = some a := by
  have hlt : n < l.length := by
    by_contra hge
    rw [List.get?_eq_none.mpr (by omega)] at h
    exact Option.noConfusion h
  rw [List.get?_append hlt]
  exact h

theorem get?_set_same {α : Type} (l : List α) (n : Nat) (a b : α)
    (h : l.get? n = some a) : (l.set n b).get? n = some b := by
  have hlt : n < l.length := by
    by_contra hge
    rw [List.get?_eq_none.mpr (by omega)] at h
    exact Option.noConfusion h
  exact List.get?_set_eq_of_lt b hlt

theorem get?_set_other {α : Type} (l : List α) (n m : Nat) (b : α) (h : n ≠ m) :
    (l.set n b).get? m = l.get? m := by
  rw [List.get?_eq_getElem?, List.get?_eq_getElem?, List.getElem?_set_ne h]

theorem alist_cons {α : Type} (k : String) (v : α) (l : List (String × α)) (k' : String) :
    alist ((k, v) :: l) k' = if k == k' then some v else alist l k' := by
  simp only [alist, List.find?_cons]
  cases hkk : (k == k') <;> simp [hkk]

theorem nlist_cons {α : Type} (k : Nat) (v : α) (l : List (Nat × α)) (k' : Nat) :
    nlist ((k, v) :: l) k' = if k == k' then some v else nlist l k' := by
  simp only [nlist, List.find?_cons]
  cases hkk : (k == k') <;> simp [hkk]

theorem alist_append_some {α : Type} (l l2 : List (String × α)) (k : String) (x : α)
    (h : alist l k = some x) : alist (l ++ l2) k = some x := by
  simp only [alist] at h ⊢
  rw [List.find?_append]
  cases hf : l.find? (fun p => p.1 == k) with
  | none => rw [hf] at h; simp at h
  | some p => rw [hf] at h; simp [Option.or, hf]; simpa using h

theorem alist_append_none {α : Type} (l l2 : List (String × α)) (k : String)
    (h : alist l k = none) : alist (l ++ l2) k = alist l2 k := by
  simp only [alist] at h ⊢
  rw [List.find?_append]
  cases hf : l.find? (fun p => p.1 == k) with
  | none => simp [Option.or]
  | some p => rw [hf] at h; simp at h

theorem nlist_append_some {α : Type} (l l2 : List (Nat × α)) (k : Nat) (x : α)
    (h : nlist l k = some x) : nlist (l ++ l2) k = some x := by
  simp only [nlist] at h ⊢
  rw [List.find?_append]
  cases hf : l.find? (fun p => p.1 == k) with
  | none => rw [hf] at h; simp at h
  | some p => rw [hf] at h; simp [Option.or, hf]; simpa using h

theorem nlist_append_none {α : Type} (l l2 : List (Nat × α)) (k : Nat)
    (h : nlist l k = none) : nlist (l ++ l2) k = nlist l2 k := by
  simp only [nlist] at h ⊢
  rw [List.find?_append]
  cases hf : l.find? (fun p => p.1 == k) with
  | none => simp [Option.or]
  | some p => rw [hf] at h; simp at h

theorem nlist_map_replace_other {α : Type} (l : List (Nat × α)) (r : Nat) (newTbl : α)
    (r' : Nat) (h : r' ≠ r) :
    nlist (l.map (fun p => if p.1 == r then (p.1, newTbl) else p)) r' = nlist l r' := by
  induction l with
  | nil => rfl
  | cons p rest ih =>
    obtain ⟨pk, pv⟩ := p
    simp only [List.map_cons]
    by_cases hp : pk = r
    · subst hp
      rw [if_pos (by simp)]
      rw [nlist_cons, nlist_cons]
      have hne : ¬((pk == r') = true) := by simp; exact fun he => h he.symm
      rw [if_neg hne, if_neg hne]
      exact ih
    · rw [if_neg (by simp [hp])]
      rw [nlist_cons, nlist_cons]
      by_cases he : (pk == r') = true
      · rw [if_pos he, if_pos he]
      · rw [if_neg he, if_neg he]
        exact ih

theorem nlist_map_replace_self {α : Type} (l : List (Nat × α)) (r : Nat) (newTbl : α)
    (tbl : α) (h : nlist l r = some tbl) :
    nlist (l.map (fun p => if p.1 == r then (p.1, newTbl) else p)) r = some newTbl := by
  induction l with
  | nil => simp [nlist] at h
  | cons p rest ih =>
    obtain ⟨pk, pv⟩ := p
    simp only [List.map_cons]
    by_cases hp : pk = r
    · subst hp
      rw [if_pos (by simp)]
      rw [nlist_cons]
      rw [if_pos (by simp)]
    · rw [if_neg (by simp [hp])]
      rw [nlist_cons] at h ⊢
      rw [if_neg (by simp [hp])] at h ⊢
      exact ih h

theorem alist_append_elim {α : Type} (l l2 : List (String × α)) (k : String) (x : α)
    (h : alist (l ++ l2) k = some x) :
    alist l k = some x ∨ (alist l k = none ∧ alist l2 k = some x) := by
  cases hf : alist l k with
  | none =>
    right
    rw [alist_append_none l l2 k hf] at h
    exact ⟨rfl, h⟩
  | some a =>
    left
    have h2 : (some a : Option α) = some x := (alist_append_some l l2 k a hf).symm.trans h
    injection h2 with he
    rw [he]

theorem nlist_append_elim {α : Type} (l l2 : List (Nat × α)) (k : Nat) (x : α)
    (h : nlist (l ++ l2) k = some x) :
    nlist l k = some x ∨ (nlist l k = none ∧ nlist l2 k = some x) := by
  cases hf : nlist l k with
  | none =>
    right
    rw [nlist_append_none l l2 k hf] at h
    exact ⟨rfl, h⟩
  | some a =>
    left
    have h2 : (some a : Option α) = some x := (nlist_append_some l l2 k a hf).symm.trans h
    injection h2 with he
    rw [he]

theorem get?_snoc_self {α : Type} (l : List α) (a : α) :
    (l ++ [a]).get? l.length = some a := by
  induction l with
  | nil => rfl
  | cons x xs ih => simpa using ih

theorem pres_globalStep (H : Heap) (s : VState) (key : String) :
    Pres s (visitGlobalBindingStep H s key).1 := by
  unfold visitGlobalBindingStep
  split
  · exact pres_refl s
  · constructor
    · intro bid vb h
      exact ⟨vb, get?_append_some _ _ _ _ h, rfl, rfl, rfl, fun hm => hm⟩
    · intro hbt
      constructor
      · intro r tbl n bid hr hn
        obtain ⟨vb, hvb, hg, hd⟩ := hbt.1 r tbl n bid hr hn
        exact ⟨vb, get?_append_some _ _ _ _ hvb, hg, hd⟩
      · intro k bid hk
        rcases alist_append_elim _ _ _ _ hk with hold | ⟨_, hnew⟩
        · obtain ⟨vb, hvb, hg, hm⟩ := hbt.2 k bid hold
          exact ⟨vb, get?_append_some _ _ _ _ hvb, hg, hm⟩
        · rw [alist_cons] at hnew
          by_cases hke : (key == k) = true
          · rw [if_pos hke] at hnew
            injection hnew with hb
            subst hb
            exact ⟨_, get?_snoc_self _ _, rfl, rfl⟩
          · rw [if_neg hke] at hnew
            simp [alist] at hnew

theorem pres_decl_append (s : VState) (r : Nat) (n : String) (vb : VisitedBinding)
    (hvb : vb.global = false ∧ vb.declarativeEnvironmentRecord = some r)
    (DB : List (Nat × List (String × Nat)))
    (hDB : (nlist s.declBindings r ≠ none ∧
              DB = s.declBindings.map (fun p =>
                if p.1 == r then
                  (p.1, (nlist s.declBindings r).getD [] ++ [(n, s.store.length)])
                else p)) ∨
           (nlist s.declBindings r = none ∧
              DB = s.declBindings ++
                [(r, (nlist s.declBindings r).getD [] ++ [(n, s.store.length)])])) :
    Pres s { s with store := s.store ++ [vb], declBindings := DB } := by
  constructor
  · intro bid vb0 h
    exact ⟨vb0, get?_append_some _ _ _ _ h, rfl, rfl, rfl, fun hm => hm⟩
  · intro hbt
    constructor
    · intro r' tbl' n' bid' hr' hn'
      rcases hDB with ⟨hne, hDB⟩ | ⟨hnone, hDB⟩
      · cases htbl0 : nlist s.declBindings r with
        | none => exact absurd htbl0 hne
        | some tbl0 =>
          subst hDB
          simp only at hr'
          by_cases hrr : r' = r
          · subst hrr
            rw [nlist_map_replace_self _ _ _ tbl0 htbl0] at hr'
            injection hr' with he
            subst he
            rw [htbl0] at hn'
            simp only [Option.getD_some] at hn'
            rcases alist_append_elim _ _ _ _ hn' with hold | ⟨_, hnew⟩
            · obtain ⟨vb1, hvb1, hg, hd⟩ := hbt.1 r' tbl0 n' bid' htbl0 hold
              exact ⟨vb1, get?_append_some _ _ _ _ hvb1, hg, hd⟩
            · rw [alist_cons] at hnew
              by_cases hke : (n == n') = true
              · rw [if_pos hke] at hnew
                injection hnew with hb
                subst hb
                exact ⟨vb, get?_snoc_self _ _, hvb.1, hvb.2⟩
              · rw [if_neg hke] at hnew
                simp [alist] at hnew
          · rw [nlist_map_replace_other _ _ _ _ hrr] at hr'
            obtain ⟨vb1, hvb1, hg, hd⟩ := hbt.1 r' tbl' n' bid' hr' hn'
            exact ⟨vb1, get?_append_some _ _ _ _ hvb1, hg, hd⟩
      · subst hDB
        simp only at hr'
        rcases nlist_append_elim _ _ _ _ hr' with hold | ⟨_, hnew⟩
        · obtain ⟨vb1, hvb1, hg, hd⟩ := hbt.1 r' tbl' n' bid' hold hn'
          exact ⟨vb1, get?_append_some _ _ _ _ hvb1, hg, hd⟩
        · rw [nlist_cons] at hnew
          by_cases hke : (r == r') = true
          · rw [if_pos hke] at hnew
            injection hnew with he
            subst he
            rw [hnone] at hn'
            simp only [Option.getD_none, List.nil_append] at hn'
            rw [alist_cons] at hn'
            by_cases hke2 : (n == n') = true
            · rw [if_pos hke2] at hn'
              injection hn' with hb
              subst hb
              have hrr : r' = r := by
                have := hke
                simp at this
                omega
              subst hrr
              exact ⟨vb, get?_snoc_self _ _, hvb.1, hvb.2⟩
            · rw [if_neg hke2] at hn'
              simp [alist] at hn'
          · rw [if_neg hke] at hnew
            simp [nlist] at hnew
    · intro k bid hk
      obtain ⟨vb1, hvb1, hg, hm⟩ := hbt.2 k bid hk
      exact ⟨vb1, get?_append_some _ _ _ _ hvb1, hg, hm⟩

set_option maxHeartbeats 800000 in
theorem pres_declStep (H : Heap) (s : VState) (r : Nat) (n : String) :
    Pres s (visitDeclBindingStep H s r n).1 := by
  unfold visitDeclBindingStep
  repeat' split
  all_goals
    first
      | exact pres_refl s
      | exact pres_of_eq _ _ rfl rfl rfl
      | exact pres_decl_append s r n _ ⟨rfl, rfl⟩ _ (Or.inl ⟨by simp [*], rfl⟩)
      | exact pres_decl_append s r n _ ⟨rfl, rfl⟩ _ (Or.inr ⟨by assumption, rfl⟩)

theorem pres_afterNameSet (s : VState) (bid : Nat) (b : VisitedBinding)
    (hsb : s.store.get? bid = some b) :
    Pres s { s with store := s.store.set bid { b with modified := true } } := by
  constructor
  · intro bid' vb h
    by_cases he : bid = bid'
    · subst he
      rw [hsb] at h
      injection h with hvb
      subst hvb
      refine ⟨{ b with modified := true }, ?_, rfl, rfl, rfl, fun _ => rfl⟩
      exact get?_set_same _ _ _ _ hsb
    · exact ⟨vb, by rw [get?_set_other _ _ _ _ he]; exact h, rfl, rfl, rfl, fun hm => hm⟩
  · intro hbt
    constructor
    · intro r tbl n bid' hr hn
      obtain ⟨vb, hvb, hg, hd⟩ := hbt.1 r tbl n bid' hr hn
      by_cases he : bid = bid'
      · subst he
        rw [hsb] at hvb
        injection hvb with hvb
        subst hvb
        exact ⟨{ b with modified := true }, get?_set_same _ _ _ _ hsb, hg, hd⟩
      · exact ⟨vb, by rw [get?_set_other _ _ _ _ he]; exact hvb, hg, hd⟩
    · intro k bid' hk
      obtain ⟨vb, hvb, hg, hm⟩ := hbt.2 k bid' hk
      by_cases he : bid = bid'
      · subst he
        rw [hsb] at hvb
        injection hvb with hvb
        subst hvb
        exact ⟨{ b with modified := true }, get?_set_same _ _ _ _ hsb, hg, rfl⟩
      · exact ⟨vb, by rw [get?_set_other _ _ _ _ he]; exact hvb, hg, hm⟩

theorem pres_fnRestS1 (H : Heap) (s : VState) (v code : Nat) (f : FnData) :
    Pres s (if code ∈ s.doneCodes then s
      else
        if (f.isResidual && !(H.analysis code).names.isEmpty) = true then
          addDiag { s with doneCodes := insert code s.doneCodes } v residualFnMsg
        else { s with doneCodes := insert code s.doneCodes }) := by
  split_ifs <;> exact pres_of_eq _ _ rfl rfl rfl
set_option maxHeartbeats 1600000 in
theorem stepTask_pres (H : Heap) (s : VState) (t : VTask) :
    Pres s (stepTask H s t).1 := by
  cases t with
  | visit v =>
    by_cases hv : v ∈ s.values
    · have hred : stepTask H s (VTask.visit v) = (s, []) := by simp [stepTask, hv]
      rw [hred]
      exact pres_of_eq _ _ rfl rfl rfl
    · cases hval : H.val? v with
      | none =>
        have hred : stepTask H s (VTask.visit v) = (setFatal s "dangling reference", []) := by
          simp [stepTask, hv, hval]
        rw [hred]
        exact pres_of_eq _ _ rfl rfl rfl
      | some val =>
        have hred : stepTask H s (VTask.visit v) =
            dispatch H { s with values := insert v s.values } v val := by
          simp [stepTask, hv, hval]
        rw [hred]
        exact pres_dispatch H _ s v val (pres_of_eq _ _ rfl rfl rfl)
  | props v ps =>
    cases ps with
    | nil => exact pres_of_eq _ _ rfl rfl rfl
    | cons p rest =>
      obtain ⟨key, odesc⟩ := p
      cases odesc with
      | none => exact pres_of_eq _ _ rfl rfl rfl
      | some desc =>
        cases hval : H.val? v with
        | none =>
          have hred : stepTask H s (VTask.props v ((key, some desc) :: rest)) =
              (setFatal s "dangling reference", []) := by
            simp [stepTask, hval]
          rw [hred]
          exact pres_of_eq _ _ rfl rfl rfl
        | some val =>
          cases hci : canIgnoreProperty H v val key desc with
          | mk diag? ign =>
            cases diag? with
            | none =>
              cases ign with
              | false =>
                have hred : stepTask H s (VTask.props v ((key, some desc) :: rest)) =
                    (s, descPushes desc ++ [VTask.props v rest]) := by
                  simp [stepTask, hval, hci]
                rw [hred]
                exact pres_of_eq _ _ rfl rfl rfl
              | true =>
                have hred : stepTask H s (VTask.props v ((key, some desc) :: rest)) =
                    (addIgnored s v key, [VTask.props v rest]) := by
                  simp [stepTask, hval, hci]
                rw [hred]
                exact pres_addIgnored s v key
            | some m =>
              cases ign with
              | false =>
                have hred : stepTask H s (VTask.props v ((key, some desc) :: rest)) =
                    (addDiag s v m, descPushes desc ++ [VTask.props v rest]) := by
                  simp [stepTask, hval, hci]
                rw [hred]
                exact pres_of_eq _ _ rfl rfl rfl
              | true =>
                have hred : stepTask H s (VTask.props v ((key, some desc) :: rest)) =
                    (addIgnored (addDiag s v m) v key, [VTask.props v rest]) := by
                  simp [stepTask, hval, hci]
                rw [hred]
                exact @pres_trans s (addDiag s v m) _ (pres_of_eq _ _ rfl rfl rfl) (pres_addIgnored _ v key)
  | unknown v =>
    cases hval : H.val? v with
    | none =>
      have hred : stepTask H s (VTask.unknown v) = (s, []) := by simp [stepTask, hval]
      rw [hred]
      exact pres_of_eq _ _ rfl rfl rfl
    | some val =>
      obtain ⟨intr, vd⟩ := val
      cases vd with
      | prim pk =>
        have hred : stepTask H s (VTask.unknown v) = (s, []) := by simp [stepTask, hval]
        rw [hred]
        exact pres_of_eq _ _ rfl rfl rfl
      | symbol =>
        have hred : stepTask H s (VTask.unknown v) = (s, []) := by simp [stepTask, hval]
        rw [hred]
        exact pres_of_eq _ _ rfl rfl rfl
      | abstract k hid args =>
        have hred : stepTask H s (VTask.unknown v) = (s, []) := by simp [stepTask, hval]
        rw [hred]
        exact pres_of_eq _ _ rfl rfl rfl
      | obj o =>
        cases hu : o.unknownProperty with
        | none =>
          have hred : stepTask H s (VTask.unknown v) = (s, []) := by
            simp [stepTask, hval, hu]
          rw [hred]
          exact pres_of_eq _ _ rfl rfl rfl
        | some odesc =>
          cases odesc with
          | none =>
            have hred : stepTask H s (VTask.unknown v) = (s, []) := by
              simp [stepTask, hval, hu]
            rw [hred]
            exact pres_of_eq _ _ rfl rfl rfl
          | some desc =>
            cases hdv : desc.value with
            | none =>
              have hred : stepTask H s (VTask.unknown v) =
                  (setFatal s "invariant failed: unknown-property value not abstract", []) := by
                simp [stepTask, hval, hu, hdv]
              rw [hred]
              exact pres_of_eq _ _ rfl rfl rfl
            | some a =>
              cases habs : H.val? a with
              | none =>
                have hred : stepTask H s (VTask.unknown v) =
                    (setFatal s "invariant failed: unknown-property value not abstract", []) := by
                  simp [stepTask, hval, hu, hdv, habs]
                rw [hred]
                exact pres_of_eq _ _ rfl rfl rfl
              | some aval =>
                obtain ⟨aintr, avd⟩ := aval
                cases avd with
                | prim pk =>
                  have hred : stepTask H s (VTask.unknown v) =
                      (setFatal s "invariant failed: unknown-property value not abstract", []) := by
                    simp [stepTask, hval, hu, hdv, habs]
                  rw [hred]
                  exact pres_of_eq _ _ rfl rfl rfl
                | symbol =>
                  have hred : stepTask H s (VTask.unknown v) =
                      (setFatal s "invariant failed: unknown-property value not abstract", []) := by
                    simp [stepTask, hval, hu, hdv, habs]
                  rw [hred]
                  exact pres_of_eq _ _ rfl rfl rfl
                | obj o2 =>
                  have hred : stepTask H s (VTask.unknown v) =
                      (setFatal s "invariant failed: unknown-property value not abstract", []) := by
                    simp [stepTask, hval, hu, hdv, habs]
                  rw [hred]
                  exact pres_of_eq _ _ rfl rfl rfl
                | abstract k2 hid2 args2 =>
                  have hred : stepTask H s (VTask.unknown v) = (s, [VTask.cn a]) := by
                    simp [stepTask, hval, hu, hdv, habs]
                  rw [hred]
                  exact pres_of_eq _ _ rfl rfl rfl
  | proto v =>
    cases hval : H.val? v with
    | none =>
      have hred : stepTask H s (VTask.proto v) = (s, []) := by simp [stepTask, hval]
      rw [hred]
      exact pres_of_eq _ _ rfl rfl rfl
    | some val =>
      obtain ⟨intr, vd⟩ := val
      cases vd with
      | prim pk =>
        have hred : stepTask H s (VTask.proto v) = (s, []) := by simp [stepTask, hval]
        rw [hred]
        exact pres_of_eq _ _ rfl rfl rfl
      | symbol =>
        have hred : stepTask H s (VTask.proto v) = (s, []) := by simp [stepTask, hval]
        rw [hred]
        exact pres_of_eq _ _ rfl rfl rfl
      | abstract k hid args =>
        have hred : stepTask H s (VTask.proto v) = (s, []) := by simp [stepTask, hval]
        rw [hred]
        exact pres_of_eq _ _ rfl rfl rfl
      | obj o =>
        by_cases hi : (alist H.intrinsics (o.kind ++ "Prototype") == some o.prototype) = true
        · have hred : stepTask H s (VTask.proto v) = (s, []) := by
            simp [stepTask, hval, hi]
          rw [hred]
          exact pres_of_eq _ _ rfl rfl rfl
        · have hred : stepTask H s (VTask.proto v) = (s, [VTask.visit o.prototype]) := by
            simp [stepTask, hval, hi]
          rw [hred]
          exact pres_of_eq _ _ rfl rfl rfl
  | ctorProto v =>
    cases hval : H.val? v with
    | none =>
      have hred : stepTask H s (VTask.ctorProto v) = (s, []) := by simp [stepTask, hval]
      rw [hred]
      exact pres_of_eq _ _ rfl rfl rfl
    | some val =>
      obtain ⟨intr, vd⟩ := val
      cases vd with
      | prim pk =>
        have hred : stepTask H s (VTask.ctorProto v) = (s, []) := by simp [stepTask, hval]
        rw [hred]
        exact pres_of_eq _ _ rfl rfl rfl
      | symbol =>
        have hred : stepTask H s (VTask.ctorProto v) = (s, []) := by simp [stepTask, hval]
        rw [hred]
        exact pres_of_eq _ _ rfl rfl rfl
      | abstract k hid args =>
        have hred : stepTask H s (VTask.ctorProto v) = (s, []) := by simp [stepTask, hval]
        rw [hred]
        exact pres_of_eq _ _ rfl rfl rfl
      | obj o =>
        cases hpv : getPropertyValue o "prototype" with
        | none =>
          have hred : stepTask H s (VTask.ctorProto v) = (s, []) := by
            simp [stepTask, hval, hpv]
          rw [hred]
          exact pres_of_eq _ _ rfl rfl rfl
        | some p =>
          cases hpval : H.val? p with
          | none =>
            have hred : stepTask H s (VTask.ctorProto v) = (s, []) := by
              simp [stepTask, hval, hpv, hpval]
            rw [hred]
            exact pres_of_eq _ _ rfl rfl rfl
          | some pval =>
            obtain ⟨pintr, pvd⟩ := pval
            cases pvd with
            | prim pk =>
              have hred : stepTask H s (VTask.ctorProto v) = (s, []) := by
                simp [stepTask, hval, hpv, hpval]
              rw [hred]
              exact pres_of_eq _ _ rfl rfl rfl
            | symbol =>
              have hred : stepTask H s (VTask.ctorProto v) = (s, []) := by
                simp [stepTask, hval, hpv, hpval]
              rw [hred]
              exact pres_of_eq _ _ rfl rfl rfl
            | abstract k2 h2 a2 =>
              have hred : stepTask H s (VTask.ctorProto v) = (s, []) := by
                simp [stepTask, hval, hpv, hpval]
              rw [hred]
              exact pres_of_eq _ _ rfl rfl rfl
            | obj po =>
              by_cases hc : (po.originalConstructor == some v && !isDefaultPrototype H po) = true
              · have hred : stepTask H s (VTask.ctorProto v) = (s, [VTask.visit p]) := by
                  simp [stepTask, hval, hpv, hpval, hc]
                rw [hred]
                exact pres_of_eq _ _ rfl rfl rfl
              · have hred : stepTask H s (VTask.ctorProto v) = (s, []) := by
                  simp [stepTask, hval, hpv, hpval, hc]
                rw [hred]
                exact pres_of_eq _ _ rfl rfl rfl
  | arrayLen v =>
    cases hval : H.val? v with
    | none =>
      have hred : stepTask H s (VTask.arrayLen v) = (s, []) := by simp [stepTask, hval]
      rw [hred]
      exact pres_of_eq _ _ rfl rfl rfl
    | some val =>
      obtain ⟨intr, vd⟩ := val
      cases vd with
      | prim pk =>
        have hred : stepTask H s (VTask.arrayLen v) = (s, []) := by simp [stepTask, hval]
        rw [hred]
        exact pres_of_eq _ _ rfl rfl rfl
      | symbol =>
        have hred : stepTask H s (VTask.arrayLen v) = (s, []) := by simp [stepTask, hval]
        rw [hred]
        exact pres_of_eq _ _ rfl rfl rfl
      | abstract k hid args =>
        have hred : stepTask H s (VTask.arrayLen v) = (s, []) := by simp [stepTask, hval]
        rw [hred]
        exact pres_of_eq _ _ rfl rfl rfl
      | obj o =>
        cases hl : getPropertyValue o "length" with
        | none =>
          have hred : stepTask H s (VTask.arrayLen v) = (s, []) := by
            simp [stepTask, hval, hl]
          rw [hred]
          exact pres_of_eq _ _ rfl rfl rfl
        | some l =>
          cases hlval : H.val? l with
          | none =>
            have hred : stepTask H s (VTask.arrayLen v) = (s, []) := by
              simp [stepTask, hval, hl, hlval]
            rw [hred]
            exact pres_of_eq _ _ rfl rfl rfl
          | some lval =>
            obtain ⟨lintr, lvd⟩ := lval
            cases lvd with
            | prim pk =>
              have hred : stepTask H s (VTask.arrayLen v) = (s, []) := by
                simp [stepTask, hval, hl, hlval]
              rw [hred]
              exact pres_of_eq _ _ rfl rfl rfl
            | symbol =>
              have hred : stepTask H s (VTask.arrayLen v) = (s, []) := by
                simp [stepTask, hval, hl, hlval]
              rw [hred]
              exact pres_of_eq _ _ rfl rfl rfl
            | obj o2 =>
              have hred : stepTask H s (VTask.arrayLen v) = (s, []) := by
                simp [stepTask, hval, hl, hlval]
              rw [hred]
              exact pres_of_eq _ _ rfl rfl rfl
            | abstract k2 h2 a2 =>
              have hred : stepTask H s (VTask.arrayLen v) = (s, [VTask.visit l]) := by
                simp [stepTask, hval, hl, hlval]
              rw [hred]
              exact pres_of_eq _ _ rfl rfl rfl
  | cn a =>
    cases hval : H.val? a with
    | none =>
      have hred : stepTask H s (VTask.cn a) =
          (setFatal s "invariant failed: computed-names value not abstract", []) := by
        simp [stepTask, cnStep, hval]
      rw [hred]
      exact pres_of_eq _ _ rfl rfl rfl
    | some val =>
      obtain ⟨intr, vd⟩ := val
      cases vd with
      | prim pk =>
        have hred : stepTask H s (VTask.cn a) =
            (setFatal s "invariant failed: computed-names value not abstract", []) := by
          simp [stepTask, cnStep, hval]
        rw [hred]
        exact pres_of_eq _ _ rfl rfl rfl
      | symbol =>
        have hred : stepTask H s (VTask.cn a) =
            (setFatal s "invariant failed: computed-names value not abstract", []) := by
          simp [stepTask, cnStep, hval]
        rw [hred]
        exact pres_of_eq _ _ rfl rfl rfl
      | obj o =>
        have hred : stepTask H s (VTask.cn a) =
            (setFatal s "invariant failed: computed-names value not abstract", []) := by
          simp [stepTask, cnStep, hval]
        rw [hred]
        exact pres_of_eq _ _ rfl rfl rfl
      | abstract k hid args =>
        match args with
        | [] =>
          have hred : stepTask H s (VTask.cn a) =
              (setFatal s "invariant failed: computed-names value must have three operands",
                []) := by
            simp [stepTask, cnStep, hval]
          rw [hred]
          exact pres_of_eq _ _ rfl rfl rfl
        | [a0] =>
          have hred : stepTask H s (VTask.cn a) =
              (setFatal s "invariant failed: computed-names value must have three operands",
                []) := by
            simp [stepTask, cnStep, hval]
          rw [hred]
          exact pres_of_eq _ _ rfl rfl rfl
        | [a0, a1] =>
          have hred : stepTask H s (VTask.cn a) =
              (setFatal s "invariant failed: computed-names value must have three operands",
                []) := by
            simp [stepTask, cnStep, hval]
          rw [hred]
          exact pres_of_eq _ _ rfl rfl rfl
        | a0 :: a1 :: a2 :: a3 :: restargs =>
          have hred : stepTask H s (VTask.cn a) =
              (setFatal s "invariant failed: computed-names value must have three operands",
                []) := by
            simp [stepTask, cnStep, hval]
          rw [hred]
          exact pres_of_eq _ _ rfl rfl rfl
        | [a0, a1, a2] =>
          cases hc : H.val? a0 with
          | none =>
            have hred : stepTask H s (VTask.cn a) =
                (setFatal s "invariant failed: condition not abstract", []) := by
              simp [stepTask, cnStep, hval, hc]
            rw [hred]
            exact pres_of_eq _ _ rfl rfl rfl
          | some cval =>
            obtain ⟨cintr, cvd⟩ := cval
            cases cvd with
            | prim pk =>
              have hred : stepTask H s (VTask.cn a) =
                  (setFatal s "invariant failed: condition not abstract", []) := by
                simp [stepTask, cnStep, hval, hc]
              rw [hred]
              exact pres_of_eq _ _ rfl rfl rfl
            | symbol =>
              have hred : stepTask H s (VTask.cn a) =
                  (setFatal s "invariant failed: condition not abstract", []) := by
                simp [stepTask, cnStep, hval, hc]
              rw [hred]
              exact pres_of_eq _ _ rfl rfl rfl
            | obj o2 =>
              have hred : stepTask H s (VTask.cn a) =
                  (setFatal s "invariant failed: condition not abstract", []) := by
                simp [stepTask, cnStep, hval, hc]
              rw [hred]
              exact pres_of_eq _ _ rfl rfl rfl
            | abstract condKind chid condArgs =>
              by_cases hk2 : (condKind == "template for property name condition") = true
              · cases hch : condArgs.head? with
                | none =>
                  have hred : stepTask H s (VTask.cn a) =
                      (setFatal s "invariant failed: P not abstract", []) := by
                    simp [stepTask, cnStep, hval, hc, hk2, hch]
                  rw [hred]
                  exact pres_of_eq _ _ rfl rfl rfl
                | some p =>
                  cases hp : H.val? p with
                  | none =>
                    have hred : stepTask H s (VTask.cn a) =
                        (setFatal s "invariant failed: P not abstract", []) := by
                      simp [stepTask, cnStep, hval, hc, hk2, hch, hp]
                    rw [hred]
                    exact pres_of_eq _ _ rfl rfl rfl
                  | some pval =>
                    obtain ⟨pintr, pvd⟩ := pval
                    cases pvd with
                    | prim pk =>
                      have hred : stepTask H s (VTask.cn a) =
                          (setFatal s "invariant failed: P not abstract", []) := by
                        simp [stepTask, cnStep, hval, hc, hk2, hch, hp]
                      rw [hred]
                      exact pres_of_eq _ _ rfl rfl rfl
                    | symbol =>
                      have hred : stepTask H s (VTask.cn a) =
                          (setFatal s "invariant failed: P not abstract", []) := by
                        simp [stepTask, cnStep, hval, hc, hk2, hch, hp]
                      rw [hred]
                      exact pres_of_eq _ _ rfl rfl rfl
                    | obj o3 =>
                      have hred : stepTask H s (VTask.cn a) =
                          (setFatal s "invariant failed: P not abstract", []) := by
                        simp [stepTask, cnStep, hval, hc, hk2, hch, hp]
                      rw [hred]
                      exact pres_of_eq _ _ rfl rfl rfl
                    | abstract k3 hid3 args3 =>
                      cases he : H.val? a2 with
                      | none =>
                        have hred : stepTask H s (VTask.cn a) =
                            (s, [VTask.visit p, VTask.visit a1]) := by
                          simp [stepTask, cnStep, hval, hc, hk2, hch, hp, he]
                        rw [hred]
                        exact pres_of_eq _ _ rfl rfl rfl
                      | some eval =>
                        obtain ⟨eintr, evd⟩ := eval
                        cases evd with
                        | prim pk =>
                          have hred : stepTask H s (VTask.cn a) =
                              (s, [VTask.visit p, VTask.visit a1]) := by
                            simp [stepTask, cnStep, hval, hc, hk2, hch, hp, he]
                          rw [hred]
                          exact pres_of_eq _ _ rfl rfl rfl
                        | symbol =>
                          have hred : stepTask H s (VTask.cn a) =
                              (s, [VTask.visit p, VTask.visit a1]) := by
                            simp [stepTask, cnStep, hval, hc, hk2, hch, hp, he]
                          rw [hred]
                          exact pres_of_eq _ _ rfl rfl rfl
                        | obj o4 =>
                          have hred : stepTask H s (VTask.cn a) =
                              (s, [VTask.visit p, VTask.visit a1]) := by
                            simp [stepTask, cnStep, hval, hc, hk2, hch, hp, he]
                          rw [hred]
                          exact pres_of_eq _ _ rfl rfl rfl
                        | abstract k4 hid4 args4 =>
                          by_cases hlt : a2 < a
                          · have hred : stepTask H s (VTask.cn a) =
                                (s, [VTask.cn a2, VTask.visit p, VTask.visit a1]) := by
                              simp [stepTask, cnStep, hval, hc, hk2, hch, hp, he, hlt]
                            rw [hred]
                            exact pres_of_eq _ _ rfl rfl rfl
                          · have hred : stepTask H s (VTask.cn a) =
                                (setFatal s
                                  "ill-formed heap: abstract operand out of construction order",
                                  []) := by
                              simp [stepTask, cnStep, hval, hc, hk2, hch, hp, he, hlt]
                            rw [hred]
                            exact pres_of_eq _ _ rfl rfl rfl
              · cases h1v : H.val? a1 with
                | none =>
                  have hred : stepTask H s (VTask.cn a) =
                      (setFatal s "invariant failed: branch not abstract", []) := by
                    simp [stepTask, cnStep, hval, hc, hk2, h1v]
                  rw [hred]
                  exact pres_of_eq _ _ rfl rfl rfl
                | some v1 =>
                  obtain ⟨i1, vd1⟩ := v1
                  cases h2v : H.val? a2 with
                  | none =>
                    have hred : stepTask H s (VTask.cn a) =
                        (setFatal s "invariant failed: branch not abstract", []) := by
                      simp [stepTask, cnStep, hval, hc, hk2, h1v, h2v]
                    rw [hred]
                    exact pres_of_eq _ _ rfl rfl rfl
                  | some v2 =>
                    obtain ⟨i2, vd2⟩ := v2
                    cases vd1 with
                    | prim pk =>
                      have hred : stepTask H s (VTask.cn a) =
                          (setFatal s "invariant failed: branch not abstract", []) := by
                        simp [stepTask, cnStep, hval, hc, hk2, h1v, h2v]
                      rw [hred]
                      exact pres_of_eq _ _ rfl rfl rfl
                    | symbol =>
                      have hred : stepTask H s (VTask.cn a) =
                          (setFatal s "invariant failed: branch not abstract", []) := by
                        simp [stepTask, cnStep, hval, hc, hk2, h1v, h2v]
                      rw [hred]
                      exact pres_of_eq _ _ rfl rfl rfl
                    | obj oo =>
                      have hred : stepTask H s (VTask.cn a) =
                          (setFatal s "invariant failed: branch not abstract", []) := by
                        simp [stepTask, cnStep, hval, hc, hk2, h1v, h2v]
                      rw [hred]
                      exact pres_of_eq _ _ rfl rfl rfl
                    | abstract kk hh aa =>
                      cases vd2 with
                      | prim pk =>
                        have hred : stepTask H s (VTask.cn a) =
                            (setFatal s "invariant failed: branch not abstract", []) := by
                          simp [stepTask, cnStep, hval, hc, hk2, h1v, h2v]
                        rw [hred]
                        exact pres_of_eq _ _ rfl rfl rfl
                      | symbol =>
                        have hred : stepTask H s (VTask.cn a) =
                            (setFatal s "invariant failed: branch not abstract", []) := by
                          simp [stepTask, cnStep, hval, hc, hk2, h1v, h2v]
                        rw [hred]
                        exact pres_of_eq _ _ rfl rfl rfl
                      | obj oo =>
                        have hred : stepTask H s (VTask.cn a) =
                            (setFatal s "invariant failed: branch not abstract", []) := by
                          simp [stepTask, cnStep, hval, hc, hk2, h1v, h2v]
                        rw [hred]
                        exact pres_of_eq _ _ rfl rfl rfl
                      | abstract kk2 hh2 aa2 =>
                        by_cases hl1 : a1 < a
                        · by_cases hl2 : a2 < a
                          · have hred : stepTask H s (VTask.cn a) =
                                (s, [VTask.visit a0, VTask.cn a1, VTask.cn a2]) := by
                              simp [stepTask, cnStep, hval, hc, hk2, h1v, h2v, hl1, hl2]
                            rw [hred]
                            exact pres_of_eq _ _ rfl rfl rfl
                          · have hred : stepTask H s (VTask.cn a) =
                                (setFatal s
                                  "ill-formed heap: abstract operand out of construction order",
                                  []) := by
                              simp [stepTask, cnStep, hval, hc, hk2, h1v, h2v, hl1, hl2]
                            rw [hred]
                            exact pres_of_eq _ _ rfl rfl rfl
                        · have hred : stepTask H s (VTask.cn a) =
                              (setFatal s
                                "ill-formed heap: abstract operand out of construction order",
                                []) := by
                            simp [stepTask, cnStep, hval, hc, hk2, h1v, h2v, hl1]
                          rw [hred]
                          exact pres_of_eq _ _ rfl rfl rfl
  | objRest v =>
    cases hval : H.val? v with
    | none =>
      have hred : stepTask H s (VTask.objRest v) = (s, []) := by simp [stepTask, hval]
      rw [hred]
      exact pres_of_eq _ _ rfl rfl rfl
    | some val =>
      obtain ⟨intr, vd⟩ := val
      cases vd with
      | prim pk =>
        have hred : stepTask H s (VTask.objRest v) = (s, []) := by simp [stepTask, hval]
        rw [hred]
        exact pres_of_eq _ _ rfl rfl rfl
      | symbol =>
        have hred : stepTask H s (VTask.objRest v) = (s, []) := by simp [stepTask, hval]
        rw [hred]
        exact pres_of_eq _ _ rfl rfl rfl
      | abstract k hid args =>
        have hred : stepTask H s (VTask.objRest v) = (s, []) := by simp [stepTask, hval]
        rw [hred]
        exact pres_of_eq _ _ rfl rfl rfl
      | obj o =>
        cases hoc : o.originalConstructor with
        | some c =>
          have hred : stepTask H s (VTask.objRest v) = (s, [VTask.visit c]) := by
            simp [stepTask, hval, hoc]
          rw [hred]
          exact pres_of_eq _ _ rfl rfl rfl
        | none =>
          by_cases h1 : (o.kind == "RegExp" || o.kind == "Number" || o.kind == "String" ||
              o.kind == "Boolean" || o.kind == "ArrayBuffer") = true
          · have hred : stepTask H s (VTask.objRest v) = (s, []) := by
              simp only [stepTask, hval, hoc]
              rw [if_pos h1]
            rw [hred]
            exact pres_of_eq _ _ rfl rfl rfl
          · by_cases h2 : (o.kind == "Date") = true
            · cases hdate : o.dateValue with
              | none =>
                have hred : stepTask H s (VTask.objRest v) =
                    (setFatal s "invariant failed: missing date value", []) := by
                  simp only [stepTask, hval, hoc]
                  rw [if_neg h1, if_pos h2, hdate]
                rw [hred]
                exact pres_of_eq _ _ rfl rfl rfl
              | some d =>
                have hred : stepTask H s (VTask.objRest v) = (s, [VTask.visit d]) := by
                  simp only [stepTask, hval, hoc]
                  rw [if_neg h1, if_pos h2, hdate]
                rw [hred]
                exact pres_of_eq _ _ rfl rfl rfl
            · by_cases h3 : typedViewKinds.contains o.kind = true
              · cases hbuf : o.viewedArrayBuffer with
                | none =>
                  have hred : stepTask H s (VTask.objRest v) =
                      (setFatal s "invariant failed: missing viewed buffer", []) := by
                    simp only [stepTask, hval, hoc]
                    rw [if_neg h1, if_neg h2, if_pos h3, hbuf]
                  rw [hred]
                  exact pres_of_eq _ _ rfl rfl rfl
                | some b =>
                  have hred : stepTask H s (VTask.objRest v) = (s, [VTask.visit b]) := by
                    simp only [stepTask, hval, hoc]
                    rw [if_neg h1, if_neg h2, if_pos h3, hbuf]
                  rw [hred]
                  exact pres_of_eq _ _ rfl rfl rfl
              · by_cases h4 : (o.kind == "Map") = true
                · cases hm : o.mapData with
                  | none =>
                    have hred : stepTask H s (VTask.objRest v) =
                        (setFatal s "invariant failed: missing map data", []) := by
                      simp only [stepTask, hval, hoc]
                      rw [if_neg h1, if_neg h2, if_neg h3, if_pos h4, hm]
                    rw [hred]
                    exact pres_of_eq _ _ rfl rfl rfl
                  | some entries =>
                    have hred : stepTask H s (VTask.objRest v) =
                        (s, mapEntryTasks entries) := by
                      simp only [stepTask, hval, hoc]
                      rw [if_neg h1, if_neg h2, if_neg h3, if_pos h4, hm]
                    rw [hred]
                    exact pres_of_eq _ _ rfl rfl rfl
                · by_cases h5 : (o.kind == "WeakMap") = true
                  · cases hm : o.weakMapData with
                    | none =>
                      have hred : stepTask H s (VTask.objRest v) =
                          (setFatal s "invariant failed: missing map data", []) := by
                        simp only [stepTask, hval, hoc]
                        rw [if_neg h1, if_neg h2, if_neg h3, if_neg h4, if_pos h5, hm]
                      rw [hred]
                      exact pres_of_eq _ _ rfl rfl rfl
                    | some entries =>
                      have hred : stepTask H s (VTask.objRest v) =
                          (s, mapEntryTasks entries) := by
                        simp only [stepTask, hval, hoc]
                        rw [if_neg h1, if_neg h2, if_neg h3, if_neg h4, if_pos h5, hm]
                      rw [hred]
                      exact pres_of_eq _ _ rfl rfl rfl
                  · by_cases h6 : (o.kind == "Set") = true
                    · cases hm : o.setData with
                      | none =>
                        have hred : stepTask H s (VTask.objRest v) =
                            (setFatal s "invariant failed: missing set data", []) := by
                          simp only [stepTask, hval, hoc]
                          rw [if_neg h1, if_neg h2, if_neg h3, if_neg h4, if_neg h5,
                            if_pos h6, hm]
                        rw [hred]
                        exact pres_of_eq _ _ rfl rfl rfl
                      | some entries =>
                        have hred : stepTask H s (VTask.objRest v) =
                            (s, entries.filterMap (fun e => e.map VTask.visit)) := by
                          simp only [stepTask, hval, hoc]
                          rw [if_neg h1, if_neg h2, if_neg h3, if_neg h4, if_neg h5,
                            if_pos h6, hm]
                        rw [hred]
                        exact pres_of_eq _ _ rfl rfl rfl
                    · by_cases h7 : (o.kind == "WeakSet") = true
                      · cases hm : o.weakSetData with
                        | none =>
                          have hred : stepTask H s (VTask.objRest v) =
                              (setFatal s "invariant failed: missing set data", []) := by
                            simp only [stepTask, hval, hoc]
                            rw [if_neg h1, if_neg h2, if_neg h3, if_neg h4, if_neg h5,
                              if_neg h6, if_pos h7, hm]
                          rw [hred]
                          exact pres_of_eq _ _ rfl rfl rfl
                        | some entries =>
                          have hred : stepTask H s (VTask.objRest v) =
                              (s, entries.filterMap (fun e => e.map VTask.visit)) := by
                            simp only [stepTask, hval, hoc]
                            rw [if_neg h1, if_neg h2, if_neg h3, if_neg h4, if_neg h5,
                              if_neg h6, if_pos h7, hm]
                          rw [hred]
                          exact pres_of_eq _ _ rfl rfl rfl
                      · by_cases h8 : (o.kind != "Object") = true
                        · have hred : stepTask H s (VTask.objRest v) =
                              (addDiag s v (unsupportedKindMsg o.kind), []) := by
                            simp only [stepTask, hval, hoc]
                            rw [if_neg h1, if_neg h2, if_neg h3, if_neg h4, if_neg h5,
                              if_neg h6, if_neg h7, if_pos h8]
                            simp [visitorParameterMap]
                          rw [hred]
                          exact pres_of_eq _ _ rfl rfl rfl
                        · have hred : stepTask H s (VTask.objRest v) = (s, []) := by
                            simp only [stepTask, hval, hoc]
                            rw [if_neg h1, if_neg h2, if_neg h3, if_neg h4, if_neg h5,
                              if_neg h6, if_neg h7, if_neg h8]
                            simp [visitorParameterMap]
                          rw [hred]
                          exact pres_of_eq _ _ rfl rfl rfl
  | fnRest v =>
    cases hval : H.val? v with
    | none =>
      have hred : stepTask H s (VTask.fnRest v) = (s, []) := by simp [stepTask, hval]
      rw [hred]
      exact pres_of_eq _ _ rfl rfl rfl
    | some val =>
      obtain ⟨intr, vd⟩ := val
      cases vd with
      | prim pk =>
        have hred : stepTask H s (VTask.fnRest v) = (s, []) := by simp [stepTask, hval]
        rw [hred]
        exact pres_of_eq _ _ rfl rfl rfl
      | symbol =>
        have hred : stepTask H s (VTask.fnRest v) = (s, []) := by simp [stepTask, hval]
        rw [hred]
        exact pres_of_eq _ _ rfl rfl rfl
      | abstract k hid args =>
        have hred : stepTask H s (VTask.fnRest v) = (s, []) := by simp [stepTask, hval]
        rw [hred]
        exact pres_of_eq _ _ rfl rfl rfl
      | obj o =>
        cases hcls : o.cls with
        | plainObj =>
          have hred : stepTask H s (VTask.fnRest v) = (s, []) := by
            simp [stepTask, hval, hcls]
          rw [hred]
          exact pres_of_eq _ _ rfl rfl rfl
        | proxy tg hh =>
          have hred : stepTask H s (VTask.fnRest v) = (s, []) := by
            simp [stepTask, hval, hcls]
          rw [hred]
          exact pres_of_eq _ _ rfl rfl rfl
        | fn f =>
          cases hk : f.kind with
          | bound bt bthis bargs =>
            have hred : stepTask H s (VTask.fnRest v) = (s, []) := by
              simp [stepTask, hval, hcls, hk]
            rw [hred]
            exact pres_of_eq _ _ rfl rfl rfl
          | native =>
            have hred : stepTask H s (VTask.fnRest v) = (s, []) := by
              simp [stepTask, hval, hcls, hk]
            rw [hred]
            exact pres_of_eq _ _ rfl rfl rfl
          | plain code env =>
            have hred : stepTask H s (VTask.fnRest v) =
                (if code ∈ s.doneCodes then s
                 else
                   if (f.isResidual && !(H.analysis code).names.isEmpty) = true then
                     addDiag { s with doneCodes := insert code s.doneCodes } v residualFnMsg
                   else { s with doneCodes := insert code s.doneCodes },
                 [VTask.fnames v code (H.analysis code).names []]) := by
              simp only [stepTask, hval, hcls, hk]
            rw [hred]
            exact pres_fnRestS1 H s v code f
  | fnames fn code names acc =>
    cases names with
    | nil =>
      have hred : stepTask H s (VTask.fnames fn code [] acc) =
          ({ s with functionBindings := (fn, acc) :: s.functionBindings }, []) := by
        simp [stepTask]
      rw [hred]
      exact pres_of_eq _ _ rfl rfl rfl
    | cons innerName rest =>
      cases hval : H.val? fn with
      | none =>
        have hred : stepTask H s (VTask.fnames fn code (innerName :: rest) acc) = (s, []) := by
          simp [stepTask, hval]
        rw [hred]
        exact pres_of_eq _ _ rfl rfl rfl
      | some val =>
        obtain ⟨intr, vd⟩ := val
        cases vd with
        | prim pk =>
          have hred : stepTask H s (VTask.fnames fn code (innerName :: rest) acc) = (s, []) := by
            simp [stepTask, hval]
          rw [hred]
          exact pres_of_eq _ _ rfl rfl rfl
        | symbol =>
          have hred : stepTask H s (VTask.fnames fn code (innerName :: rest) acc) = (s, []) := by
            simp [stepTask, hval]
          rw [hred]
          exact pres_of_eq _ _ rfl rfl rfl
        | abstract k hid args =>
          have hred : stepTask H s (VTask.fnames fn code (innerName :: rest) acc) = (s, []) := by
            simp [stepTask, hval]
          rw [hred]
          exact pres_of_eq _ _ rfl rfl rfl
        | obj o =>
          cases hcls : o.cls with
          | plainObj =>
            have hred : stepTask H s (VTask.fnames fn code (innerName :: rest) acc) =
                (s, []) := by
              simp [stepTask, hval, hcls]
            rw [hred]
            exact pres_of_eq _ _ rfl rfl rfl
          | proxy tg hh =>
            have hred : stepTask H s (VTask.fnames fn code (innerName :: rest) acc) =
                (s, []) := by
              simp [stepTask, hval, hcls]
            rw [hred]
            exact pres_of_eq _ _ rfl rfl rfl
          | fn f =>
            cases hk : f.kind with
            | bound bt bthis bargs =>
              have hred : stepTask H s (VTask.fnames fn code (innerName :: rest) acc) =
                  (s, []) := by
                simp [stepTask, hval, hcls, hk]
              rw [hred]
              exact pres_of_eq _ _ rfl rfl rfl
            | native =>
              have hred : stepTask H s (VTask.fnames fn code (innerName :: rest) acc) =
                  (s, []) := by
                simp [stepTask, hval, hcls, hk]
              rw [hred]
              exact pres_of_eq _ _ rfl rfl rfl
            | plain code2 env =>
              cases hres : H.resolve innerName env with
              | none =>
                rcases hg : visitGlobalBindingStep H s innerName with ⟨s2, bid, pushes⟩
                have hp := pres_globalStep H s innerName
                rw [hg] at hp
                have hred : stepTask H s (VTask.fnames fn code (innerName :: rest) acc) =
                    (s2, pushes ++ [VTask.afterName fn code innerName bid rest acc]) := by
                  simp [stepTask, hval, hcls, hk, hres, hg]
                rw [hred]
                exact hp
              | some ref =>
                obtain ⟨base, rname⟩ := ref
                cases rname with
                | sym =>
                  have hred : stepTask H s (VTask.fnames fn code (innerName :: rest) acc) =
                      (setFatal s symbolRefMsg, []) := by
                    simp [stepTask, hval, hcls, hk, hres]
                  rw [hred]
                  exact pres_of_eq _ _ rfl rfl rfl
                | str rn =>
                  cases base with
                  | global =>
                    rcases hg : visitGlobalBindingStep H s rn with ⟨s2, bid, pushes⟩
                    have hp := pres_globalStep H s rn
                    rw [hg] at hp
                    have hred : stepTask H s (VTask.fnames fn code (innerName :: rest) acc) =
                        (s2, pushes ++ [VTask.afterName fn code innerName bid rest acc]) := by
                      simp [stepTask, hval, hcls, hk, hres, hg]
                    rw [hred]
                    exact hp
                  | other =>
                    have hred : stepTask H s (VTask.fnames fn code (innerName :: rest) acc) =
                        (setFatal s "invariant failed: unknown reference base", []) := by
                      simp [stepTask, hval, hcls, hk, hres]
                    rw [hred]
                    exact pres_of_eq _ _ rfl rfl rfl
                  | decl r =>
                    rcases hvd : visitDeclBindingStep H s r rn with ⟨s2, obid, pushes⟩
                    have hp := pres_declStep H s r rn
                    rw [hvd] at hp
                    cases obid with
                    | some bid =>
                      have hred : stepTask H s (VTask.fnames fn code (innerName :: rest) acc) =
                          (s2, pushes ++ [VTask.afterName fn code innerName bid rest acc]) := by
                        simp [stepTask, hval, hcls, hk, hres, hvd]
                      rw [hred]
                      exact hp
                    | none =>
                      have hred : stepTask H s (VTask.fnames fn code (innerName :: rest) acc) =
                          (s2, []) := by
                        simp [stepTask, hval, hcls, hk, hres, hvd]
                      rw [hred]
                      exact hp
  | afterName fn code n bid rest acc =>
    by_cases hmod : n ∈ (H.analysis code).modified
    · cases hsb : s.store[bid]? with
      | none =>
        have hred : stepTask H s (VTask.afterName fn code n bid rest acc) =
            (s, [VTask.fnames fn code rest (acc ++ [(n, bid)])]) := by
          simp [stepTask, hmod, hsb]
        rw [hred]
        exact pres_of_eq _ _ rfl rfl rfl
      | some b =>
        have hred : stepTask H s (VTask.afterName fn code n bid rest acc) =
            ({ s with store := s.store.set bid { b with modified := true } },
              [VTask.fnames fn code rest (acc ++ [(n, bid)])]) := by
          simp [stepTask, hmod, hsb]
        rw [hred]
        exact pres_afterNameSet s bid b (by rw [List.get?_eq_getElem?]; exact hsb)
    · have hred : stepTask H s (VTask.afterName fn code n bid rest acc) =
          (s, [VTask.fnames fn code rest (acc ++ [(n, bid)])]) := by
        simp [stepTask, hmod]
      rw [hred]
      exact pres_of_eq _ _ rfl rfl rfl


/-- One machine step preserves the capture-table invariants. -/
theorem step_pres (H : Heap) (cfg : Config) : Pres cfg.1 (step H cfg).1 := by
  obtain ⟨s, ts⟩ := cfg
  by_cases hf : s.fatal.isSome = true
  · simp only [step, hf, if_pos]
    exact pres_refl s
  · cases ts with
    | nil =>
      simp only [step, hf]
      rw [if_neg (by simp [hf])]
      exact pres_refl s
    | cons t rest =>
      have hstep : step H (s, t :: rest) = ((stepTask H s t).1, (stepTask H s t).2 ++ rest) := by
        simp only [step]
        rw [if_neg (by simp [hf])]
      rw [hstep]
      exact stepTask_pres H s t

/-- Any number of machine steps preserves the capture-table invariants. -/
theorem runF_pres (H : Heap) (n : Nat) (cfg : Config) : Pres cfg.1 (runF H n cfg).1 := by
  induction n generalizing cfg with
  | zero => exact pres_refl _
  | succ n ih =>
    by_cases hh : halted cfg = true
    · rw [halted_runF H (n + 1) cfg hh]
      exact pres_refl _
    · have h1 : runF H (n + 1) cfg = runF H n (step H cfg) := by simp [runF, hh]
      rw [h1]
      exact pres_trans (step_pres H cfg) (ih (step H cfg))

/-- Generalized stack composition: running the machine on `ts1 ++ ts2`
replays a run on `ts1` alone, leaving `ts2` below whatever `ts1`'s run
leaves behind (empty on a clean finish, the unprocessed remainder on a
fatal abort). -/
theorem runF_append_gen (H : Heap) : ∀ (n : Nat) (s : VState) (ts1 ts2 : List VTask),
    halted (runF H n (s, ts1)) = true →
    ∃ m, runF H m (s, ts1 ++ ts2) = ((runF H n (s, ts1)).1, (runF H n (s, ts1)).2 ++ ts2) := by
  intro n
  induction n with
  | zero =>
    intro s ts1 ts2 _
    exact ⟨0, rfl⟩
  | succ n ih =>
    intro s ts1 ts2 hh
    by_cases h0 : halted (s, ts1) = true
    · rw [halted_runF H (n + 1) _ h0]
      exact ⟨0, rfl⟩
    · have hunf : runF H (n + 1) (s, ts1) = runF H n (step H (s, ts1)) := by
        simp [runF, h0]
      rw [hunf] at hh ⊢
      have hsp : step H (s, ts1) = ((step H (s, ts1)).1, (step H (s, ts1)).2) := rfl
      rw [hsp] at hh
      obtain ⟨m, hm⟩ := ih (step H (s, ts1)).1 (step H (s, ts1)).2 ts2 hh
      refine ⟨1 + m, ?_⟩
      have h0f : halted (s, ts1) = false := by simpa using h0
      have hh2 : halted (s, ts1 ++ ts2) = false := by
        simp only [halted, Bool.or_eq_false_iff] at h0f ⊢
        obtain ⟨he, hf⟩ := h0f
        refine ⟨?_, hf⟩
        cases ts1 with
        | nil => simp at he
        | cons a b => simp
      rw [runF_add]
      have hr1 : runF H 1 (s, ts1 ++ ts2) = step H (s, ts1 ++ ts2) := by
        simp [runF, hh2]
      rw [hr1, step_append H s ts1 ts2 h0f, hm]

/-- Processing a `visit x` task either leaves `x` in the visited set
(it was already there, or it is inserted before dispatch) or aborts
fatally (dangling reference). -/
theorem stepTask_visit_lands (H : Heap) (s : VState) (x : Nat) :
    x ∈ (stepTask H s (VTask.visit x)).1.values ∨
    (stepTask H s (VTask.visit x)).1.fatal.isSome = true := by
  by_cases hv : x ∈ s.values
  · exact Or.inl (stepTask_values_mono H s (VTask.visit x) hv)
  · cases hval : H.val? x with
    | none =>
      right
      have hred : stepTask H s (VTask.visit x) = (setFatal s "dangling reference", []) := by
        simp [stepTask, hv, hval]
      rw [hred]
      simp [setFatal]
    | some val =>
      left
      have hred : stepTask H s (VTask.visit x) =
          dispatch H { s with values := insert x s.values } x val := by
        simp [stepTask, hv, hval]
      rw [hred, dispatch_values]
      exact Finset.mem_insert_self x s.values

/-- A pending `visit x` task is never lost by a step: afterwards `x` is
visited, or the task is still pending, or the machine has aborted. -/
theorem inv_step (H : Heap) (x : Nat) (cfg : Config)
    (h : x ∈ cfg.1.values ∨ VTask.visit x ∈ cfg.2 ∨ cfg.1.fatal.isSome = true) :
    x ∈ (step H cfg).1.values ∨ VTask.visit x ∈ (step H cfg).2 ∨
      (step H cfg).1.fatal.isSome = true := by
  obtain ⟨s, ts⟩ := cfg
  by_cases hf : s.fatal.isSome = true
  · rw [show step H (s, ts) = (s, ts) from by simp [step, hf]]
    exact h
  · cases ts with
    | nil =>
      rw [show step H (s, ([] : List VTask)) = (s, []) from by simp [step, hf]]
      exact h
    | cons t rest =>
      have hstep : step H (s, t :: rest) = ((stepTask H s t).1, (stepTask H s t).2 ++ rest) := by
        simp only [step]
        rw [if_neg (by simp [hf])]
      rw [hstep]
      rcases h with h | h | h
      · exact Or.inl (stepTask_values_mono H s t h)
      · simp only [List.mem_cons] at h
        rcases h with h | h
        · subst h
          rcases stepTask_visit_lands H s x with h2 | h2
          · exact Or.inl h2
          · exact Or.inr (Or.inr h2)
        · exact Or.inr (Or.inl (List.mem_append_right _ h))
      · exact absurd h hf

/-- The pending-visit invariant is preserved by any number of steps. -/
theorem inv_runF (H : Heap) (x : Nat) (n : Nat) (cfg : Config)
    (h : x ∈ cfg.1.values ∨ VTask.visit x ∈ cfg.2 ∨ cfg.1.fatal.isSome = true) :
    x ∈ (runF H n cfg).1.values ∨ VTask.visit x ∈ (runF H n cfg).2 ∨
      (runF H n cfg).1.fatal.isSome = true := by
  induction n generalizing cfg with
  | zero => exact h
  | succ n ih =>
    by_cases hh : halted cfg = true
    · rw [halted_runF H (n + 1) cfg hh]
      exact h
    · have h1 : runF H (n + 1) cfg = runF H n (step H cfg) := by simp [runF, hh]
      rw [h1]
      exact ih (step H cfg) (inv_step H x cfg h)

/-- If a `visit x` task is on the stack and the run finishes cleanly
(halted, no fatal error), then `x` is in the final visited set. -/
theorem visit_lands (H : Heap) (n : Nat) (s : VState) (ts : List VTask) (x : Nat)
    (hmem : VTask.visit x ∈ ts)
    (hh : halted (runF H n (s, ts)) = true)
    (hfat : (runF H n (s, ts)).1.fatal = none) :
    x ∈ (runF H n (s, ts)).1.values := by
  have hinv := inv_runF H x n (s, ts) (Or.inr (Or.inl hmem))
  rcases hinv with h | h | h
  · exact h
  · simp only [halted, Bool.or_eq_true] at hh
    rcases hh with hh | hh
    · rw [List.isEmpty_iff] at hh
      rw [hh] at h
      simp at h
    · rw [hfat] at hh
      simp at hh
  · rw [hfat] at h
    simp at h

/-- A halted configuration with no fatal error has an empty task stack. -/
theorem clean_halted_stack_empty (cfg : Config) (hh : halted cfg = true)
    (hf : cfg.1.fatal = none) : cfg.2 = [] := by
  simp only [halted, Bool.or_eq_true] at hh
  rcases hh with hh | hh
  · exact List.isEmpty_iff.mp hh
  · rw [hf] at hh
    simp at hh

/-- If the run that reaches fuel `n` ends without a fatal error, no
intermediate fuel can show a fatal error (fatal states are fixed points). -/
theorem runF_no_fatal_mid (H : Heap) (n A : Nat) (cfg : Config) (m : String)
    (hh : halted (runF H n cfg) = true)
    (hfat : (runF H n cfg).1.fatal = none)
    (hA : (runF H A cfg).1.fatal = some m) : False := by
  have h1 : halted (runF H A cfg) = true := fatal_halted _ m hA
  have h2 := runF_halted_unique H A n cfg h1 hh
  rw [h2, hfat] at hA
  exact Option.noConfusion hA

/-- One unit of fuel on a non-halted configuration is one step. -/
theorem runF_one (H : Heap) (cfg : Config) (h : halted cfg = false) :
    runF H 1 cfg = step H cfg := by
  simp [runF, h]

/-- A step on a non-fatal configuration processes the head task. -/
theorem step_cons (H : Heap) (s : VState) (t : VTask) (rest : List VTask)
    (hf : s.fatal = none) :
    step H (s, t :: rest) = ((stepTask H s t).1, (stepTask H s t).2 ++ rest) := by
  simp only [step]
  rw [if_neg (by simp [hf])]

/-- `visitGlobalBinding` never sets a fatal error. -/
theorem globalStep_fatal (H : Heap) (s : VState) (key : String) :
    (visitGlobalBindingStep H s key).1.fatal = s.fatal := by
  unfold visitGlobalBindingStep
  split <;> rfl

/-- The binding `visitGlobalBinding` returns is a global record marked
modified (created that way, or already of that shape by `BT`). -/
theorem globalStep_shape (H : Heap) (s : VState) (key : String) (hBT : BT s) :
    ∃ vb, (visitGlobalBindingStep H s key).1.store.get?
        (visitGlobalBindingStep H s key).2.1 = some vb ∧
      vb.global = true ∧ vb.modified = true := by
  unfold visitGlobalBindingStep
  cases hg : alist s.globalBindings key with
  | some bid =>
    simp only [hg]
    exact hBT.2 key bid hg
  | none =>
    simp only [hg]
    exact ⟨_, get?_snoc_self _ _, rfl, rfl⟩

/-- Full case analysis of `visitDeclarativeEnvironmentRecordBinding`: it
either fails an invariant (fatal, no binding index), or returns a binding
index whose store record is a lexical binding owned by record `r`, leaving
the fatal slot alone. -/
theorem declStep_elab (H : Heap) (s : VState) (r : Nat) (n : String) (hBT : BT s) :
    (∃ m, (visitDeclBindingStep H s r n).1.fatal = some m ∧
      (visitDeclBindingStep H s r n).2.1 = none) ∨
    ((visitDeclBindingStep H s r n).1.fatal = s.fatal ∧
      ∃ bid, (visitDeclBindingStep H s r n).2.1 = some bid ∧
        ∃ vb, (visitDeclBindingStep H s r n).1.store.get? bid = some vb ∧
          vb.global = false ∧ vb.declarativeEnvironmentRecord = some r) := by
  cases h1 : alist ((nlist s.declBindings r).getD []) n with
  | some bid0 =>
    have hred : visitDeclBindingStep H s r n = (s, some bid0, []) := by
      simp [visitDeclBindingStep, h1]
    rw [hred]
    right
    refine ⟨rfl, bid0, rfl, ?_⟩
    cases hr : nlist s.declBindings r with
    | none =>
      rw [hr] at h1
      simp [alist] at h1
    | some tbl =>
      rw [hr] at h1
      simp only [Option.getD_some] at h1
      exact hBT.1 r tbl n bid0 hr h1
  | none =>
    cases h2 : H.decls.get? r with
    | none =>
      have hred : visitDeclBindingStep H s r n =
          (setFatal s "invariant failed: unknown declarative record", none, []) := by
        rw [List.get?_eq_getElem?] at h2
        simp [visitDeclBindingStep, h1, h2]
      rw [hred]
      exact Or.inl ⟨_, rfl, rfl⟩
    | some bindings =>
      cases h3 : alist bindings n with
      | none =>
        have hred : visitDeclBindingStep H s r n =
            (setFatal s "invariant failed: binding not found", none, []) := by
          rw [List.get?_eq_getElem?] at h2
          simp [visitDeclBindingStep, h1, h2, h3]
        rw [hred]
        exact Or.inl ⟨_, rfl, rfl⟩
      | some binding =>
        cases h4 : binding.deletable with
        | true =>
          have hred : visitDeclBindingStep H s r n =
              (setFatal s "invariant failed: deletable binding", none, []) := by
            rw [List.get?_eq_getElem?] at h2
            simp [visitDeclBindingStep, h1, h2, h3, h4]
          rw [hred]
          exact Or.inl ⟨_, rfl, rfl⟩
        | false =>
          cases hr : nlist s.declBindings r with
          | some tbl =>
            have hred : visitDeclBindingStep H s r n =
                ({ s with
                    store := s.store ++
                      [{ global := false,
                         value := some (if binding.initialized then
                             binding.value.getD H.undefinedId else H.undefinedId),
                         modified := false,
                         declarativeEnvironmentRecord := some r }],
                    declBindings := s.declBindings.map (fun p =>
                      if p.1 == r then (p.1, tbl ++ [(n, s.store.length)]) else p) },
                  some s.store.length,
                  [VTask.visit (if binding.initialized then
                      binding.value.getD H.undefinedId else H.undefinedId)]) := by
              rw [List.get?_eq_getElem?] at h2
              rw [hr] at h1
              simp only [Option.getD_some] at h1
              simp [visitDeclBindingStep, h1, h2, h3, h4, hr]
            rw [hred]
            right
            refine ⟨rfl, s.store.length, rfl, ?_⟩
            exact ⟨_, get?_snoc_self _ _, rfl, rfl⟩
          | none =>
            have hred : visitDeclBindingStep H s r n =
                ({ s with
                    store := s.store ++
                      [{ global := false,
                         value := some (if binding.initialized then
                             binding.value.getD H.undefinedId else H.undefinedId),
                         modified := false,
                         declarativeEnvironmentRecord := some r }],
                    declBindings := s.declBindings ++ [(r, [(n, s.store.length)])] },
                  some s.store.length,
                  [VTask.visit (if binding.initialized then
                      binding.value.getD H.undefinedId else H.undefinedId)]) := by
              rw [List.get?_eq_getElem?] at h2
              rw [hr] at h1
              simp only [Option.getD_none] at h1
              simp [visitDeclBindingStep, h1, h2, h3, h4, hr]
            rw [hred]
            right
            refine ⟨rfl, s.store.length, rfl, ?_⟩
            exact ⟨_, get?_snoc_self _ _, rfl, rfl⟩

/-- The part of `visitValueFunction` after the property walk never sets a
fatal error. -/
theorem fnRest_fatal (H : Heap) (s : VState) (v : Nat) :
    (stepTask H s (VTask.fnRest v)).1.fatal = s.fatal := by
  simp only [stepTask]
  repeat' split
  all_goals simp [addDiag]

/-- The post-visit statements of one name of the free-name loop never set
a fatal error. -/
theorem afterName_fatal (H : Heap) (s : VState) (fn code : Nat) (n : String)
    (bid : Nat) (rest : List String) (acc : List (String × Nat)) :
    (stepTask H s (VTask.afterName fn code n bid rest acc)).1.fatal = s.fatal := by
  simp only [stepTask]
  repeat' split
  all_goals rfl

/-- The fresh visitor's binding tables are vacuously well-formed. -/
theorem BT_initState : BT initState := by
  constructor
  · intro r tbl n bid hr _
    simp [initState, nlist] at hr
  · intro k bid hk
    simp [initState, alist] at hk

/-- One unit of fuel processes the single pending task. -/
theorem run_single (H : Heap) (s : VState) (t : VTask) (s' : VState) (ps : List VTask)
    (hf : s.fatal = none) (hred : stepTask H s t = (s', ps)) :
    runF H 1 (s, [t]) = (s', ps) := by
  rw [runF_one H _ (by simp [halted, hf]), step_cons H s t [] hf, hred]
  simp

/-- A nested traversal that finishes cleanly hands control to the tasks
stacked below it. -/
theorem run_glue (H : Heap) (s : VState) (ps tail : List VTask) (N : Nat)
    (hN : halted (runF H N (s, ps)) = true)
    (hfl : (runF H N (s, ps)).1.fatal = none) :
    ∃ m, runF H m (s, ps ++ tail) = ((runF H N (s, ps)).1, tail) := by
  obtain ⟨m, hm⟩ := runF_append_gen H N s ps tail hN
  rw [clean_halted_stack_empty _ hN hfl] at hm
  exact ⟨m, by rw [hm]; simp⟩

/-- A nested traversal that aborts fatally contradicts a clean overall run. -/
theorem run_glue_fatal (H : Heap) (n A : Nat) (cfg : Config) (s : VState)
    (ps tail : List VTask) (N : Nat) (m : String)
    (hh : halted (runF H n cfg) = true) (hfat : (runF H n cfg).1.fatal = none)
    (eA : runF H A cfg = (s, ps ++ tail))
    (hN : halted (runF H N (s, ps)) = true)
    (hfl : (runF H N (s, ps)).1.fatal = some m) : False := by
  obtain ⟨m2, hm2⟩ := runF_append_gen H N s ps tail hN
  refine runF_no_fatal_mid H n (A + m2) cfg m hh hfat ?_
  rw [runF_add, eA, hm2]
  exact hfl

set_option maxHeartbeats 1600000 in
/-- C2: for a plain (non-bound, non-native) function whose body references
exactly the two free names `n1` and `n2`, where the resolver sends `n1` to
an enclosing declarative record `r` and `n2` is unresolvable or resolves to
the Global record, any clean run of `visitValueFunction`'s free-name phase
records in the function's capture table exactly two entries — the lexical
one (global flag false, owning declarative record `r`) and the global one
(global flag true) — and the lexical entry's `modified` flag is set
whenever the free-variable scan marked `n1` as reassigned in the body.
(The global entry's `modified` flag is always set at creation.) -/
theorem C2 (H : Heap) (s0 : VState) (fn code env r : Nat) (f : FnData)
    (o : ObjData) (intr : Bool) (n1 n2 rn : String) (n : Nat)
    (hval : H.val? fn = some ⟨intr, .obj o⟩) (hcls : o.cls = .fn f)
    (hk : f.kind = .plain code env)
    (hnames : (H.analysis code).names = [n1, n2])
    (hres1 : H.resolve n1 env = some ⟨.decl r, .str rn⟩)
    (hres2 : H.resolve n2 env = none ∨
      ∃ rn2, H.resolve n2 env = some ⟨.global, .str rn2⟩)
    (hBT : BT s0)
    (hh : halted (runF H n (s0, [VTask.fnRest fn])) = true)
    (hfat : (runF H n (s0, [VTask.fnRest fn])).1.fatal = none) :
    ∃ bid1 bid2 tail,
      (runF H n (s0, [VTask.fnRest fn])).1.functionBindings =
        (fn, [(n1, bid1), (n2, bid2)]) :: tail ∧
      (∃ vb1, (runF H n (s0, [VTask.fnRest fn])).1.store.get? bid1 = some vb1 ∧
        vb1.global = false ∧ vb1.declarativeEnvironmentRecord = some r ∧
        (n1 ∈ (H.analysis code).modified → vb1.modified = true)) ∧
      (∃ vb2, (runF H n (s0, [VTask.fnRest fn])).1.store.get? bid2 = some vb2 ∧
        vb2.global = true ∧ vb2.modified = true) := by
  have hfat0 : s0.fatal = none := by
    cases hf0 : s0.fatal with
    | none => rfl
    | some m => exact (runF_no_fatal_mid H n 0 (s0, [VTask.fnRest fn]) m hh hfat hf0).elim
  -- step 1: the tail of visitValueFunction pushes the free-name loop
  rcases hst1 : stepTask H s0 (VTask.fnRest fn) with ⟨s1, ps1⟩
  have hps1 : ps1 = [VTask.fnames fn code [n1, n2] []] := by
    have h2 : (stepTask H s0 (VTask.fnRest fn)).2 =
        [VTask.fnames fn code (H.analysis code).names []] := by
      simp [stepTask, hval, hcls, hk]
    rw [hst1, hnames] at h2
    exact h2
  subst hps1
  have hfat1 : s1.fatal = none := by
    have h := fnRest_fatal H s0 fn
    rw [hst1] at h
    exact h.trans hfat0
  have hp01 : Pres s0 s1 := by
    have h := stepTask_pres H s0 (VTask.fnRest fn)
    rw [hst1] at h
    exact h
  have e1 : runF H 1 (s0, [VTask.fnRest fn]) =
      (s1, [VTask.fnames fn code [n1, n2] []]) :=
    run_single H s0 _ s1 _ hfat0 hst1
  -- step 2: resolve n1 to the declarative record binding
  rcases hvd : visitDeclBindingStep H s1 r rn with ⟨s2, obid, pushes1⟩
  have helab := declStep_elab H s1 r rn (hp01.2 hBT)
  rw [hvd] at helab
  rcases helab with ⟨m, hfm, hobid⟩ | ⟨hf2, bid1, hobid, vb1, hvb1, hg1, hd1⟩
  · -- an invariant failed: contradicts the clean run
    simp only at hfm hobid
    subst hobid
    have hred2 : stepTask H s1 (VTask.fnames fn code [n1, n2] []) = (s2, []) := by
      simp [stepTask, hval, hcls, hk, hres1, hvd]
    have e2 : runF H (1 + 1) (s0, [VTask.fnRest fn]) = (s2, []) := by
      rw [runF_add, e1]
      exact run_single H s1 _ s2 _ hfat1 hred2
    exact (runF_no_fatal_mid H n (1 + 1) _ m hh hfat (by rw [e2]; exact hfm)).elim
  · simp only at hf2 hobid hvb1
    subst hobid
    have hred2 : stepTask H s1 (VTask.fnames fn code [n1, n2] []) =
        (s2, pushes1 ++ [VTask.afterName fn code n1 bid1 [n2] []]) := by
      simp [stepTask, hval, hcls, hk, hres1, hvd]
    have hfat2 : s2.fatal = none := hf2.trans hfat1
    have hp12 : Pres s1 s2 := by
      have h := stepTask_pres H s1 (VTask.fnames fn code [n1, n2] [])
      rw [hred2] at h
      exact h
    have e2 : runF H (1 + 1) (s0, [VTask.fnRest fn]) =
        (s2, pushes1 ++ [VTask.afterName fn code n1 bid1 [n2] []]) := by
      rw [runF_add, e1]
      exact run_single H s1 _ s2 _ hfat1 hred2
    -- nested traversal of the lexical binding's value
    obtain ⟨N2, hN2⟩ := terminates H (s2, pushes1)
    cases hfl2 : (runF H N2 (s2, pushes1)).1.fatal with
    | some m =>
      exact (run_glue_fatal H n (1 + 1) _ s2 pushes1 _ N2 m hh hfat e2 hN2 hfl2).elim
    | none =>
      obtain ⟨m2, hm2⟩ := run_glue H s2 pushes1
        [VTask.afterName fn code n1 bid1 [n2] []] N2 hN2 hfl2
      have hp23 : Pres s2 (runF H N2 (s2, pushes1)).1 := runF_pres H N2 (s2, pushes1)
      generalize hs3 : (runF H N2 (s2, pushes1)).1 = s3 at hm2 hp23 hfl2
      have e3 : runF H (1 + 1 + m2) (s0, [VTask.fnRest fn]) =
          (s3, [VTask.afterName fn code n1 bid1 [n2] []]) := by
        rw [runF_add, e2, hm2]
      -- the lexical binding record, carried to s3
      obtain ⟨vb3, hvb3, hgvb3, hdvb3, _, _⟩ := hp23.1 bid1 vb1 hvb1
      -- step 3: record the capture of n1, applying the modified flag
      obtain ⟨s4, hred3, hp34, hfat4, F4⟩ : ∃ s4,
          stepTask H s3 (VTask.afterName fn code n1 bid1 [n2] []) =
            (s4, [VTask.fnames fn code [n2] [(n1, bid1)]]) ∧
          Pres s3 s4 ∧ s4.fatal = s3.fatal ∧
          ∃ vb, s4.store.get? bid1 = some vb ∧ vb.global = false ∧
            vb.declarativeEnvironmentRecord = some r ∧
            (n1 ∈ (H.analysis code).modified → vb.modified = true) := by
        by_cases hmod : n1 ∈ (H.analysis code).modified
        · have hsb : s3.store[bid1]? = some vb3 := by
            rw [← List.get?_eq_getElem?]
            exact hvb3
          refine ⟨{ s3 with store := s3.store.set bid1 { vb3 with modified := true } },
            by simp [stepTask, hmod, hsb], ?_, rfl, ?_⟩
          · exact pres_afterNameSet s3 bid1 vb3 hvb3
          · refine ⟨{ vb3 with modified := true }, ?_, ?_, ?_, fun _ => rfl⟩
            · exact get?_set_same _ _ _ _ hvb3
            · rw [hgvb3, hg1]
            · rw [hdvb3, hd1]
        · refine ⟨s3, by simp [stepTask, hmod], pres_refl s3, rfl, ?_⟩
          refine ⟨vb3, hvb3, ?_, ?_, fun hc => absurd hc hmod⟩
          · rw [hgvb3, hg1]
          · rw [hdvb3, hd1]
      rw [hfl2] at hfat4
      have e4 : runF H (1 + 1 + m2 + 1) (s0, [VTask.fnRest fn]) =
          (s4, [VTask.fnames fn code [n2] [(n1, bid1)]]) := by
        rw [runF_add, e3]
        exact run_single H s3 _ s4 _ hfl2 hred3
      -- step 4: resolve n2 to the global binding
      obtain ⟨key2, hres2'⟩ : ∃ key2, (H.resolve n2 env = none ∧ key2 = n2) ∨
          H.resolve n2 env = some ⟨.global, .str key2⟩ := by
        rcases hres2 with h | ⟨rn2, h⟩
        · exact ⟨n2, Or.inl ⟨h, rfl⟩⟩
        · exact ⟨rn2, Or.inr h⟩
      rcases hg : visitGlobalBindingStep H s4 key2 with ⟨s5, bid2, pushes2⟩
      have hred4 : stepTask H s4 (VTask.fnames fn code [n2] [(n1, bid1)]) =
          (s5, pushes2 ++ [VTask.afterName fn code n2 bid2 [] [(n1, bid1)]]) := by
        rcases hres2' with ⟨h, hkey⟩ | h
        · subst hkey
          simp [stepTask, hval, hcls, hk, h, hg]
        · simp [stepTask, hval, hcls, hk, h, hg]
      have hfat5 : s5.fatal = none := by
        have h := globalStep_fatal H s4 key2
        rw [hg] at h
        exact h.trans hfat4
      have hp45 : Pres s4 s5 := by
        have h := pres_globalStep H s4 key2
        rw [hg] at h
        exact h
      have hBT4 : BT s4 :=
        hp34.2 (hp23.2 (hp12.2 (hp01.2 hBT)))
      obtain ⟨vb5, hvb5, hgvb5, hmvb5⟩ : ∃ vb, s5.store.get? bid2 = some vb ∧
          vb.global = true ∧ vb.modified = true := by
        have h := globalStep_shape H s4 key2 hBT4
        rw [hg] at h
        exact h
      have e5 : runF H (1 + 1 + m2 + 1 + 1) (s0, [VTask.fnRest fn]) =
          (s5, pushes2 ++ [VTask.afterName fn code n2 bid2 [] [(n1, bid1)]]) := by
        rw [runF_add, e4]
        exact run_single H s4 _ s5 _ hfat4 hred4
      -- nested traversal of the global binding's value
      obtain ⟨N5, hN5⟩ := terminates H (s5, pushes2)
      cases hfl5 : (runF H N5 (s5, pushes2)).1.fatal with
      | some m =>
        exact (run_glue_fatal H n (1 + 1 + m2 + 1 + 1) _ s5 pushes2 _ N5 m
          hh hfat e5 hN5 hfl5).elim
      | none =>
        obtain ⟨m5, hm5⟩ := run_glue H s5 pushes2
          [VTask.afterName fn code n2 bid2 [] [(n1, bid1)]] N5 hN5 hfl5
        have hp56 : Pres s5 (runF H N5 (s5, pushes2)).1 := runF_pres H N5 (s5, pushes2)
        generalize hs6 : (runF H N5 (s5, pushes2)).1 = s6 at hm5 hp56 hfl5
        have e6 : runF H (1 + 1 + m2 + 1 + 1 + m5) (s0, [VTask.fnRest fn]) =
            (s6, [VTask.afterName fn code n2 bid2 [] [(n1, bid1)]]) := by
          rw [runF_add, e5, hm5]
        -- step 5: record the capture of n2
        obtain ⟨s7, hred5, hp67, hfat7⟩ : ∃ s7,
            stepTask H s6 (VTask.afterName fn code n2 bid2 [] [(n1, bid1)]) =
              (s7, [VTask.fnames fn code [] [(n1, bid1), (n2, bid2)]]) ∧
            Pres s6 s7 ∧ s7.fatal = s6.fatal := by
          by_cases hmod : n2 ∈ (H.analysis code).modified
          · cases hsb : s6.store[bid2]? with
            | none =>
              exact ⟨s6, by simp [stepTask, hmod, hsb], pres_refl s6, rfl⟩
            | some b =>
              refine ⟨{ s6 with store := s6.store.set bid2 { b with modified := true } },
                by simp [stepTask, hmod, hsb], ?_, rfl⟩
              refine pres_afterNameSet s6 bid2 b ?_
              rw [List.get?_eq_getElem?]
              exact hsb
          · exact ⟨s6, by simp [stepTask, hmod], pres_refl s6, rfl⟩
        rw [hfl5] at hfat7
        have e7 : runF H (1 + 1 + m2 + 1 + 1 + m5 + 1) (s0, [VTask.fnRest fn]) =
            (s7, [VTask.fnames fn code [] [(n1, bid1), (n2, bid2)]]) := by
          rw [runF_add, e6]
          exact run_single H s6 _ s7 _ hfl5 hred5
        -- step 6: the exhausted loop commits the capture table
        have hred6 : stepTask H s7 (VTask.fnames fn code [] [(n1, bid1), (n2, bid2)]) =
            ({ s7 with functionBindings :=
                (fn, [(n1, bid1), (n2, bid2)]) :: s7.functionBindings }, []) := by
          simp [stepTask]
        have e8 : runF H (1 + 1 + m2 + 1 + 1 + m5 + 1 + 1) (s0, [VTask.fnRest fn]) =
            ({ s7 with functionBindings :=
                (fn, [(n1, bid1), (n2, bid2)]) :: s7.functionBindings }, []) := by
          rw [runF_add, e7]
          exact run_single H s7 _ _ _ hfat7 hred6
        -- the constructed run is halted, so it is the hypothesized final state
        have hfinal : runF H n (s0, [VTask.fnRest fn]) =
            ({ s7 with functionBindings :=
                (fn, [(n1, bid1), (n2, bid2)]) :: s7.functionBindings }, []) := by
          have huniq := runF_halted_unique H (1 + 1 + m2 + 1 + 1 + m5 + 1 + 1) n
            (s0, [VTask.fnRest fn]) (by rw [e8]; simp [halted]) hh
          rw [← huniq, e8]
        rw [hfinal]
        refine ⟨bid1, bid2, s7.functionBindings, rfl, ?_, ?_⟩
        · obtain ⟨vb4, hvb4, hg4, hd4, hm4⟩ := F4
          obtain ⟨vb7, hvb7, hgvb7, hdvb7, _, hmvb7⟩ :=
            (pres_trans hp45 (pres_trans hp56 hp67)).1 bid1 vb4 hvb4
          refine ⟨vb7, hvb7, ?_, ?_, fun hc => hmvb7 (hm4 hc)⟩
          · rw [hgvb7, hg4]
          · rw [hdvb7, hd4]
        · obtain ⟨vb7, hvb7, hgvb7, _, _, hmvb7⟩ :=
            (pres_trans hp56 hp67).1 bid2 vb5 hvb5
          exact ⟨vb7, hvb7, hgvb7.trans hgvb5, hmvb7 hmvb5⟩

theorem C2_witness :
    halted (runF hC2 8 (initState, [VTask.fnRest 0])) = true ∧
    ∃ bid1 bid2 tail,
      (runF hC2 8 (initState, [VTask.fnRest 0])).1.functionBindings =
        (0, [("a", bid1), ("b", bid2)]) :: tail ∧
      (∃ vb1, (runF hC2 8 (initState, [VTask.fnRest 0])).1.store.get? bid1 = some vb1 ∧
        vb1.global = false ∧ vb1.declarativeEnvironmentRecord = some 0 ∧
        ("a" ∈ (hC2.analysis 1).modified → vb1.modified = true)) ∧
      (∃ vb2, (runF hC2 8 (initState, [VTask.fnRest 0])).1.store.get? bid2 = some vb2 ∧
        vb2.global = true ∧ vb2.modified = true) :=
  ⟨by decide,
   C2 hC2 initState 0 1 0 0 c2Fn c2Obj false "a" "b" "a" 8
     rfl rfl rfl (by decide) (by decide) (Or.inl (by decide)) BT_initState
     (by decide) (by decide)⟩

/-- C1: the pass started by `visitRoots` terminates on every heap graph,
including graphs with reference cycles; `visitValue(v)` returns immediately
without dispatching when `v` is already visited, otherwise inserts `v`
before any recursion; the visited set grows monotonically; and on a clean
run every root value ends up in the visited set. -/
theorem C1 :
    (∀ H : Heap, ∃ n, halted (runF H n (initState, rootTasks H)) = true) ∧
    (∀ (H : Heap) (s : VState) (v : Nat), v ∈ s.values →
      stepTask H s (VTask.visit v) = (s, [])) ∧
    (∀ (H : Heap) (s : VState) (v : Nat) (val : Value), v ∉ s.values →
      H.val? v = some val →
      (stepTask H s (VTask.visit v)).1.values = insert v s.values) ∧
    (∀ (H : Heap) (n : Nat) (cfg : Config), cfg.1.values ⊆ (runF H n cfg).1.values) ∧
    (∀ (H : Heap) (n x : Nat), VTask.visit x ∈ rootTasks H →
      halted (runF H n (initState, rootTasks H)) = true →
      (runF H n (initState, rootTasks H)).1.fatal = none →
      x ∈ (runF H n (initState, rootTasks H)).1.values) := by
  refine ⟨?_, ?_, ?_, ?_, ?_⟩
  · intro H
    exact terminates H (initState, rootTasks H)
  · intro H s v hv
    simp [stepTask, hv]
  · intro H s v val hv hval
    have hred : stepTask H s (VTask.visit v) =
        dispatch H { s with values := insert v s.values } v val := by
      simp [stepTask, hv, hval]
    rw [hred, dispatch_values]
  · intro H n cfg
    exact runF_values_mono H n cfg
  · intro H n x hmem hh hfat
    exact visit_lands H n initState (rootTasks H) x hmem hh hfat

theorem C1_witness :
    (0 ∈ c1Vis.values ∧ stepTask hC1 c1Vis (VTask.visit 0) = (c1Vis, [])) ∧
    ((0 ∉ initState.values ∧ hC1.val? 0 = some c1Val) ∧
      (stepTask hC1 initState (VTask.visit 0)).1.values = insert 0 initState.values) ∧
    (VTask.visit 0 ∈ rootTasks hC1 ∧
      halted (runF hC1 12 (initState, rootTasks hC1)) = true ∧
      (runF hC1 12 (initState, rootTasks hC1)).1.fatal = none ∧
      0 ∈ (runF hC1 12 (initState, rootTasks hC1)).1.values) :=
  ⟨⟨by decide, C1.2.1 hC1 c1Vis 0 (by decide)⟩,
   ⟨⟨by decide, by decide⟩, C1.2.2.1 hC1 initState 0 c1Val (by decide) (by decide)⟩,
   ⟨by decide, by decide, by decide,
    C1.2.2.2.2 hC1 12 0 (by decide) (by decide) (by decide)⟩⟩

/-- C3 (corrected): `visitValue` dispatches an AbstractValue before the
`isLeaf` check, so an Abstract value that carries a stable identifier is
*not* treated as a leaf there: its operands are all pushed for visiting
(and the sentinel-member-expression diagnostic may fire), identifier or
not.  The identifier branch of `isLeaf` is unreachable from `visitValue`. -/
theorem C3 (H : Heap) (s : VState) (v : Nat) (i : Bool) (kind : String)
    (hid : Bool) (args : List Nat)
    (hval : H.val? v = some ⟨i, .abstract kind hid args⟩) (hv : v ∉ s.values) :
    stepTask H s (VTask.visit v) =
      (if kind == "sentinel member expression" then
        addDiag { s with values := insert v s.values } v sentinelMsg
       else { s with values := insert v s.values },
       args.map VTask.visit) := by
  simp [stepTask, hv, hval, dispatch]

theorem C3_counterexample :
    isLeaf ⟨false, .abstract "someOp" true [1]⟩ = true ∧
    (stepTask hC3 initState (VTask.visit 0)).2 = [VTask.visit 1] ∧
    1 ∈ (runF hC3 6 (initState, rootTasks hC3)).1.values := by decide

theorem C3_witness :
    (hC3.val? 0 = some ⟨false, .abstract "someOp" true [1]⟩ ∧ 0 ∉ initState.values) ∧
    stepTask hC3 initState (VTask.visit 0) =
      (if "someOp" == "sentinel member expression" then
        addDiag { initState with values := insert 0 initState.values } 0 sentinelMsg
       else { initState with values := insert 0 initState.values },
       [VTask.visit 1]) :=
  ⟨⟨by decide, by decide⟩,
   C3 hC3 initState 0 false "someOp" true [1] (by decide) (by decide)⟩

/-- C4: visiting an object of an unrecognized kind does produce the
non-fatal unsupported-kind diagnostic and the pass continues; but the
arguments-object diagnostic can never fire, because the source checks
`this.$ParameterMap` on the visitor (always undefined) instead of
`val.$ParameterMap` on the object: an object carrying a parameter map
produces no diagnostic at all. -/
theorem C4 :
    (∀ (s1 : VState) (v : Nat),
      (if visitorParameterMap != none then addDiag s1 v argumentsObjectMsg else s1) = s1) ∧
    (runF hC4a 12 (initState, rootTasks hC4a)).1.diagnostics = [] ∧
    halted (runF hC4a 12 (initState, rootTasks hC4a)) = true ∧
    (runF hC4a 12 (initState, rootTasks hC4a)).1.fatal = none ∧
    (runF hC4b 12 (initState, rootTasks hC4b)).1.diagnostics =
      [(0, unsupportedKindMsg "Weird")] ∧
    halted (runF hC4b 12 (initState, rootTasks hC4b)) = true ∧
    (runF hC4b 12 (initState, rootTasks hC4b)).1.fatal = none := by
  refine ⟨fun s1 v => by simp [visitorParameterMap], ?_, ?_, ?_, ?_, ?_, ?_⟩ <;> decide

/-- C5: for an Array object, an own `length` property with descriptor
{writable, not enumerable, not configurable} holding a concrete number is
classified ignorable — the key joins the object's ignorable set and the
length value is not pushed — while with `enumerable := true` it is not
ignorable and the length value is visited. -/
theorem C5 (H : Heap) (s : VState) (v l : Nat) (val : Value)
    (rest : List (String × Option Descriptor)) (k : Int)
    (hval : H.val? v = some val) (harr : IsArray val = true)
    (hl : H.val? l = some ⟨false, .prim (.number k)⟩) :
    stepTask H s (VTask.props v (("length",
        some { writable := true, enumerable := false, configurable := false,
               value := some l, get := none, set := none }) :: rest)) =
      (addIgnored s v "length", [VTask.props v rest]) ∧
    stepTask H s (VTask.props v (("length",
        some { writable := true, enumerable := true, configurable := false,
               value := some l, get := none, set := none }) :: rest)) =
      (s, [VTask.visit l, VTask.props v rest]) := by
  obtain ⟨vi, vd⟩ := val
  cases vd with
  | obj o =>
    constructor
    · simp [stepTask, hval, canIgnoreProperty, harr]
    · simp [stepTask, hval, canIgnoreProperty, harr, descPushes]
  | prim p => simp [IsArray] at harr
  | symbol => simp [IsArray] at harr
  | abstract k h a => simp [IsArray] at harr

theorem C5_witness :
    (hC5.val? 0 = some c5Val ∧ IsArray c5Val = true ∧
      hC5.val? 1 = some ⟨false, .prim (.number 1)⟩) ∧
    (stepTask hC5 initState (VTask.props 0 [("length", some c5desc)]) =
        (addIgnored initState 0 "length", [VTask.props 0 []]) ∧
      stepTask hC5 initState (VTask.props 0 [("length",
          some { writable := true, enumerable := true, configurable := false,
                 value := some 1, get := none, set := none })]) =
        (initState, [VTask.visit 1, VTask.props 0 []])) ∧
    (1 ∉ (runF hC5 12 (initState, rootTasks hC5)).1.values ∧
      nlist (runF hC5 12 (initState, rootTasks hC5)).1.ignoredProperties 0 =
        some ["length"] ∧
      1 ∈ (runF hC5e 12 (initState, rootTasks hC5e)).1.values) :=
  ⟨⟨by decide, by decide, by decide⟩,
   C5 hC5 initState 0 1 c5Val [] 1 (by decide) (by decide) (by decide),
   by decide⟩

/-- C6: the prototype edge is skipped exactly when the prototype equals
the realm intrinsic selected by the object's own kind: an Object-kind
object with the default Object prototype stops, an Array-kind object with
the default Array prototype stops, but an Array-kind object whose
prototype is the default Object prototype (mismatched kind) has its
prototype visited. -/
theorem C6 (H : Heap) (s : VState) (vO vA vM pO pA : Nat)
    (iO iA iM : Bool) (oO oA oM : ObjData)
    (hPO : alist H.intrinsics "ObjectPrototype" = some pO)
    (hPA : alist H.intrinsics "ArrayPrototype" = some pA)
    (hvO : H.val? vO = some ⟨iO, .obj oO⟩) (hkO : oO.kind = "Object")
    (hpO : oO.prototype = pO)
    (hvA : H.val? vA = some ⟨iA, .obj oA⟩) (hkA : oA.kind = "Array")
    (hpA2 : oA.prototype = pA)
    (hvM : H.val? vM = some ⟨iM, .obj oM⟩) (hkM : oM.kind = "Array")
    (hpM : oM.prototype = pO) (hne : pA ≠ pO) :
    stepTask H s (VTask.proto vO) = (s, []) ∧
    stepTask H s (VTask.proto vA) = (s, []) ∧
    stepTask H s (VTask.proto vM) = (s, [VTask.visit pO]) := by
  refine ⟨?_, ?_, ?_⟩
  · simp [stepTask, hvO, hkO, hpO,
      show ("Object" : String) ++ "Prototype" = "ObjectPrototype" from rfl, hPO]
  · simp [stepTask, hvA, hkA, hpA2,
      show ("Array" : String) ++ "Prototype" = "ArrayPrototype" from rfl, hPA]
  · simp [stepTask, hvM, hkM, hpM,
      show ("Array" : String) ++ "Prototype" = "ArrayPrototype" from rfl, hPA, hne]

theorem C6_witness :
    (alist hC6.intrinsics "ObjectPrototype" = some 3 ∧
      alist hC6.intrinsics "ArrayPrototype" = some 4) ∧
    (stepTask hC6 initState (VTask.proto 0) = (initState, []) ∧
      stepTask hC6 initState (VTask.proto 1) = (initState, []) ∧
      stepTask hC6 initState (VTask.proto 2) = (initState, [VTask.visit 3])) ∧
    3 ∈ (runF hC6 40 (initState, rootTasks hC6)).1.values :=
  ⟨⟨by decide, by decide⟩,
   C6 hC6 initState 0 1 2 3 4 false false false c6oO c6oA c6oM
     (by decide) (by decide) (by decide) (by decide) (by decide) (by decide)
     (by decide) (by decide) (by decide) (by decide) (by decide) (by decide),
   by decide⟩

/-- C7: a Map-family object visits exactly the entries whose key and value
slots are both present; a three-entry map whose second entry's key is
absent yields exactly the first and third entries' key/value visits. -/
theorem C7 (H : Heap) (s : VState) (v : Nat) (intr : Bool) (o : ObjData)
    (entries : List MapEntry)
    (hval : H.val? v = some ⟨intr, .obj o⟩) (hctor : o.originalConstructor = none)
    (hkind : o.kind = "Map") (hmd : o.mapData = some entries) :
    stepTask H s (VTask.objRest v) = (s, mapEntryTasks entries) ∧
    ∀ (k w : Nat) (e2v : Option Nat) (k3 w3 : Nat),
      mapEntryTasks [⟨some k, some w⟩, ⟨none, e2v⟩, ⟨some k3, some w3⟩] =
        [VTask.visit k, VTask.visit w, VTask.visit k3, VTask.visit w3] := by
  constructor
  · simp [stepTask, hval, hctor, hkind, hmd, typedViewKinds]
  · intro k w e2v k3 w3
    simp [mapEntryTasks]

theorem C7_witness :
    (hC7.val? 0 = some ⟨false, .obj c7Obj⟩ ∧ c7Obj.kind = "Map" ∧
      c7Obj.mapData = some [⟨some 1, some 2⟩, ⟨none, some 3⟩, ⟨some 4, some 5⟩]) ∧
    (stepTask hC7 initState (VTask.objRest 0) =
        (initState,
          mapEntryTasks [⟨some 1, some 2⟩, ⟨none, some 3⟩, ⟨some 4, some 5⟩]) ∧
      ∀ (k w : Nat) (e2v : Option Nat) (k3 w3 : Nat),
        mapEntryTasks [⟨some k, some w⟩, ⟨none, e2v⟩, ⟨some k3, some w3⟩] =
          [VTask.visit k, VTask.visit w, VTask.visit k3, VTask.visit w3]) ∧
    ((runF hC7 20 (initState, rootTasks hC7)).1.values = {0, 1, 2, 4, 5} ∧
      3 ∉ (runF hC7 20 (initState, rootTasks hC7)).1.values) :=
  ⟨⟨by decide, by decide, by decide⟩,
   C7 hC7 initState 0 false c7Obj [⟨some 1, some 2⟩, ⟨none, some 3⟩, ⟨some 4, some 5⟩]
     (by decide) (by decide) (by decide) (by decide),
   by decide⟩

/-- C8: when the resolver returns a reference whose resolved name is a
symbol, the free-name loop of `visitValueFunction` aborts with the fatal
symbol-reference error — every table and the diagnostics sink are left
untouched, and the machine is halted from that state on. -/
theorem C8 (H : Heap) (s : VState) (fn code : Nat) (innerName : String)
    (rest : List String) (acc : List (String × Nat)) (intr : Bool) (o : ObjData)
    (f : FnData) (fcode env : Nat) (ref : Reference)
    (hval : H.val? fn = some ⟨intr, .obj o⟩) (hcls : o.cls = .fn f)
    (hk : f.kind = .plain fcode env)
    (hres : H.resolve innerName env = some ref) (hsym : ref.referencedName = .sym) :
    stepTask H s (VTask.fnames fn code (innerName :: rest) acc) =
      (setFatal s symbolRefMsg, []) ∧
    (∀ K : List VTask, halted (setFatal s symbolRefMsg, K) = true) ∧
    (setFatal s symbolRefMsg).functionBindings = s.functionBindings ∧
    (setFatal s symbolRefMsg).globalBindings = s.globalBindings ∧
    (setFatal s symbolRefMsg).declBindings = s.declBindings ∧
    (setFatal s symbolRefMsg).store = s.store ∧
    (setFatal s symbolRefMsg).diagnostics = s.diagnostics := by
  refine ⟨?_, ?_, rfl, rfl, rfl, rfl, rfl⟩
  · obtain ⟨base, rname⟩ := ref
    simp only at hsym
    subst hsym
    simp [stepTask, hval, hcls, hk, hres]
  · intro K
    simp [halted, setFatal]

theorem C8_witness :
    (hC8.resolve "s" 0 = some ⟨.decl 0, .sym⟩ ∧
      (runF hC8 10 (initState, [VTask.fnRest 0])).1.fatal = some symbolRefMsg) ∧
    (stepTask hC8 initState (VTask.fnames 0 1 ["s"] []) =
        (setFatal initState symbolRefMsg, []) ∧
      (∀ K : List VTask, halted (setFatal initState symbolRefMsg, K) = true) ∧
      (setFatal initState symbolRefMsg).functionBindings = initState.functionBindings ∧
      (setFatal initState symbolRefMsg).globalBindings = initState.globalBindings ∧
      (setFatal initState symbolRefMsg).declBindings = initState.declBindings ∧
      (setFatal initState symbolRefMsg).store = initState.store ∧
      (setFatal initState symbolRefMsg).diagnostics = initState.diagnostics) :=
  ⟨⟨by decide, by decide⟩,
   C8 hC8 initState 0 1 "s" [] [] false c8Obj c2Fn 1 0 ⟨.decl 0, .sym⟩
     (by decide) (by decide) (by decide) (by decide) (by decide)⟩

/-- C9: the pass is deterministic: two runs from a fresh visitor over the
same heap and roots that both halt yield the same visited set,
ignorable-property sets, binding tables, shared binding store, and
per-function capture tables. -/
theorem C9 (H : Heap) (m n : Nat)
    (hm : halted (runF H m (initState, rootTasks H)) = true)
    (hn : halted (runF H n (initState, rootTasks H)) = true) :
    (runF H m (initState, rootTasks H)).1.values =
      (runF H n (initState, rootTasks H)).1.values ∧
    (runF H m (initState, rootTasks H)).1.ignoredProperties =
      (runF H n (initState, rootTasks H)).1.ignoredProperties ∧
    (runF H m (initState, rootTasks H)).1.globalBindings =
      (runF H n (initState, rootTasks H)).1.globalBindings ∧
    (runF H m (initState, rootTasks H)).1.declBindings =
      (runF H n (initState, rootTasks H)).1.declBindings ∧
    (runF H m (initState, rootTasks H)).1.store =
      (runF H n (initState, rootTasks H)).1.store ∧
    (runF H m (initState, rootTasks H)).1.functionBindings =
      (runF H n (initState, rootTasks H)).1.functionBindings := by
  rw [runF_halted_unique H m n _ hm hn]
  exact ⟨rfl, rfl, rfl, rfl, rfl, rfl⟩

theorem C9_witness :
    (halted (runF hC9 3 (initState, rootTasks hC9)) = true ∧
      halted (runF hC9 5 (initState, rootTasks hC9)) = true) ∧
    ((runF hC9 3 (initState, rootTasks hC9)).1.values =
        (runF hC9 5 (initState, rootTasks hC9)).1.values ∧
      (runF hC9 3 (initState, rootTasks hC9)).1.ignoredProperties =
        (runF hC9 5 (initState, rootTasks hC9)).1.ignoredProperties ∧
      (runF hC9 3 (initState, rootTasks hC9)).1.globalBindings =
        (runF hC9 5 (initState, rootTasks hC9)).1.globalBindings ∧
      (runF hC9 3 (initState, rootTasks hC9)).1.declBindings =
        (runF hC9 5 (initState, rootTasks hC9)).1.declBindings ∧
      (runF hC9 3 (initState, rootTasks hC9)).1.store =
        (runF hC9 5 (initState, rootTasks hC9)).1.store ∧
      (runF hC9 3 (initState, rootTasks hC9)).1.functionBindings =
        (runF hC9 5 (initState, rootTasks hC9)).1.functionBindings) :=
  ⟨⟨by decide, by decide⟩, C9 hC9 3 5 (by decide) (by decide)⟩

/-- C10: a non-function, non-array object with a default-constructor
back-reference is dispatched to its property walk, computed-name check and
prototype walk, and the remainder of `visitValueObject` then visits the
constructor itself — skipping every kind-specific extra visit (Date value,
viewed buffer, Map/Set entries) and emitting no diagnostic. -/
theorem C10 (H : Heap) (s : VState) (v c : Nat) (o : ObjData)
    (hval : H.val? v = some ⟨false, .obj o⟩) (hcls : o.cls = .plainObj)
    (hkind : o.kind ≠ "Array") (hctor : o.originalConstructor = some c) :
    dispatch H s v ⟨false, .obj o⟩ =
      (s, [VTask.props v o.properties, VTask.unknown v, VTask.proto v,
        VTask.objRest v]) ∧
    stepTask H s (VTask.objRest v) = (s, [VTask.visit c]) := by
  constructor
  · simp [dispatch, isLeaf, IsArray, hcls, hkind]
  · simp [stepTask, hval, hctor]

theorem C10_witness :
    (hC10.val? 0 = some ⟨false, .obj c10Obj⟩ ∧ c10Obj.originalConstructor = some 1 ∧
      c10Obj.dateValue = some 2) ∧
    (dispatch hC10 initState 0 ⟨false, .obj c10Obj⟩ =
        (initState, [VTask.props 0 c10Obj.properties, VTask.unknown 0, VTask.proto 0,
          VTask.objRest 0]) ∧
      stepTask hC10 initState (VTask.objRest 0) = (initState, [VTask.visit 1])) ∧
    (1 ∈ (runF hC10 20 (initState, rootTasks hC10)).1.values ∧
      2 ∉ (runF hC10 20 (initState, rootTasks hC10)).1.values ∧
      (runF hC10 20 (initState, rootTasks hC10)).1.diagnostics = []) :=
  ⟨⟨by decide, by decide, by decide⟩,
   C10 hC10 initState 0 1 c10Obj (by decide) (by decide) (by decide) (by decide),
   by decide⟩
